import Mathlib

/-!
Shenandoah barrier set assembler (x86_64): the emitted barrier code.

A shallow embedding of `shenandoahBarrierSetAssembler_x86.cpp`.  Every emitter
of the source (`read_barrier_impl`, `write_barrier_impl`, `cmpxchg_oop`, ...)
becomes the state transformer that its emitted instruction sequence performs on
a machine: the same instructions, in the same order, with the emit-time
conditions (`if (ShenandoahReadBarrier)`, `if (dst != rax)`, ...) as Lean
conditionals on the configuration and the run-time branches (`jcc`) as
conditionals on the zero flag.

Conventions.
* Words are natural numbers; 64-bit arithmetic wraps modulo `2 ^ 64`, and a
  negative displacement is given by its two's-complement encoding.
* Memory is a map from addresses to cells.  Accesses of different widths to
  one address see the same cell (byte instructions use the low byte, 32-bit
  instructions the low 32 bits); partially overlapping accesses are not
  modelled.
* The machine stack is kept apart from the memory map: `push`/`pop`, `pusha`/
  `popa` and the `rsp`-relative spill of `xmm0` work on a list of words.
* Every memory access and every runtime call is recorded in a trace.
-/

namespace Shenandoah

/-- General registers of x86_64, and `noreg`. -/
inductive Register
  | rax | rcx | rdx | rbx | rsp | rbp | rsi | rdi
  | r8 | r9 | r10 | r11 | r12 | r13 | r14 | r15
  | noreg
  deriving DecidableEq, Repr

open Register

/-- Scratch register `rscratch1` of the x86_64 port (`r10`). -/
def rscratch1 : Register := r10

/-- Scratch register `rscratch2` of the x86_64 port (`r11`). -/
def rscratch2 : Register := r11

/-- Register holding the current thread on x86_64 (`r15`). -/
def r15_thread : Register := r15

/-- Runtime entry points the barrier code calls into. -/
inductive Entry
  | write_barrier_IRT
  | g1_wb_pre
  | write_ref_array_pre_oop_entry
  | write_ref_array_pre_narrow_oop_entry
  | write_ref_array_post_entry
  deriving DecidableEq, Repr

/-- Observable actions of the emitted code: memory reads, memory writes,
hardware compare-and-swap attempts (address, compared value, new value,
success) and runtime calls (entry point, argument values). -/
inductive Event
  | load (a : Nat)
  | store (a v : Nat)
  | cas (a expected new : Nat) (ok : Bool)
  | call (e : Entry) (args : List Nat)
  deriving DecidableEq, Repr

/-- Operand `Address(base, index, scale, disp)`; `index = noreg` when absent. -/
structure Address where
  base : Register
  index : Register
  scale : Nat
  disp : Nat
  deriving DecidableEq, Repr

/-- The operand `Address(base, disp)`. -/
def Address.mk2 (base : Register) (disp : Nat) : Address := ⟨base, noreg, 1, disp⟩

/-- The subset of access decorators that the barrier code inspects. -/
structure DecoratorSet where
  IN_HEAP : Bool := false
  IN_CONCURRENT_ROOT : Bool := false
  ON_WEAK_OOP_REF : Bool := false
  ON_PHANTOM_OOP_REF : Bool := false
  OOP_NOT_NULL : Bool := false
  ARRAYCOPY_CHECKCAST : Bool := false
  ARRAYCOPY_DISJOINT : Bool := false
  AS_DEST_NOT_INITIALIZED : Bool := false
  deriving DecidableEq, Repr

/-- Element types of an access. -/
inductive BasicType
  | T_BOOLEAN | T_CHAR | T_FLOAT | T_DOUBLE | T_BYTE | T_SHORT | T_INT | T_LONG
  | T_OBJECT | T_ARRAY
  deriving DecidableEq, Repr

/-- VM flags and the constants that the emitters read from declarations outside
this file (`ShenandoahHeap`, `BrooksPointer`, `ShenandoahThreadLocalData`,
`ShenandoahHeapRegion`, `ShenandoahConnectionMatrix`, the calling convention and
the compressed-reference codec). -/
structure VM where
  ShenandoahSATBBarrier : Bool
  ShenandoahReadBarrier : Bool
  ShenandoahWriteBarrier : Bool
  ShenandoahStoreValReadBarrier : Bool
  ShenandoahStoreValEnqueueBarrier : Bool
  ShenandoahKeepAliveBarrier : Bool
  ShenandoahAcmpBarrier : Bool
  ShenandoahCASBarrier : Bool
  UseShenandoahMatrix : Bool
  UseCompressedOops : Bool
  /-- Bit `ShenandoahHeap::MARKING` of the gc state. -/
  MARKING : Nat
  /-- Bit `ShenandoahHeap::EVACUATION` of the gc state. -/
  EVACUATION : Nat
  /-- Bit `ShenandoahHeap::TRAVERSAL` of the gc state. -/
  TRAVERSAL : Nat
  wordSize : Nat
  /-- Value of `BrooksPointer::byte_offset()`, two's complement. -/
  brooks_byte_offset : Nat
  region_size_bytes_shift : Nat
  in_cset_fast_test_addr : Nat
  heap_base : Nat
  matrix_addr : Nat
  matrix_stride : Nat
  gc_state_offset : Nat
  satb_mark_queue_active_offset : Nat
  satb_mark_queue_index_offset : Nat
  satb_mark_queue_buffer_offset : Nat
  byte_width_of_active : Nat
  c_rarg0 : Register
  c_rarg1 : Register
  /-- Effect of `encode_heap_oop` on a register value. -/
  encode : Nat → Nat
  /-- Effect of `decode_heap_oop` on a register value. -/
  decode : Nat → Nat

/-- What a runtime call leaves behind: its return value, the memory and the
global SATB pool after the call, and the contents of the registers that the
calling convention lets the callee overwrite. -/
structure Outcome where
  ret : Nat
  mem : Nat → Nat
  pool : List (List Nat)
  junk : Register → Nat
  xmm0 : Nat
  zf : Bool

/-- The runtime behind the leaf calls: an external collaborator. -/
abbrev Runtime := Entry → List Nat → (Nat → Nat) → List (List Nat) → Outcome

/-- Machine state on which the emitted code runs. -/
structure Machine where
  regs : Register → Nat
  zf : Bool
  xmm0 : Nat
  mem : Nat → Nat
  stack : List Nat
  /-- Completed SATB buffers held by the global pool. -/
  pool : List (List Nat)
  trace : List Event

/-- Word size of the machine arithmetic. -/
def W : Nat := 2 ^ 64

/-- Register file update. -/
def setReg (r : Register) (v : Nat) (s : Machine) : Machine :=
  { s with regs := fun x => if x = r then v else s.regs x }

/-- Effective address of an operand. -/
def ea (a : Address) (s : Machine) : Nat :=
  (s.regs a.base + (if a.index = noreg then 0 else s.regs a.index * a.scale) + a.disp) % W

/-- Memory read, recorded in the trace. -/
def readMem (a : Nat) (s : Machine) : Nat × Machine :=
  (s.mem a, { s with trace := s.trace ++ [Event.load a] })

/-- Memory write, recorded in the trace. -/
def writeMem (a v : Nat) (s : Machine) : Machine :=
  { s with mem := fun x => if x = a then v else s.mem x,
           trace := s.trace ++ [Event.store a v] }

/-! ## Instructions

The instructions of the code-emission backend that the barrier code uses, with
their x86_64 meaning.  Moves do not touch the flags; compares, tests and
arithmetic set the zero flag from their result. -/

/-- Register to register move (`movptr`, `movq`, `mov`). -/
def movptr_rr (dst src : Register) (s : Machine) : Machine :=
  setReg dst (s.regs src) s

/-- Load of an immediate (`movptr(reg, imm)`). -/
def movptr_ri (dst : Register) (imm : Nat) (s : Machine) : Machine :=
  setReg dst (imm % W) s

/-- Word load (`movptr(reg, Address)`). -/
def movptr_rm (dst : Register) (src : Address) (s : Machine) : Machine :=
  let (v, s1) := readMem (ea src s) s
  setReg dst v s1

/-- Word store (`movptr(Address, reg)`). -/
def movptr_mr (dst : Address) (src : Register) (s : Machine) : Machine :=
  writeMem (ea dst s) (s.regs src) s

/-- Move of the low 32 bits, zero-extended (`movl(reg, reg)`). -/
def movl_rr (dst src : Register) (s : Machine) : Machine :=
  setReg dst (s.regs src % 2 ^ 32) s

/-- Load of a 32-bit cell, zero-extended (`movl(reg, Address)`). -/
def movl_rm (dst : Register) (src : Address) (s : Machine) : Machine :=
  let (v, s1) := readMem (ea src s) s
  setReg dst (v % 2 ^ 32) s1

/-- Store of the low 32 bits (`movl(Address, reg)`). -/
def movl_mr (dst : Address) (src : Register) (s : Machine) : Machine :=
  writeMem (ea dst s) (s.regs src % 2 ^ 32) s

/-- Store of an immediate word (`movptr(Address, imm)`, `movl(Address, imm)`). -/
def movptr_mi (dst : Address) (imm : Nat) (s : Machine) : Machine :=
  writeMem (ea dst s) imm s

/-- Byte store of an immediate (`movb(Address, imm)`). -/
def movb_mi (dst : Address) (imm : Nat) (s : Machine) : Machine :=
  writeMem (ea dst s) (imm % 256) s

/-- Load of a boolean byte, zero-extended (`movbool(reg, Address)`). -/
def movbool_rm (dst : Register) (src : Address) (s : Machine) : Machine :=
  let (v, s1) := readMem (ea src s) s
  setReg dst (v % 256) s1

/-- Address computation (`lea`). -/
def lea (dst : Register) (src : Address) (s : Machine) : Machine :=
  setReg dst (ea src s) s

/-- Exchange of two registers (`xchgptr`). -/
def xchgptr (a b : Register) (s : Machine) : Machine :=
  { s with regs := fun x => if x = a then s.regs b else if x = b then s.regs a else s.regs x }

/-- Compare of two registers (`cmpptr(reg, reg)`). -/
def cmpptr_rr (a b : Register) (s : Machine) : Machine :=
  { s with zf := decide (s.regs a = s.regs b) }

/-- Compare of a register with an immediate (`cmpptr(reg, imm)`). -/
def cmpptr_ri (a : Register) (imm : Nat) (s : Machine) : Machine :=
  { s with zf := decide (s.regs a = imm) }

/-- Compare of a register with a memory word (`cmpptr(reg, Address)`). -/
def cmpptr_rm (a : Register) (b : Address) (s : Machine) : Machine :=
  let (v, s1) := readMem (ea b s) s
  { s1 with zf := decide (s.regs a = v) }

/-- Compare of a memory byte with an immediate (`cmpb(Address, imm)`). -/
def cmpb_mi (a : Address) (imm : Nat) (s : Machine) : Machine :=
  let (v, s1) := readMem (ea a s) s
  { s1 with zf := decide (v % 256 = imm % 256) }

/-- Compare of a 32-bit memory cell with an immediate (`cmpl(Address, imm)`). -/
def cmpl_mi (a : Address) (imm : Nat) (s : Machine) : Machine :=
  let (v, s1) := readMem (ea a s) s
  { s1 with zf := decide (v % 2 ^ 32 = imm % 2 ^ 32) }

/-- Bitwise test of two registers (`testptr(reg, reg)`). -/
def testptr (a b : Register) (s : Machine) : Machine :=
  { s with zf := decide (s.regs a &&& s.regs b = 0) }

/-- Bitwise test of a memory byte against a mask (`testb(Address, imm)`). -/
def testb_mi (a : Address) (mask : Nat) (s : Machine) : Machine :=
  let (v, s1) := readMem (ea a s) s
  { s1 with zf := decide ((v % 256) &&& (mask % 256) = 0) }

/-- Bitwise test of the low byte of a register (`testb(reg, imm)`). -/
def testb_ri (a : Register) (mask : Nat) (s : Machine) : Machine :=
  { s with zf := decide ((s.regs a % 256) &&& (mask % 256) = 0) }

/-- Subtraction of an immediate (`subptr(reg, imm)`). -/
def subptr_ri (dst : Register) (imm : Nat) (s : Machine) : Machine :=
  let v := (s.regs dst + (W - imm % W)) % W
  { setReg dst v s with zf := decide (v = 0) }

/-- Subtraction of a register (`subptr(reg, reg)`). -/
def subptr_rr (dst src : Register) (s : Machine) : Machine :=
  let v := (s.regs dst + (W - s.regs src % W)) % W
  { setReg dst v s with zf := decide (v = 0) }

/-- Addition of a register (`addptr(reg, reg)`). -/
def addptr_rr (dst src : Register) (s : Machine) : Machine :=
  let v := (s.regs dst + s.regs src) % W
  { setReg dst v s with zf := decide (v = 0) }

/-- Addition of a memory word (`addptr(reg, Address)`). -/
def addptr_rm (dst : Register) (src : Address) (s : Machine) : Machine :=
  let (m, s1) := readMem (ea src s) s
  let v := (s.regs dst + m) % W
  { setReg dst v s1 with zf := decide (v = 0) }

/-- Logical shift right by an immediate (`shrptr`); a zero count leaves the
flags alone. -/
def shrptr (dst : Register) (n : Nat) (s : Machine) : Machine :=
  let v := (s.regs dst % W) >>> n
  { setReg dst v s with zf := if n = 0 then s.zf else decide (v = 0) }

/-- Multiplication by an immediate (`imulptr(dst, src, imm)`); the zero flag is
left as it was. -/
def imulptr (dst src : Register) (imm : Nat) (s : Machine) : Machine :=
  setReg dst ((s.regs src * imm) % W) s

/-- Byte set on `equal` (`setb(Assembler::equal, reg)`): the low byte of the
register becomes the zero flag. -/
def setb_equal (dst : Register) (s : Machine) : Machine :=
  setReg dst (s.regs dst / 256 * 256 + (if s.zf then 1 else 0)) s

/-- Zero extension of the low byte (`movzbl(reg, reg)`). -/
def movzbl (dst src : Register) (s : Machine) : Machine :=
  setReg dst (s.regs src % 256) s

/-- Push of a register (`push`). -/
def push (r : Register) (s : Machine) : Machine :=
  { s with stack := s.regs r :: s.stack }

/-- Pop into a register (`pop`). -/
def pop (r : Register) (s : Machine) : Machine :=
  { setReg r (s.stack.headD 0) s with stack := s.stack.tail }

/-- Spill of `xmm0` to a fresh stack slot
(`subptr(rsp, 2 * stackElementSize); movdbl(Address(rsp, 0), xmm0)`). -/
def push_xmm0 (s : Machine) : Machine :=
  { s with stack := s.xmm0 :: s.stack }

/-- Reload of `xmm0` from its stack slot
(`movdbl(xmm0, Address(rsp, 0)); addptr(rsp, 2 * stackElementSize)`). -/
def pop_xmm0 (s : Machine) : Machine :=
  { s with xmm0 := s.stack.headD 0, stack := s.stack.tail }

/-- Registers saved by `pusha`, in the order of their stack slots. -/
def savedRegs : List Register :=
  [rax, rcx, rdx, rbx, rbp, rsi, rdi, r8, r9, r10, r11, r12, r13, r14, r15]

/-- Save of all general registers (`pusha`). -/
def pusha (s : Machine) : Machine :=
  { s with stack := savedRegs.map s.regs ++ s.stack }

/-- Restore of all general registers (`popa`). -/
def popa (s : Machine) : Machine :=
  { s with regs := fun x =>
             if x ∈ savedRegs then s.stack.getD (savedRegs.indexOf x) 0 else s.regs x,
           stack := s.stack.drop savedRegs.length }

/-- Locked `cmpxchgptr(newval, addr)`: compares `rax` with the memory word; on
a match stores `newval` and sets the zero flag, otherwise loads the witnessed
word into `rax` and clears the zero flag. -/
def cmpxchgptr (newval : Register) (addr : Address) (s : Machine) : Machine :=
  let a := ea addr s
  if s.regs rax = s.mem a then
    { s with mem := fun x => if x = a then s.regs newval else s.mem x,
             zf := true,
             trace := s.trace ++ [Event.cas a (s.regs rax) (s.regs newval) true] }
  else
    { setReg rax (s.mem a) s with
             zf := false,
             trace := s.trace ++ [Event.cas a (s.regs rax) (s.regs newval) false] }

/-- Locked `cmpxchgl(newval, addr)`: the 32-bit form, on `eax` and a 32-bit
cell; the witnessed value is zero-extended into `rax`. -/
def cmpxchgl (newval : Register) (addr : Address) (s : Machine) : Machine :=
  let a := ea addr s
  if s.regs rax % 2 ^ 32 = s.mem a % 2 ^ 32 then
    { s with mem := fun x => if x = a then s.regs newval % 2 ^ 32 else s.mem x,
             zf := true,
             trace := s.trace ++
               [Event.cas a (s.regs rax % 2 ^ 32) (s.regs newval % 2 ^ 32) true] }
  else
    { setReg rax (s.mem a % 2 ^ 32) s with
             zf := false,
             trace := s.trace ++
               [Event.cas a (s.regs rax % 2 ^ 32) (s.regs newval % 2 ^ 32) false] }

/-- Compression of the reference in a register (`encode_heap_oop`). -/
def encode_heap_oop (vm : VM) (r : Register) (s : Machine) : Machine :=
  setReg r (vm.encode (s.regs r)) s

/-- Decompression of the reference in a register (`decode_heap_oop`). -/
def decode_heap_oop (vm : VM) (r : Register) (s : Machine) : Machine :=
  setReg r (vm.decode (s.regs r)) s

/-- Registers that a callee must preserve. -/
def calleeSaved (r : Register) : Bool :=
  r = rbx || r = rbp || r = rsp || r = r12 || r = r13 || r = r14 || r = r15 || r = noreg

/-- Leaf call into the runtime with the arguments already in the argument
registers (`call_VM_leaf_base(entry, number_of_arguments)`).  The return value
arrives in `rax`; the callee-saved registers and the stack are preserved, every
other register holds what the callee left there. -/
def call_VM_leaf_base (vm : VM) (rt : Runtime) (e : Entry) (nargs : Nat) (s : Machine) :
    Machine :=
  let args := ([vm.c_rarg0, vm.c_rarg1].take nargs).map s.regs
  let o := rt e args s.mem s.pool
  { regs := fun x => if x = rax then o.ret else if calleeSaved x then s.regs x else o.junk x,
    zf := o.zf,
    xmm0 := o.xmm0,
    mem := o.mem,
    stack := s.stack,
    pool := o.pool,
    trace := s.trace ++ [Event.call e args] }

/-- Leaf call with one argument (`super_call_VM_leaf(entry, arg_0)`): the
argument is moved to the first argument register unless it is there already. -/
def super_call_VM_leaf (vm : VM) (rt : Runtime) (e : Entry) (arg_0 : Register)
    (s : Machine) : Machine :=
  let s := if vm.c_rarg0 ≠ arg_0 then movptr_rr vm.c_rarg0 arg_0 s else s
  call_VM_leaf_base vm rt e 1 s

/-- Leaf call with two arguments (`call_VM_leaf(entry, arg_0, arg_1)`): the
second argument is passed first, then the first. -/
def call_VM_leaf2 (vm : VM) (rt : Runtime) (e : Entry) (arg_0 arg_1 : Register)
    (s : Machine) : Machine :=
  let s := if vm.c_rarg1 ≠ arg_1 then movptr_rr vm.c_rarg1 arg_1 s else s
  let s := if vm.c_rarg0 ≠ arg_0 then movptr_rr vm.c_rarg0 arg_0 s else s
  call_VM_leaf_base vm rt e 2 s

/-- Raw reference load (`load_heap_oop(dst, src, noreg, noreg, AS_RAW)`). -/
def load_heap_oop (vm : VM) (dst : Register) (src : Address) (s : Machine) : Machine :=
  if vm.UseCompressedOops then
    decode_heap_oop vm dst (movl_rm dst src s)
  else
    movptr_rm dst src s

/-! ## Raw accesses of the base barrier set assembler

`BarrierSetAssembler::load_at`, `store_at` and `cmpxchg_oop` of the x86 port
are not part of the sources at hand; the emitters below call them for the raw
memory access. -/

/-- Sign extension of the low `bits` bits to 32 bits, zero-extended to 64. -/
def sext32 (bits v : Nat) : Nat :=
  if v % 2 ^ bits < 2 ^ (bits - 1) then v % 2 ^ bits else v % 2 ^ bits + (2 ^ 32 - 2 ^ bits)

/-- Modelled from the spec: the raw load of `BarrierSetAssembler::load_at`
(the "raw load" of `loadReference`).  A reference is loaded as a word, or as a
32-bit cell that is then decoded under compressed references; `T_LONG`,
`T_FLOAT` and `T_DOUBLE` load into `rax` and `xmm0`. -/
def BarrierSetAssembler.load_at (vm : VM) (decorators : DecoratorSet) (type : BasicType)
    (dst : Register) (src : Address) (s : Machine) : Machine :=
  match type with
  | .T_OBJECT | .T_ARRAY =>
    if decorators.IN_HEAP then
      if vm.UseCompressedOops then decode_heap_oop vm dst (movl_rm dst src s)
      else movptr_rm dst src s
    else movptr_rm dst src s
  | .T_BOOLEAN => let (v, s1) := readMem (ea src s) s; setReg dst (v % 2 ^ 8) s1
  | .T_BYTE => let (v, s1) := readMem (ea src s) s; setReg dst (sext32 8 v) s1
  | .T_CHAR => let (v, s1) := readMem (ea src s) s; setReg dst (v % 2 ^ 16) s1
  | .T_SHORT => let (v, s1) := readMem (ea src s) s; setReg dst (sext32 16 v) s1
  | .T_INT => movl_rm dst src s
  | .T_LONG => movptr_rm rax src s
  | .T_FLOAT => let (v, s1) := readMem (ea src s) s; { s1 with xmm0 := v % 2 ^ 32 }
  | .T_DOUBLE => let (v, s1) := readMem (ea src s) s; { s1 with xmm0 := v }

/-- Modelled from the spec: the raw store of `BarrierSetAssembler::store_at`
(the "raw store" of `storeReference`).  With `val = noreg` a null reference is
stored; under compressed references the value register is encoded in place and
its low 32 bits are stored. -/
def BarrierSetAssembler.store_at (vm : VM) (decorators : DecoratorSet) (type : BasicType)
    (dst : Address) (val : Register) (s : Machine) : Machine :=
  match type with
  | .T_OBJECT | .T_ARRAY =>
    if decorators.IN_HEAP then
      if val = noreg then movptr_mi dst 0 s
      else if vm.UseCompressedOops then
        let s1 := encode_heap_oop vm val s
        movl_mr dst val s1
      else movptr_mr dst val s
    else movptr_mr dst val s
  | .T_BOOLEAN => writeMem (ea dst s) (s.regs val % 2) s
  | .T_BYTE => writeMem (ea dst s) (s.regs val % 2 ^ 8) s
  | .T_CHAR | .T_SHORT => writeMem (ea dst s) (s.regs val % 2 ^ 16) s
  | .T_INT => movl_mr dst val s
  | .T_LONG => movptr_mr dst rax s
  | .T_FLOAT => writeMem (ea dst s) (s.xmm0 % 2 ^ 32) s
  | .T_DOUBLE => writeMem (ea dst s) s.xmm0 s

/-- Modelled from the spec: `BarrierSetAssembler::cmpxchg_oop`, the plain
hardware compare-and-swap used when the CAS barrier is disabled. -/
def BarrierSetAssembler.cmpxchg_oop (vm : VM) (res : Register) (addr : Address)
    (oldval newval : Register) (exchange encode : Bool) (s : Machine) : Machine :=
  let s :=
    if vm.UseCompressedOops then
      if encode then
        let s := encode_heap_oop vm oldval s
        let s := movptr_rr rscratch1 newval s
        let s := encode_heap_oop vm rscratch1 s
        cmpxchgl rscratch1 addr s
      else cmpxchgl newval addr s
    else cmpxchgptr newval addr s
  if !exchange then movzbl res res (setb_equal res s) else s

/-! ## The emitters of `shenandoahBarrierSetAssembler_x86.cpp` (LP64) -/

/-- Emitted by `arraycopy_prologue`.  `count` or `dst` is first saved in `r11`
for the epilogue; then, unless the destination is uninitialised or the thread's
SATB-active flag is zero, all registers are pushed, `dst` and `count` are moved
to the argument registers and the array pre-write entry is called. -/
def arraycopy_prologue (vm : VM) (rt : Runtime) (decorators : DecoratorSet) (type : BasicType)
    (_src dst count : Register) (s : Machine) : Machine :=
  let checkcast := decorators.ARRAYCOPY_CHECKCAST
  let disjoint := decorators.ARRAYCOPY_DISJOINT
  let obj_int := decide (type = BasicType.T_OBJECT) && vm.UseCompressedOops
  let dest_uninitialized := decorators.AS_DEST_NOT_INITIALIZED
  if type = BasicType.T_OBJECT ∨ type = BasicType.T_ARRAY then
    let s :=
      if !checkcast && !obj_int then
        -- Save count for barrier
        movptr_rr r11 count s
      else if disjoint && obj_int then
        -- Save dst in r11 in the disjoint case
        movptr_rr r11 dst s
      else s
    if !dest_uninitialized then
      let in_progress := Address.mk2 r15_thread vm.satb_mark_queue_active_offset
      -- Is marking active?
      let s :=
        if vm.byte_width_of_active = 4 then cmpl_mi in_progress 0 s
        else cmpb_mi in_progress 0 s
      if s.zf then s          -- jcc(equal, filtered)
      else
        let s := pusha s
        let s :=
          if count = vm.c_rarg0 then
            if dst = vm.c_rarg1 then
              -- exactly backwards!!
              xchgptr vm.c_rarg1 vm.c_rarg0 s
            else
              movptr_rr vm.c_rarg0 dst (movptr_rr vm.c_rarg1 count s)
          else
            movptr_rr vm.c_rarg1 count (movptr_rr vm.c_rarg0 dst s)
        let s :=
          if vm.UseCompressedOops then
            call_VM_leaf_base vm rt Entry.write_ref_array_pre_narrow_oop_entry 2 s
          else
            call_VM_leaf_base vm rt Entry.write_ref_array_pre_oop_entry 2 s
        popa s
    else s
  else s

/-- Emitted by `read_barrier_not_null_impl`: one load through the forwarding
word, `movptr(dst, Address(dst, BrooksPointer::byte_offset()))`. -/
def read_barrier_not_null_impl (vm : VM) (dst : Register) (s : Machine) : Machine :=
  movptr_rm dst (Address.mk2 dst vm.brooks_byte_offset) s

/-- Emitted by `read_barrier_not_null`. -/
def read_barrier_not_null (vm : VM) (dst : Register) (s : Machine) : Machine :=
  if vm.ShenandoahReadBarrier then read_barrier_not_null_impl vm dst s else s

/-- Emitted by `read_barrier_impl`: null test, then the forwarding load. -/
def read_barrier_impl (vm : VM) (dst : Register) (s : Machine) : Machine :=
  let s := testptr dst dst s
  if s.zf then s            -- jcc(zero, is_null)
  else read_barrier_not_null_impl vm dst s

/-- Emitted by `read_barrier`. -/
def read_barrier (vm : VM) (dst : Register) (s : Machine) : Machine :=
  if vm.ShenandoahReadBarrier then read_barrier_impl vm dst s else s

/-- The collection-set test of `write_barrier_impl`: the byte of the
`in_cset_fast_test` table for the region of `dst` is tested against 1, with
`rscratch1` and `rscratch2` saved around the test. -/
def write_barrier_cset_test (vm : VM) (dst : Register) (s : Machine) : Machine :=
  let s := push rscratch1 s
  let s := push rscratch2 s
  let s := movptr_rr rscratch1 dst s
  let s := shrptr rscratch1 vm.region_size_bytes_shift s
  let s := movptr_ri rscratch2 vm.in_cset_fast_test_addr s
  let s := movbool_rm rscratch2 ⟨rscratch2, rscratch1, 1, 0⟩ s
  let s := testb_ri rscratch2 1 s
  let s := pop rscratch2 s
  pop rscratch1 s

/-- The slow path of `write_barrier_impl`: the call of
`ShenandoahBarrierSet::write_barrier_IRT` on `dst`, whose result replaces
`dst`, with the possibly live registers saved around the call. -/
def write_barrier_slow (vm : VM) (rt : Runtime) (dst : Register) (s : Machine) : Machine :=
  let s := push rscratch1 s
  -- Save possibly live regs.
  let s := if dst ≠ rax then push rax s else s
  let s := if dst ≠ rbx then push rbx s else s
  let s := if dst ≠ rcx then push rcx s else s
  let s := if dst ≠ rdx then push rdx s else s
  let s := if dst ≠ vm.c_rarg1 then push vm.c_rarg1 s else s
  let s := push_xmm0 s
  -- Call into runtime
  let s := super_call_VM_leaf vm rt Entry.write_barrier_IRT dst s
  let s := movptr_rr rscratch1 rax s
  -- Restore possibly live regs.
  let s := pop_xmm0 s
  let s := if dst ≠ vm.c_rarg1 then pop vm.c_rarg1 s else s
  let s := if dst ≠ rdx then pop rdx s else s
  let s := if dst ≠ rcx then pop rcx s else s
  let s := if dst ≠ rbx then pop rbx s else s
  let s := if dst ≠ rax then pop rax s else s
  -- Move result into dst reg.
  let s := movptr_rr dst rscratch1 s
  pop rscratch1 s

/-- A code sequence `f` with register `r` pushed before it and popped after
it, both under the emit-time condition `c`: the shape of every save/restore
pair of `write_barrier_impl`. -/
def savedAround (c : Prop) [Decidable c] (r : Register) (f : Machine → Machine)
    (t : Machine) : Machine :=
  let t := if c then push r t else t
  let t := f t
  if c then pop r t else t

/-- Registers whose content survives the slow path of `write_barrier_impl`
(other than `dst`, which receives the result): those it pushes and pops around
the call, and the callee-saved ones the argument passing does not use. -/
def survivesWriteBarrier (vm : VM) (x : Register) : Bool :=
  x = rax || x = rbx || x = rcx || x = rdx || x = vm.c_rarg1 ||
    (calleeSaved x && decide (x ≠ vm.c_rarg0))

/-- Emitted by `write_barrier_impl`.  The source asserts `dst != rscratch1`. -/
def write_barrier_impl (vm : VM) (rt : Runtime) (dst : Register) (s : Machine) : Machine :=
  let gc_state := Address.mk2 r15_thread vm.gc_state_offset
  let s := testb_mi gc_state (vm.EVACUATION ||| vm.TRAVERSAL) s
  -- Now check if evacuation is in progress.
  let s := read_barrier_not_null vm dst s
  if s.zf then s            -- jcc(zero, done)
  else
    let s := write_barrier_cset_test vm dst s
    if s.zf then s          -- jcc(zero, done)
    else write_barrier_slow vm rt dst s

/-- Emitted by `write_barrier`. -/
def write_barrier (vm : VM) (rt : Runtime) (dst : Register) (s : Machine) : Machine :=
  if vm.ShenandoahWriteBarrier then write_barrier_impl vm rt dst s else s

/-- The fast path of `satb_write_barrier_pre`, entered with the index in `tmp`:
the index is lowered by one word and written back, and the value is recorded in
the buffer slot at the new index. -/
def satb_enqueue_fast (vm : VM) (pre_val thread tmp : Register) (s : Machine) : Machine :=
  let index := Address.mk2 thread vm.satb_mark_queue_index_offset
  let buffer := Address.mk2 thread vm.satb_mark_queue_buffer_offset
  let s := subptr_ri tmp vm.wordSize s
  let s := movptr_mr index tmp s
  let s := addptr_rm tmp buffer s
  -- Record the previous value
  movptr_mr (Address.mk2 tmp 0) pre_val s

/-- The slow path of `satb_write_barrier_pre` (label `runtime`): the call of
`SharedRuntime::g1_wb_pre(pre_val, thread)` with the live input values saved
around it. -/
def satb_enqueue_slow (vm : VM) (rt : Runtime) (obj pre_val thread : Register)
    (tosca_live expand_call : Bool) (s : Machine) : Machine :=
  -- save the live input values
  let s := if tosca_live then push rax s else s
  let s := if obj ≠ noreg ∧ obj ≠ rax then push obj s else s
  let s := if pre_val ≠ rax then push pre_val s else s
  let s :=
    if expand_call then
      let s := if vm.c_rarg1 ≠ thread then movptr_rr vm.c_rarg1 thread s else s
      let s := if vm.c_rarg0 ≠ pre_val then movptr_rr vm.c_rarg0 pre_val s else s
      call_VM_leaf_base vm rt Entry.g1_wb_pre 2 s
    else
      call_VM_leaf2 vm rt Entry.g1_wb_pre pre_val thread s
  let s := if pre_val ≠ rax then pop pre_val s else s
  let s := if obj ≠ noreg ∧ obj ≠ rax then pop obj s else s
  if tosca_live then pop rax s else s

/-- Emitted by `satb_write_barrier_pre`.  The source asserts
`thread == r15_thread`, `pre_val != noreg` and, when `obj != noreg`, that
`obj`, `pre_val`, `tmp` differ and `pre_val != rax`. -/
def satb_write_barrier_pre (vm : VM) (rt : Runtime) (obj pre_val thread tmp : Register)
    (tosca_live expand_call : Bool) (s : Machine) : Machine :=
  let index := Address.mk2 thread vm.satb_mark_queue_index_offset
  let gc_state := Address.mk2 thread vm.gc_state_offset
  let s := testb_mi gc_state (vm.MARKING ||| vm.TRAVERSAL) s
  if s.zf then s            -- jcc(zero, done)
  else
    -- Do we need to load the previous value?
    let s := if obj ≠ noreg then load_heap_oop vm pre_val (Address.mk2 obj 0) s else s
    -- Is the previous value null?
    let s := cmpptr_ri pre_val 0 s
    if s.zf then s          -- jcc(equal, done)
    else
      -- Can we store original value in the thread's buffer?  Is index == 0?
      let s := movptr_rm tmp index s
      let s := cmpptr_ri tmp 0 s
      if s.zf then          -- jcc(equal, runtime)
        satb_enqueue_slow vm rt obj pre_val thread tosca_live expand_call s
      else
        satb_enqueue_fast vm pre_val thread tmp s

/-- Emitted by `shenandoah_write_barrier_pre`. -/
def shenandoah_write_barrier_pre (vm : VM) (rt : Runtime) (obj pre_val thread tmp : Register)
    (tosca_live expand_call : Bool) (s : Machine) : Machine :=
  if vm.ShenandoahSATBBarrier then
    satb_write_barrier_pre vm rt obj pre_val thread tmp tosca_live expand_call s
  else s

/-- Emitted by `shenandoah_write_barrier_post`. -/
def shenandoah_write_barrier_post (vm : VM) (store_addr new_val tmp tmp2 : Register)
    (s : Machine) : Machine :=
  if !vm.UseShenandoahMatrix then s   -- No need for that barrier if not using matrix.
  else
    let s := testptr new_val new_val s
    if s.zf then s          -- jcc(zero, done)
    else
      let s := movptr_ri rscratch1 vm.heap_base s
      -- Compute to-region index
      let s := movptr_rr tmp new_val s
      let s := subptr_rr tmp rscratch1 s
      let s := shrptr tmp vm.region_size_bytes_shift s
      -- Compute from-region index
      let s := movptr_rr tmp2 store_addr s
      let s := subptr_rr tmp2 rscratch1 s
      let s := shrptr tmp2 vm.region_size_bytes_shift s
      -- Compute matrix index
      let s := imulptr tmp tmp vm.matrix_stride s
      let s := addptr_rr tmp tmp2 s
      -- Address is _matrix[to * stride + from]
      let s := movptr_ri rscratch1 vm.matrix_addr s
      -- Test if the element is already set.
      let s := cmpb_mi ⟨rscratch1, tmp, 1, 0⟩ 0 s
      if !s.zf then s       -- jcc(notEqual, done)
      else
        -- Store true, if not yet set.
        movb_mi ⟨rscratch1, tmp, 1, 0⟩ 1 s

/-- Emitted by `storeval_barrier_impl`. -/
def storeval_barrier_impl (vm : VM) (rt : Runtime) (dst tmp : Register) (s : Machine) :
    Machine :=
  if dst = noreg then s
  else
    let s :=
      if vm.ShenandoahStoreValEnqueueBarrier then
        let s := testptr dst dst s
        let s := if s.zf then s else write_barrier_impl vm rt dst s
        -- The set of registers to be saved+restored is the same as in the
        -- write-barrier above.
        let s := pusha s
        let s := push_xmm0 s
        let s := satb_write_barrier_pre vm rt noreg dst r15_thread tmp true false s
        let s := pop_xmm0 s
        popa s
      else s
    if vm.ShenandoahStoreValReadBarrier then read_barrier_impl vm dst s else s

/-- Emitted by `storeval_barrier`. -/
def storeval_barrier (vm : VM) (rt : Runtime) (dst tmp : Register) (s : Machine) : Machine :=
  if vm.ShenandoahStoreValReadBarrier || vm.ShenandoahStoreValEnqueueBarrier then
    storeval_barrier_impl vm rt dst tmp s
  else s

/-- Emitted by `load_at`. -/
def load_at (vm : VM) (rt : Runtime) (decorators : DecoratorSet) (type : BasicType)
    (dst : Register) (src : Address) (tmp1 : Register) (s : Machine) : Machine :=
  let on_oop := type = BasicType.T_OBJECT ∨ type = BasicType.T_ARRAY
  let in_heap := decorators.IN_HEAP
  let on_weak := decorators.ON_WEAK_OOP_REF
  let on_phantom := decorators.ON_PHANTOM_OOP_REF
  let on_reference := on_weak || on_phantom
  let s := if in_heap then read_barrier_not_null vm src.base s else s
  let s := BarrierSetAssembler.load_at vm decorators type dst src s
  if vm.ShenandoahKeepAliveBarrier ∧ on_oop ∧ on_reference then
    -- Generate the SATB pre-barrier code to log the value of
    -- the referent field in an SATB buffer.
    shenandoah_write_barrier_pre vm rt noreg dst r15_thread tmp1 true true s
  else s

/-- The address flattening of `store_at`: `tmp1` receives the field address,
by a move of the base when the operand has neither index nor displacement (and
the base is not `tmp1` already), by `lea` otherwise. -/
def store_at_flatten (dst : Address) (tmp1 : Register) (s : Machine) : Machine :=
  if dst.index = noreg ∧ dst.disp = 0 then
    if dst.base ≠ tmp1 then movptr_rr tmp1 dst.base s else s
  else lea tmp1 dst s

/-- Emitted by `store_at`. -/
def store_at (vm : VM) (rt : Runtime) (decorators : DecoratorSet) (type : BasicType)
    (dst : Address) (val tmp1 tmp2 : Register) (s : Machine) : Machine :=
  let in_heap := decorators.IN_HEAP
  let in_concurrent_root := decorators.IN_CONCURRENT_ROOT
  let s := if in_heap then write_barrier vm rt dst.base s else s
  if type = BasicType.T_OBJECT ∨ type = BasicType.T_ARRAY then
    let needs_pre_barrier := in_heap || in_concurrent_root
    let needs_post_barrier := decide (val ≠ noreg) && in_heap && vm.UseShenandoahMatrix
    let tmp3 := r8
    let rthread := r15_thread
    -- flatten object address if needed
    let s := store_at_flatten dst tmp1 s
    let s :=
      if needs_pre_barrier then
        shenandoah_write_barrier_pre vm rt tmp1 tmp2 rthread tmp3 (decide (val ≠ noreg)) false s
      else s
    if val = noreg then
      BarrierSetAssembler.store_at vm decorators type (Address.mk2 tmp1 0) val s
    else
      let s := storeval_barrier vm rt val tmp3 s
      let new_val := if needs_post_barrier ∧ vm.UseCompressedOops then tmp2 else val
      let s := if needs_post_barrier ∧ vm.UseCompressedOops then movptr_rr tmp2 val s else s
      let s := BarrierSetAssembler.store_at vm decorators type (Address.mk2 tmp1 0) val s
      if needs_post_barrier then
        shenandoah_write_barrier_post vm tmp1 new_val tmp3 tmp2 s
      else s
  else
    BarrierSetAssembler.store_at vm decorators type dst val s

/-- Emitted by `obj_equals`. -/
def obj_equals (vm : VM) (op1 op2 : Register) (s : Machine) : Machine :=
  let s := cmpptr_rr op1 op2 s
  if vm.ShenandoahAcmpBarrier then
    if s.zf then s          -- jccb(equal, done)
    else
      let s := read_barrier vm op1 s
      let s := read_barrier vm op2 s
      cmpptr_rr op1 op2 s
  else s

/-- Emitted by `obj_equals_addr`. -/
def obj_equals_addr (vm : VM) (src1 : Register) (src2 : Address) (s : Machine) : Machine :=
  let s := cmpptr_rm src1 src2 s
  if vm.ShenandoahAcmpBarrier then
    if s.zf then s          -- jccb(equal, done)
    else
      let s := movptr_rm rscratch2 src2 s
      let s := read_barrier vm src1 s
      let s := read_barrier vm rscratch2 s
      cmpptr_rr src1 rscratch2 s
  else s

/-- Emitted by `resolve_for_read`. -/
def resolve_for_read (vm : VM) (decorators : DecoratorSet) (obj : Register) (s : Machine) :
    Machine :=
  let oop_not_null := decorators.OOP_NOT_NULL
  if oop_not_null then read_barrier_not_null vm obj s else read_barrier vm obj s

/-- Emitted by `resolve_for_write`; the decorators are not looked at. -/
def resolve_for_write (vm : VM) (rt : Runtime) (_decorators : DecoratorSet) (obj : Register)
    (s : Machine) : Machine :=
  write_barrier vm rt obj s

/-- The hardware compare-and-swap of `cmpxchg_oop`: `cmpxchgl` under compressed
references, `cmpxchgptr` otherwise. -/
def cmpxchg_hw (vm : VM) (newval : Register) (addr : Address) (s : Machine) : Machine :=
  if vm.UseCompressedOops then cmpxchgl newval addr s else cmpxchgptr newval addr s

/-- Reload of the failure witness in `cmpxchg_oop`: `tmp2` receives the
(decoded) content of `oldval` and is resolved. -/
def cmpxchg_witness (vm : VM) (oldval tmp2 : Register) (s : Machine) : Machine :=
  let s :=
    if vm.UseCompressedOops then decode_heap_oop vm tmp2 (movl_rr tmp2 oldval s)
    else movptr_rr tmp2 oldval s
  resolve_for_read vm {} tmp2 s

/-- Step 3 of `cmpxchg_oop`, the loop at label `retry`: compare-and-swap again;
on failure reload and resolve the witness and go round while it equals `tmp1`.
The loop runs for at most `fuel` attempts; `none` when they are used up. -/
def cmpxchg_retry (vm : VM) (addr : Address) (oldval newval tmp1 tmp2 : Register) :
    Nat → Machine → Option Machine
  | 0, _ => none
  | fuel + 1, s =>
    let s := cmpxchg_hw vm newval addr s
    if s.zf then some s     -- jcc(equal, done)
    else
      let s := cmpxchg_witness vm oldval tmp2 s
      let s := cmpptr_rr tmp1 tmp2 s
      if s.zf then cmpxchg_retry vm addr oldval newval tmp1 tmp2 fuel s   -- jcc(equal, retry)
      else some s

/-- The opening of `cmpxchg_oop`: the store-value barrier on `newval` when
`encode` is set, and the encoding of both operands under compressed references
(the encoded new value is left in `rscratch1`). -/
def cmpxchg_prologue (vm : VM) (rt : Runtime) (oldval newval : Register) (encode : Bool)
    (tmp1 tmp2 : Register) (s : Machine) : Machine :=
  -- Apply storeval barrier to newval.
  let s :=
    if encode then
      if newval = vm.c_rarg1 ∧ vm.ShenandoahStoreValEnqueueBarrier then
        let s := movptr_rr tmp2 newval s
        storeval_barrier vm rt tmp2 tmp1 s
      else storeval_barrier vm rt newval tmp1 s
    else s
  if vm.UseCompressedOops ∧ encode then
    let s := encode_heap_oop vm oldval s
    let s := movptr_rr rscratch1 newval s
    encode_heap_oop vm rscratch1 s
  else s

/-- The register that `cmpxchg_oop` hands to the hardware compare-and-swap as
the new value: `rscratch1` after the encoding of the opening, else `newval`. -/
def cmpxchg_newval (vm : VM) (newval : Register) (encode : Bool) : Register :=
  if vm.UseCompressedOops ∧ encode then rscratch1 else newval

/-- Emitted by `cmpxchg_oop`.  The source asserts `oldval == rax`.  The retry
loop is bounded by `fuel`. -/
def cmpxchg_oop (vm : VM) (rt : Runtime) (fuel : Nat) (res : Register) (addr : Address)
    (oldval newval : Register) (exchange encode : Bool) (tmp1 tmp2 : Register)
    (s : Machine) : Option Machine :=
  if !vm.ShenandoahCASBarrier then
    some (BarrierSetAssembler.cmpxchg_oop vm res addr oldval newval exchange encode s)
  else
    let s := cmpxchg_prologue vm rt oldval newval encode tmp1 tmp2 s
    let newval := cmpxchg_newval vm newval encode
    -- Remember oldval for retry logic below
    let s := if vm.UseCompressedOops then movl_rr tmp1 oldval s else movptr_rr tmp1 oldval s
    -- Step 1. Try to CAS with given arguments.
    let s := cmpxchg_hw vm newval addr s
    let done (s : Machine) : Machine :=
      -- Step 4. Promote the flag to a boolean result.
      if !exchange then movzbl res res (setb_equal res s) else s
    if s.zf then some (done s)     -- jcc(equal, done)
    else
      -- Step 2. CAS had failed. This may be a false negative.
      let s := if vm.UseCompressedOops then decode_heap_oop vm tmp1 s else s
      let s := resolve_for_read vm {} tmp1 s
      let s := cmpxchg_witness vm oldval tmp2 s
      let s := cmpptr_rr tmp1 tmp2 s
      if !s.zf then some (done s)  -- jcc(notEqual, done)
      else
        -- Step 3. Try to CAS again with resolved to-space pointers.
        (cmpxchg_retry vm addr oldval newval tmp1 tmp2 fuel s).map done

/-! ## Notions of the specification -/

/-- The reference a value resolves to (`resolve` of the forwarding resolver):
null for null, otherwise the content of the value's forwarding word. -/
def resolve (vm : VM) (mem : Nat → Nat) (r : Nat) : Nat :=
  if r = 0 then 0 else mem ((r + vm.brooks_byte_offset) % W)

/-- The reference denoted by a compare-and-swap operand: the operand itself, or
the decoding of its low 32 bits under compressed references. -/
def casOop (vm : VM) (x : Nat) : Nat :=
  if vm.UseCompressedOops then vm.decode (x % 2 ^ 32) else x

/-- The word that a compare-and-swap compares or stores for an operand: the
operand itself, or its low 32 bits under compressed references. -/
def casCell (vm : VM) (x : Nat) : Nat :=
  if vm.UseCompressedOops then x % 2 ^ 32 else x

/-- The gc-state byte of the current thread. -/
def gc_state (vm : VM) (s : Machine) : Nat :=
  s.mem (ea (Address.mk2 r15_thread vm.gc_state_offset) s) % 256

/-- Whether a phase flag (`MARKING`, `EVACUATION`, `TRAVERSAL`) is set in the
gc state of the current thread. -/
def gcFlag (vm : VM) (flag : Nat) (s : Machine) : Bool :=
  decide (gc_state vm s &&& (flag % 256) ≠ 0)

/-- Whether the region of a reference is flagged in the collection-set table
(`in_cset_fast_test`). -/
def inCset (vm : VM) (mem : Nat → Nat) (x : Nat) : Bool :=
  decide (mem ((vm.in_cset_fast_test_addr % W + (x % W) >>> vm.region_size_bytes_shift) % W)
    % 256 &&& 1 ≠ 0)

/-- The value that `satb_write_barrier_pre` is to enqueue: the content of
`pre_val`, or, when `obj` is given, the reference loaded from the field at
`obj`. -/
def satbValue (vm : VM) (obj pre_val : Register) (s : Machine) : Nat :=
  if obj = noreg then s.regs pre_val else casOop vm (s.mem (ea (Address.mk2 obj 0) s))

/-- Region index of an address: its offset from the heap base, shifted by the
region size. -/
def regionOf (vm : VM) (x : Nat) : Nat :=
  ((x + (W - vm.heap_base % W)) % W) >>> vm.region_size_bytes_shift

/-- Address of the connection-matrix cell for a store of `new_val` at
`store_addr`: the cell at index `toRegion * stride + fromRegion`. -/
def matrixCell (vm : VM) (store_addr new_val : Nat) : Nat :=
  (vm.matrix_addr % W +
    (regionOf vm new_val * vm.matrix_stride % W + regionOf vm store_addr) % W) % W

/-- What `resolve_for_read` leaves in its register: the resolved reference when
the read barrier is enabled, the reference as it was otherwise. -/
def resolveRead (vm : VM) (mem : Nat → Nat) (x : Nat) : Nat :=
  if vm.ShenandoahReadBarrier then resolve vm mem x else x

/-- The hardware compare-and-swap attempts recorded in a trace, in order: the
address, the value compared against, the value offered and the outcome. -/
def casAttempts : List Event → List (Nat × Nat × Nat × Bool)
  | [] => []
  | Event.cas a e n ok :: t => (a, e, n, ok) :: casAttempts t
  | _ :: t => casAttempts t

/-- What a barrier does, at the level of values: the reference it hands on, the
memory and the pool it leaves, and the runtime calls and the memory writes it
made, in order. -/
structure Effect where
  ret : Nat
  mem : Nat → Nat
  pool : List (List Nat)
  calls : List (Entry × List Nat)
  writes : List (Nat × Nat)

/-- Whether a phase flag is set in the gc-state byte of the thread at `T`. -/
def phaseSet (vm : VM) (T : Nat) (mem : Nat → Nat) (flag : Nat) : Bool :=
  decide (mem ((T + vm.gc_state_offset) % W) % 256 &&& (flag % 256) ≠ 0)

/-- `ensureInToSpace(ref)` of the evacuation trigger: for null, or with neither
Evacuation nor Traversal set, the resolved reference; otherwise the resolved
reference when its region is outside the collection set, and else the copy
that the relocation call of the runtime returns, with the memory and the pool
that call leaves. -/
def ensureInToSpace (vm : VM) (rt : Runtime) (T : Nat) (mem : Nat → Nat)
    (pool : List (List Nat)) (ref : Nat) : Effect :=
  if ref = 0 ∨ (phaseSet vm T mem vm.EVACUATION || phaseSet vm T mem vm.TRAVERSAL) = false then
    ⟨resolveRead vm mem ref, mem, pool, [], []⟩
  else if inCset vm mem (resolveRead vm mem ref) = false then
    ⟨resolveRead vm mem ref, mem, pool, [], []⟩
  else
    let o := rt Entry.write_barrier_IRT [resolveRead vm mem ref] mem pool
    ⟨o.ret, o.mem, o.pool, [(Entry.write_barrier_IRT, [resolveRead vm mem ref])], []⟩

/-- `enqueue(ref)` of the SATB queue manager for the thread at `T`: nothing for
null; with a free slot the write index is lowered by one word and `ref` is
written into the buffer at the new index; with the index at zero the full
buffer is handed to the runtime (`g1_wb_pre`), which submits it and logs `ref`. -/
def enqueue (vm : VM) (rt : Runtime) (T : Nat) (mem : Nat → Nat) (pool : List (List Nat))
    (ref : Nat) : Effect :=
  let indexAddr := (T + vm.satb_mark_queue_index_offset) % W
  let buffer := mem ((T + vm.satb_mark_queue_buffer_offset) % W)
  if ref = 0 then ⟨ref, mem, pool, [], []⟩
  else if mem indexAddr ≠ 0 then
    let index := (mem indexAddr + (W - vm.wordSize % W)) % W
    ⟨ref, fun a => if a = (index + buffer) % W then ref else if a = indexAddr then index
        else mem a,
      pool, [], [(indexAddr, index), ((index + buffer) % W, ref)]⟩
  else
    let o := rt Entry.g1_wb_pre [ref, T] mem pool
    ⟨ref, o.mem, o.pool, [(Entry.g1_wb_pre, [ref, T])], []⟩

/-- Pre-write logging of a reference: `enqueue` when Marking or Traversal is
set, nothing otherwise. -/
def satbLog (vm : VM) (rt : Runtime) (T : Nat) (mem : Nat → Nat) (pool : List (List Nat))
    (ref : Nat) : Effect :=
  if (phaseSet vm T mem vm.MARKING || phaseSet vm T mem vm.TRAVERSAL) = true then
    enqueue vm rt T mem pool ref
  else ⟨ref, mem, pool, [], []⟩

/-- The store-value barrier on a new value: in the enqueue mode the value is
brought to to-space and logged; in the read mode it is resolved; with both
modes off it is handed on as it is. -/
def storeValue (vm : VM) (rt : Runtime) (T : Nat) (mem : Nat → Nat) (pool : List (List Nat))
    (v : Nat) : Effect :=
  let e : Effect :=
    if vm.ShenandoahStoreValEnqueueBarrier then
      let w := ensureInToSpace vm rt T mem pool v
      let q := satbLog vm rt T w.mem w.pool w.ret
      ⟨w.ret, q.mem, q.pool, w.calls ++ q.calls, w.writes ++ q.writes⟩
    else ⟨v, mem, pool, [], []⟩
  if vm.ShenandoahStoreValReadBarrier then { e with ret := resolve vm e.mem e.ret } else e

/-- `ConnectionMatrix.record` for a store of `v` at `field`: nothing when the
matrix is not in use, for a null value, or when the cell of the two regions is
set already; otherwise the cell's byte is written. -/
def record (vm : VM) (mem : Nat → Nat) (field v : Nat) : Effect :=
  if vm.UseShenandoahMatrix = true ∧ v ≠ 0 ∧ mem (matrixCell vm field v) % 256 = 0 then
    ⟨v, fun a => if a = matrixCell vm field v then 1 else mem a, [], [],
      [(matrixCell vm field v, 1)]⟩
  else ⟨v, mem, [], [], []⟩

/-- `storeReference(fieldAddress, newValue, context)` of the barrier dispatcher,
step by step, for the thread at `T`, a field at offset `off` of the object
`base` and the new value `v`:
(1) for a heap field, `ensureInToSpace` on the containing object (when the
write barrier is enabled); the field address is taken from the result;
(2) for a heap field or a concurrently scanned root, pre-write logging of the
reference read at the field (when the SATB barrier is enabled);
(3) the store-value barrier on the new value;
(4) the raw store of the barriered value at the field, compressed in a heap
field under compressed references;
(5) for a heap field, `record` for the field and the barriered value. -/
def storeReference (vm : VM) (rt : Runtime) (in_heap in_concurrent_root : Bool) (T : Nat)
    (mem : Nat → Nat) (pool : List (List Nat)) (base off v : Nat) : Effect :=
  let e1 : Effect :=
    if in_heap = true ∧ vm.ShenandoahWriteBarrier = true then
      ensureInToSpace vm rt T mem pool base
    else ⟨base, mem, pool, [], []⟩
  let field := (e1.ret + off) % W
  let e2 : Effect :=
    if (in_heap = true ∨ in_concurrent_root = true) ∧ vm.ShenandoahSATBBarrier = true then
      satbLog vm rt T e1.mem e1.pool (casOop vm (e1.mem field))
    else ⟨0, e1.mem, e1.pool, [], []⟩
  let e3 := storeValue vm rt T e2.mem e2.pool v
  let cell :=
    if in_heap = true ∧ vm.UseCompressedOops = true then vm.encode e3.ret % 2 ^ 32 else e3.ret
  let mem4 : Nat → Nat := fun a => if a = field then cell else e3.mem a
  let e5 : Effect := if in_heap then record vm mem4 field e3.ret else ⟨e3.ret, mem4, [], [], []⟩
  ⟨e3.ret, e5.mem, e3.pool, e1.calls ++ e2.calls ++ e3.calls,
    e1.writes ++ e2.writes ++ e3.writes ++ [(field, cell)] ++ e5.writes⟩

/-- Registers of a reference store as its callers have to pass them to
`store_at` (for instance the value in `rax` and the temporaries in `rdx` and
`rbx`).  The value register, the temporaries, the scratch registers `r8` and
`rscratch1` that the barriers use and the thread register are pairwise
distinct; `tmp2` is not `rax` (asserted by `satb_write_barrier_pre`); the base
is not `rscratch1` (asserted by `write_barrier_impl`); and what has to live
across a runtime call is in a register that the barrier making the call saves
or that the callee preserves. -/
structure StoreRegisters (vm : VM) (dst : Address) (val tmp1 tmp2 : Register) : Prop where
  val_given : val ≠ noreg
  tmp1_given : tmp1 ≠ noreg
  val_tmp1 : val ≠ tmp1
  val_tmp2 : val ≠ tmp2
  val_r8 : val ≠ r8
  val_scratch : val ≠ rscratch1
  val_thread : val ≠ r15_thread
  tmp1_tmp2 : tmp1 ≠ tmp2
  tmp1_r8 : tmp1 ≠ r8
  tmp1_scratch : tmp1 ≠ rscratch1
  tmp1_thread : tmp1 ≠ r15_thread
  tmp2_r8 : tmp2 ≠ r8
  tmp2_scratch : tmp2 ≠ rscratch1
  tmp2_thread : tmp2 ≠ r15_thread
  tmp2_rax : tmp2 ≠ rax
  base_scratch : dst.base ≠ rscratch1
  base_val : dst.base ≠ val
  base_thread : dst.base ≠ r15_thread
  /-- An index register is not the base and survives the write barrier. -/
  index_kept : dst.index = noreg ∨
    (dst.index ≠ dst.base ∧ dst.index ≠ rscratch1 ∧ survivesWriteBarrier vm dst.index = true)
  /-- The argument registers of the calling convention. -/
  arg0_arg1 : vm.c_rarg0 ≠ vm.c_rarg1
  arg0_thread : vm.c_rarg0 ≠ r15_thread
  arg1_thread : vm.c_rarg1 ≠ r15_thread
  arg1_scratch : vm.c_rarg1 ≠ rscratch1
  val_arg1 : val ≠ vm.c_rarg1
  tmp2_arg1 : tmp2 ≠ vm.c_rarg1
  /-- The value lives across the runtime calls of steps 1 and 2. -/
  val_kept : val = rax ∨ (calleeSaved val = true ∧ val ≠ vm.c_rarg0)
  /-- The field address lives across the runtime call of step 3. -/
  tmp1_kept : survivesWriteBarrier vm tmp1 = true
  val_saved : val ∈ savedRegs
  tmp1_saved : tmp1 ∈ savedRegs

/-- Whether `load_at` has to log the value it loaded: a reference-typed access
with a weak or phantom decorator, keep-alive logging and the SATB barrier
enabled, Marking or Traversal set and a non-null value in `dst`.  `L` is the
state after the raw load. -/
def loadLogs (vm : VM) (ld : DecoratorSet) (type : BasicType) (dst : Register)
    (L : Machine) : Bool :=
  decide (type = BasicType.T_OBJECT ∨ type = BasicType.T_ARRAY) &&
    (ld.ON_WEAK_OOP_REF || ld.ON_PHANTOM_OOP_REF) &&
    vm.ShenandoahKeepAliveBarrier && vm.ShenandoahSATBBarrier &&
    (gcFlag vm vm.MARKING L || gcFlag vm vm.TRAVERSAL L) && decide (L.regs dst ≠ 0)

/-- The SATB-active flag of the current thread, as `arraycopy_prologue` reads
it: a 32-bit cell or a byte, by `byte_width_of_active`. -/
def satbActive (vm : VM) (s : Machine) : Nat :=
  s.mem (ea (Address.mk2 r15_thread vm.satb_mark_queue_active_offset) s) %
    (if vm.byte_width_of_active = 4 then 2 ^ 32 else 256)

/-- The array pre-write entry that `arraycopy_prologue` calls. -/
def arrayPreEntry (vm : VM) : Entry :=
  if vm.UseCompressedOops then Entry.write_ref_array_pre_narrow_oop_entry
  else Entry.write_ref_array_pre_oop_entry

/-- The runtime calls recorded in a trace, in order. -/
def upcalls : List Event → List (Entry × List Nat)
  | [] => []
  | Event.call e args :: t => (e, args) :: upcalls t
  | _ :: t => upcalls t

/-- The addresses read according to a trace, in order. -/
def loads : List Event → List Nat
  | [] => []
  | Event.load a :: t => a :: loads t
  | _ :: t => loads t

/-- The plain memory writes recorded in a trace, in order. -/
def stores : List Event → List (Nat × Nat)
  | [] => []
  | Event.store a v :: t => (a, v) :: stores t
  | _ :: t => stores t

/-- Forwarding never chains in a heap: the forwarding word of an object's
forwarding target points to that target itself. -/
def NoChain (vm : VM) (mem : Nat → Nat) : Prop :=
  ∀ o : Nat, o ≠ 0 → mem ((o + vm.brooks_byte_offset) % W) ≠ 0 →
    mem ((mem ((o + vm.brooks_byte_offset) % W) + vm.brooks_byte_offset) % W) =
      mem ((o + vm.brooks_byte_offset) % W)

/-! ## The SATB queue of a thread and the global pool -/

/-- Address of the SATB write index of the thread in `r15`. -/
def satbIndexAddr (vm : VM) (s : Machine) : Nat :=
  ea (Address.mk2 r15_thread vm.satb_mark_queue_index_offset) s

/-- Address of the SATB buffer pointer of the thread in `r15`. -/
def satbBufferAddr (vm : VM) (s : Machine) : Nat :=
  ea (Address.mk2 r15_thread vm.satb_mark_queue_buffer_offset) s

/-- The entries of a buffer of `n` slots at `base` from slot `i` upwards, in the
order in which they were enqueued: the buffer fills back to front, so slot
`n - 1` comes first and slot `i` last. -/
def slotsFrom (mem : Nat → Nat) (base wordSize i n : Nat) : List Nat :=
  (List.range (n - i)).map fun k => mem (base + (n - 1 - k) * wordSize)

/-- The entries held in the thread's SATB buffer of capacity `n`: the slots
from the write index upwards. -/
def heldEntries (vm : VM) (n : Nat) (s : Machine) : List Nat :=
  slotsFrom s.mem (s.mem (satbBufferAddr vm s)) vm.wordSize
    (s.mem (satbIndexAddr vm s) / vm.wordSize) n

/-- Modelled from the spec: the slow-path upcall `SharedRuntime::g1_wb_pre(value,
thread)` for buffers of capacity `n` ("if the index reaches zero, the full
buffer is submitted to the global pool and a fresh buffer is obtained before
the write retries").  With the index at zero the content of the full buffer is
appended to the pool and the fresh empty buffer `alloc k`, `k` the number of
buffers in the pool, is installed; then the value is recorded: the index is
lowered by one word and the value written to the slot at the new index.  Other
entry points do nothing. -/
def rtSATB (vm : VM) (n : Nat) (alloc : Nat → Nat) : Runtime := fun e args mem pool =>
  match e, args with
  | Entry.g1_wb_pre, [value, thread] =>
    let indexA := (thread + vm.satb_mark_queue_index_offset) % W
    let bufferA := (thread + vm.satb_mark_queue_buffer_offset) % W
    let full := decide (mem indexA = 0)
    let pool1 := if full then pool ++ [slotsFrom mem (mem bufferA) vm.wordSize 0 n] else pool
    let base := if full then alloc pool1.length else mem bufferA
    let index := (if full then n * vm.wordSize else mem indexA) - vm.wordSize
    { ret := 0,
      mem := fun a =>
        if a = (base + index) % W then value
        else if a = indexA then index
        else if a = bufferA then base
        else mem a,
      pool := pool1,
      junk := fun _ => 0, xmm0 := 0, zf := false }
  | _, _ => { ret := 0, mem := mem, pool := pool, junk := fun _ => 0, xmm0 := 0, zf := false }

/-- Successive SATB enqueues of the given values: each value is put in `pre_val`
and the code of `satb_write_barrier_pre` (value in register, `obj = noreg`) is
run. -/
def satb_enqueue_all (vm : VM) (rt : Runtime) (pre_val tmp : Register)
    (tosca_live expand_call : Bool) : List Nat → Machine → Machine
  | [], s => s
  | v :: vs, s =>
    satb_enqueue_all vm rt pre_val tmp tosca_live expand_call vs
      (satb_write_barrier_pre vm rt noreg pre_val r15_thread tmp tosca_live expand_call
        (setReg pre_val v s))

/-- Address of the gc-state byte of the thread in `r15`. -/
def gcStateAddr (vm : VM) (s : Machine) : Nat :=
  ea (Address.mk2 r15_thread vm.gc_state_offset) s

/-- Memory layout assumed of the SATB queue of the thread in `r15`, for buffers
of `n` slots handed out by `alloc`: words have a positive size, the three
thread-local fields (gc state, index, buffer pointer) lie at different
addresses, and every buffer lies within the address space and apart from the
three fields. -/
structure SatbLayout (vm : VM) (n : Nat) (alloc : Nat → Nat) (s : Machine) : Prop where
  word_pos : 0 < vm.wordSize
  cap_pos : 1 ≤ n
  buffer_ne_index : satbBufferAddr vm s ≠ satbIndexAddr vm s
  gc_ne_index : gcStateAddr vm s ≠ satbIndexAddr vm s
  gc_ne_buffer : gcStateAddr vm s ≠ satbBufferAddr vm s
  fits : ∀ k, alloc k + n * vm.wordSize < W
  apart : ∀ k j, j < n →
    alloc k + j * vm.wordSize ≠ gcStateAddr vm s ∧
    alloc k + j * vm.wordSize ≠ satbIndexAddr vm s ∧
    alloc k + j * vm.wordSize ≠ satbBufferAddr vm s

/-- State of the SATB queue after the values `done` have been enqueued from the
state `s0`, with `c` buffers submitted since and `i` free slots left in the
thread's buffer. -/
structure SatbInv (vm : VM) (n : Nat) (alloc : Nat → Nat) (s0 s : Machine)
    (done : List Nat) (c i : Nat) : Prop where
  thread : s.regs r15_thread = s0.regs r15_thread
  gc : s.mem (gcStateAddr vm s0) = s0.mem (gcStateAddr vm s0)
  index : s.mem (satbIndexAddr vm s0) = i * vm.wordSize
  free_le : i ≤ n
  free_lt : done ≠ [] → i < n
  buffer : ∃ k, s.mem (satbBufferAddr vm s0) = alloc k
  pool : ∃ sub, s.pool = s0.pool ++ sub ∧ sub.length = c ∧
    sub.flatten ++ heldEntries vm n s = done
  calls : ∃ l, upcalls s.trace = upcalls s0.trace ++ l ∧ l.length = c ∧
    ∀ x ∈ l, x.1 = Entry.g1_wb_pre
  count : done.length + i = c * n + n

/-! ## A concrete configuration and heap

Used to run the emitted code on explicit inputs. -/

/-- A configuration with every barrier enabled, uncompressed references, the
forwarding word one word below the object and regions of 16 bytes. -/
def vmAll : VM where
  ShenandoahSATBBarrier := true
  ShenandoahReadBarrier := true
  ShenandoahWriteBarrier := true
  ShenandoahStoreValReadBarrier := true
  ShenandoahStoreValEnqueueBarrier := true
  ShenandoahKeepAliveBarrier := true
  ShenandoahAcmpBarrier := true
  ShenandoahCASBarrier := true
  UseShenandoahMatrix := true
  UseCompressedOops := false
  MARKING := 2
  EVACUATION := 4
  TRAVERSAL := 16
  wordSize := 8
  brooks_byte_offset := 2 ^ 64 - 8
  region_size_bytes_shift := 4
  in_cset_fast_test_addr := 1000
  heap_base := 0
  matrix_addr := 2000
  matrix_stride := 8
  gc_state_offset := 0
  satb_mark_queue_active_offset := 8
  satb_mark_queue_index_offset := 16
  satb_mark_queue_buffer_offset := 24
  byte_width_of_active := 1
  c_rarg0 := rdi
  c_rarg1 := rsi
  encode := fun x => x / 8
  decode := fun x => x * 8

/-- The configuration `vmAll` with the read barrier disabled. -/
def vmNoRead : VM := { vmAll with ShenandoahReadBarrier := false }

/-- A runtime whose calls return null and change nothing. -/
def rtIdle : Runtime := fun _ _ mem pool =>
  { ret := 0, mem := mem, pool := pool, junk := fun _ => 0, xmm0 := 0, zf := false }

/-- A heap with one evacuated object: its from-space copy at 16 forwards to the
to-space copy at 32 (forwarding words at 8 and 24); the field at 100 holds the
to-space reference. -/
def heapFwd : Nat → Nat := fun a =>
  if a = 8 then 32 else if a = 24 then 32 else if a = 100 then 32 else 0

/-- A machine about to compare-and-swap the field at 100 (`rcx`): expected value
16 in `rax`, new value 48 in `rdx`. -/
def mCas : Machine where
  regs := fun r => if r = rax then 16 else if r = rdx then 48 else if r = rcx then 100 else 0
  zf := false
  xmm0 := 0
  mem := heapFwd
  stack := []
  pool := []
  trace := []

/-- A machine holding null in every register, over a heap whose word at the
forwarding offset from null (address `2 ^ 64 - 8`) holds 7. -/
def mNull : Machine where
  regs := fun _ => 0
  zf := false
  xmm0 := 0
  mem := fun a => if a = 2 ^ 64 - 8 then 7 else 0
  stack := []
  pool := []
  trace := []

/-- A machine whose thread (`r15` = 200) is marking: gc-state byte 2 at 200,
SATB index 16 at 216 and buffer base 400 at 224 (two free slots, at 400 and
408); the field at 300 holds the reference 32; `rax` holds null. -/
def mMark : Machine where
  regs := fun r => if r = r15 then 200 else if r = rcx then 300 else if r = rdx then 48 else 0
  zf := false
  xmm0 := 0
  mem := fun a =>
    if a = 200 then 2 else if a = 216 then 16 else if a = 224 then 400
    else if a = 300 then 32 else if a = 24 then 32 else if a = 40 then 48 else 0
  stack := []
  pool := []
  trace := []

/-- Buffers of four words handed out from address 400 on, eight of them in
rotation. -/
def alloc4 (k : Nat) : Nat := 400 + 32 * (k % 8)

/-- A machine whose thread (`r15` = 200) is marking, with an empty SATB buffer
of four slots at 400: gc-state byte 2 at 200, index 32 at 216, buffer base 400
at 224; the pool is empty. -/
def mSatb : Machine where
  regs := fun r => if r = r15 then 200 else 0
  zf := false
  xmm0 := 0
  mem := fun a => if a = 200 then 2 else if a = 216 then 32 else if a = 224 then 400 else 0
  stack := []
  pool := []
  trace := []

/-- The configuration `vmAll` with the enqueue store-value barrier disabled:
the store-value barrier only resolves. -/
def vmRead : VM := { vmAll with ShenandoahStoreValEnqueueBarrier := false }

/-- A machine about to store the reference 48 (`rax`) into the field at offset 8
of the object at 304 (`rcx`), which holds the reference 32.  The thread (`r15`
= 200) is marking (gc-state byte 2 at 200) with two free SATB slots (index 16 at
216, buffer base 400 at 224).  The three objects are their own forwarding
targets (words at 296, 24 and 40). -/
def mStore : Machine where
  regs := fun r => if r = r15 then 200 else if r = rcx then 304 else if r = rax then 48 else 0
  zf := false
  xmm0 := 0
  mem := fun a =>
    if a = 200 then 2 else if a = 216 then 16 else if a = 224 then 400
    else if a = 296 then 304 else if a = 312 then 32 else if a = 24 then 32
    else if a = 40 then 48 else 0
  stack := []
  pool := []
  trace := []

/-- A machine about to store the reference 48 (`rax`) into the field at offset 8
of the object at 304 (`rcx`) while the thread (`r15` = 200) is evacuating
(gc-state byte 4 at 200).  The region of 48 is flagged in the collection-set
table (byte 1 at 1003) and 48 has not been copied yet: it is its own forwarding
target (word at 40), as is the object at 304 (word at 296). -/
def mEvac : Machine where
  regs := fun r => if r = r15 then 200 else if r = rcx then 304 else if r = rax then 48 else 0
  zf := false
  xmm0 := 0
  mem := fun a =>
    if a = 200 then 4 else if a = 296 then 304 else if a = 40 then 48
    else if a = 1003 then 1 else 0
  stack := []
  pool := []
  trace := []

/-- The configuration `vmAll` with the read store-value barrier disabled: the
store-value barrier relocates and enqueues. -/
def vmEnq : VM := { vmAll with ShenandoahStoreValReadBarrier := false }

/-- A runtime whose relocation call `write_barrier_IRT` answers 64, the
to-space copy, and changes nothing; the other calls return null. -/
def rtCopy : Runtime := fun e _ mem pool =>
  { ret := if e = Entry.write_barrier_IRT then 64 else 0,
    mem := mem, pool := pool, junk := fun _ => 0, xmm0 := 0, zf := false }

/-- The heap `heapFwd` seen by a thread at 200 that is evacuating (gc-state
byte 4 at 200). -/
def heapEvac : Nat → Nat := fun a => if a = 200 then 4 else heapFwd a

/-- A machine about to compare-and-swap the field at 100 (`rcx`) while the
thread (`r15` = 200) is evacuating: the expected value in `rax` is the stale
reference 16, the field holds the to-space reference 32 of the same object, the
new value 48 is in `rdx`. -/
def mCasEvac : Machine where
  regs := fun r =>
    if r = rax then 16 else if r = rdx then 48 else if r = rcx then 100
    else if r = r15 then 200 else 0
  zf := false
  xmm0 := 0
  mem := heapEvac
  stack := []
  pool := []
  trace := []

/-- A machine about to compare-and-swap the field at 100 (`rcx`) the other way
round: the expected value in `rax` is the to-space reference 32, the field
still holds the stale reference 16 of the same object (forwarding word at 8),
the new value 48 is in `rdx`. -/
def mCasStale : Machine where
  regs := fun r => if r = rax then 32 else if r = rdx then 48 else if r = rcx then 100 else 0
  zf := false
  xmm0 := 0
  mem := fun a => if a = 100 then 16 else heapFwd a
  stack := []
  pool := []
  trace := []

/-- A machine about to compare-and-swap the null field at 100 (`rcx`), expected
value null in `rax`, with the new value in the second argument register `rsi`:
the stale reference 16, whose forwarding word (at 8) points to 32. -/
def mCasArg : Machine where
  regs := fun r => if r = rsi then 16 else if r = rcx then 100 else 0
  zf := false
  xmm0 := 0
  mem := fun a => if a = 8 then 32 else if a = 24 then 32 else 0
  stack := []
  pool := []
  trace := []

/-- The machine `mCasArg` with the new value 16 in `rdx` instead of `rsi`. -/
def mCasVal : Machine :=
  { mCasArg with regs := fun r => if r = rdx then 16 else if r = rcx then 100 else 0 }

/-- A machine about to load the field at offset 8 of the object in `rcx`, the
stale copy at 64 whose forwarding word (at 56) points to the copy at 128.  The
field holds 16 in the stale copy (word at 72) and 32 in the current copy (word
at 136).  The thread (`r15` = 200) is marking (gc-state byte 2 at 200) with two
free SATB slots (index 16 at 216, buffer base 400 at 224). -/
def mLoad : Machine where
  regs := fun r => if r = r15 then 200 else if r = rcx then 64 else 0
  zf := false
  xmm0 := 0
  mem := fun a =>
    if a = 200 then 2 else if a = 216 then 16 else if a = 224 then 400
    else if a = 56 then 128 else if a = 120 then 128 else if a = 72 then 16
    else if a = 136 then 32 else 0
  stack := []
  pool := []
  trace := []

/-- A machine about to copy into a reference array while the thread (`r15` =
200) has its SATB-active flag set (byte 1 at 208): `rdi` holds 3, `rsi` 600,
`rdx` 7 and `r11` 500. -/
def mCopy : Machine where
  regs := fun r =>
    if r = r15 then 200 else if r = rdi then 3 else if r = rsi then 600
    else if r = rdx then 7 else if r = r11 then 500 else 0
  zf := false
  xmm0 := 0
  mem := fun a => if a = 208 then 1 else 0
  stack := []
  pool := []
  trace := []

/-! ## Theorems -/

theorem casOop_congr (vm : VM) (x y : Nat) (h : casCell vm x = casCell vm y) :
    casOop vm x = casOop vm y := by
  unfold casOop casCell at *
  split at h <;> simp_all

theorem casCell_idem (vm : VM) (x : Nat) : casCell vm (casCell vm x) = casCell vm x := by
  unfold casCell; split <;> simp

theorem casOop_casCell (vm : VM) (x : Nat) : casOop vm (casCell vm x) = casOop vm x :=
  casOop_congr vm _ _ (casCell_idem vm x)

theorem ea_congr (a : Address) (s t : Machine) (hb : t.regs a.base = s.regs a.base)
    (hi : t.regs a.index = s.regs a.index) : ea a t = ea a s := by
  simp [ea, hb, hi]

theorem read_barrier_regs (vm : VM) (d : Register) (s : Machine)
    (hrb : vm.ShenandoahReadBarrier = true) :
    (read_barrier vm d s).regs =
      fun x => if x = d then resolve vm s.mem (s.regs d) else s.regs x := by
  funext x
  by_cases h0 : s.regs d = 0
  · by_cases hx : x = d <;>
      simp [read_barrier, read_barrier_impl, hrb, testptr, h0, resolve, hx]
  · by_cases hx : x = d <;>
      simp [read_barrier, read_barrier_impl, read_barrier_not_null_impl, hrb, testptr, h0,
        resolve, hx, movptr_rm, readMem, setReg, ea, Address.mk2]

theorem read_barrier_mem (vm : VM) (d : Register) (s : Machine) :
    (read_barrier vm d s).mem = s.mem := by
  unfold read_barrier read_barrier_impl read_barrier_not_null_impl
  simp only [testptr, movptr_rm, readMem, setReg]
  split <;> [split; skip] <;> rfl

theorem cmpxchg_hw_hit (vm : VM) (newval : Register) (addr : Address) (s : Machine)
    (h : casCell vm (s.regs rax) = casCell vm (s.mem (ea addr s))) :
    cmpxchg_hw vm newval addr s =
      { s with mem := fun x => if x = ea addr s then casCell vm (s.regs newval) else s.mem x,
               zf := true,
               trace := s.trace ++ [Event.cas (ea addr s) (casCell vm (s.regs rax))
                 (casCell vm (s.regs newval)) true] } := by
  unfold casCell at h
  cases hc : vm.UseCompressedOops <;> simp [hc] at h <;>
    simp [cmpxchg_hw, hc, cmpxchgptr, cmpxchgl, h, casCell]

theorem cmpxchg_hw_miss (vm : VM) (newval : Register) (addr : Address) (s : Machine)
    (h : casCell vm (s.regs rax) ≠ casCell vm (s.mem (ea addr s))) :
    cmpxchg_hw vm newval addr s =
      { setReg rax (casCell vm (s.mem (ea addr s))) s with
               zf := false,
               trace := s.trace ++ [Event.cas (ea addr s) (casCell vm (s.regs rax))
                 (casCell vm (s.regs newval)) false] } := by
  unfold casCell at h
  cases hc : vm.UseCompressedOops <;> simp [hc] at h <;>
    simp [cmpxchg_hw, hc, cmpxchgptr, cmpxchgl, h, casCell]

theorem cmpxchg_witness_regs (vm : VM) (oldval tmp2 : Register) (s : Machine)
    (hrb : vm.ShenandoahReadBarrier = true) :
    (cmpxchg_witness vm oldval tmp2 s).regs =
      fun x => if x = tmp2 then resolve vm s.mem (casOop vm (s.regs oldval)) else s.regs x := by
  funext x
  cases hc : vm.UseCompressedOops <;> by_cases hx : x = tmp2 <;>
    simp [cmpxchg_witness, resolve_for_read, read_barrier_regs, read_barrier_mem, hrb, hc,
      decode_heap_oop, movl_rr, movptr_rr, setReg, casOop, hx]

theorem cmpxchg_witness_mem (vm : VM) (oldval tmp2 : Register) (s : Machine) :
    (cmpxchg_witness vm oldval tmp2 s).mem = s.mem := by
  cases hc : vm.UseCompressedOops <;>
    simp [cmpxchg_witness, resolve_for_read, read_barrier_mem, hc,
      decode_heap_oop, movl_rr, movptr_rr, setReg]

theorem done_regs (res : Register) (s : Machine) :
    (movzbl res res (setb_equal res s)).regs res = if s.zf then 1 else 0 := by
  cases hz : s.zf <;> simp [movzbl, setb_equal, setReg, hz, Nat.add_mod]

theorem done_mem (res : Register) (s : Machine) :
    (movzbl res res (setb_equal res s)).mem = s.mem := rfl

theorem cmpxchg_retry_hit (vm : VM) (addr : Address) (oldval newval tmp1 tmp2 : Register)
    (f : Nat) (s : Machine)
    (h : casCell vm (s.regs rax) = casCell vm (s.mem (ea addr s))) :
    cmpxchg_retry vm addr oldval newval tmp1 tmp2 (f + 1) s =
      some (cmpxchg_hw vm newval addr s) := by
  simp [cmpxchg_retry, cmpxchg_hw_hit vm newval addr s h]

/-- With `encode` unset the opening of `cmpxchg_oop` emits nothing. -/
theorem cmpxchg_prologue_plain (vm : VM) (rt : Runtime) (oldval newval tmp1 tmp2 : Register)
    (s : Machine) : cmpxchg_prologue vm rt oldval newval false tmp1 tmp2 s = s := by
  simp [cmpxchg_prologue]

/-- C1: in a sequential execution with the CAS barrier and the read barrier
enabled, `cmpxchg_oop` with `exchange = false` returns, given fuel for one
retry.  With `p` the state in which the hardware compare-and-swap is first
tried (the entry state when `encode` is unset; the state left by the
store-value barrier otherwise), `e` the expected value in `rax`, `v` the value
held at the address and `n` the new value: the result register is 1 exactly
when `e` and `v` resolve to the same reference, and 0 otherwise; on 1 the
address holds `n`, on 0 memory is as in `p`. -/
theorem cmpxchg_oop_result (vm : VM) (rt : Runtime) (fuel : Nat) (res newval tmp1 tmp2 : Register)
    (addr : Address) (encode : Bool) (s : Machine)
    (hfuel : 1 ≤ fuel)
    (hcas : vm.ShenandoahCASBarrier = true) (hrb : vm.ShenandoahReadBarrier = true)
    (hregs : tmp1 ≠ rax ∧ tmp2 ≠ rax ∧ tmp1 ≠ tmp2 ∧
      cmpxchg_newval vm newval encode ≠ rax ∧ cmpxchg_newval vm newval encode ≠ tmp1 ∧
      cmpxchg_newval vm newval encode ≠ tmp2)
    (haddr : addr.base ≠ rax ∧ addr.base ≠ tmp1 ∧ addr.base ≠ tmp2 ∧
      addr.index ≠ rax ∧ addr.index ≠ tmp1 ∧ addr.index ≠ tmp2) :
    (encode = false → cmpxchg_prologue vm rt rax newval encode tmp1 tmp2 s = s ∧
      cmpxchg_newval vm newval encode = newval) ∧
    ∃ s', cmpxchg_oop vm rt fuel res addr rax newval false encode tmp1 tmp2 s = some s' ∧
      (s'.regs res = 1 ∨ s'.regs res = 0) ∧
      (let p := cmpxchg_prologue vm rt rax newval encode tmp1 tmp2 s
       (s'.regs res = 1 ↔
          resolve vm p.mem (casOop vm (p.regs rax)) =
            resolve vm p.mem (casOop vm (p.mem (ea addr p)))) ∧
        (s'.regs res = 1 →
          s'.mem (ea addr p) = casCell vm (p.regs (cmpxchg_newval vm newval encode))) ∧
        (s'.regs res = 0 → s'.mem = p.mem)) := by
  refine ⟨fun he => by subst he; simp [cmpxchg_prologue, cmpxchg_newval], ?_⟩
  obtain ⟨h1, h2, h3, h4, h5, h6⟩ := hregs
  obtain ⟨a1, a2, a3, a4, a5, a6⟩ := haddr
  obtain ⟨f, rfl⟩ : ∃ f, fuel = f + 1 := ⟨fuel - 1, by omega⟩
  simp only [cmpxchg_oop, hcas, Bool.not_true, Bool.false_eq_true, if_false]
  generalize cmpxchg_prologue vm rt rax newval encode tmp1 tmp2 s = s
  generalize cmpxchg_newval vm newval encode = newval at h4 h5 h6 ⊢
  -- the state after remembering oldval in tmp1
  have hs1 : (if vm.UseCompressedOops then movl_rr tmp1 rax s else movptr_rr tmp1 rax s) =
      setReg tmp1 (casCell vm (s.regs rax)) s := by
    cases hc : vm.UseCompressedOops <;> simp [movl_rr, movptr_rr, casCell, hc]
  simp only [cmpxchg_oop, hcas, Bool.not_true, Bool.false_eq_true, if_false, and_false,
    hs1, Bool.not_false, if_true]
  have hea1 : ea addr (setReg tmp1 (casCell vm (s.regs rax)) s) = ea addr s :=
    ea_congr addr s _ (by simp [setReg, a2]) (by simp [setReg, a5])
  have hrax1 : (setReg tmp1 (casCell vm (s.regs rax)) s).regs rax = s.regs rax := by
    simp [setReg, Ne.symm h1]
  have hnv1 : (setReg tmp1 (casCell vm (s.regs rax)) s).regs newval = s.regs newval := by
    simp [setReg, h5]
  by_cases hev : casCell vm (s.regs rax) = casCell vm (s.mem (ea addr s))
  · -- Step 1 succeeds
    have hhit := cmpxchg_hw_hit vm newval addr _ (by rw [hrax1, hea1]; exact hev)
    rw [hhit]
    simp [done_regs, done_mem, hea1, hnv1, casOop_congr vm _ _ hev]
  · -- Step 1 fails: rax receives the witness
    have hmiss := cmpxchg_hw_miss vm newval addr _ (by rw [hrax1, hea1]; exact hev)
    have hs2r : (cmpxchg_hw vm newval addr (setReg tmp1 (casCell vm (s.regs rax)) s)).regs =
        fun x => if x = rax then casCell vm (s.mem (ea addr s))
        else if x = tmp1 then casCell vm (s.regs rax) else s.regs x := by
      rw [hmiss, hea1]; rfl
    have hs2m : (cmpxchg_hw vm newval addr (setReg tmp1 (casCell vm (s.regs rax)) s)).mem =
        s.mem := by rw [hmiss]; rfl
    have hz2 : (cmpxchg_hw vm newval addr (setReg tmp1 (casCell vm (s.regs rax)) s)).zf =
        false := by rw [hmiss]
    clear hmiss
    generalize cmpxchg_hw vm newval addr (setReg tmp1 (casCell vm (s.regs rax)) s) = s2
      at hs2r hs2m hz2 ⊢
    simp only [hz2, Bool.false_eq_true, if_false]
    -- Step 2: both sides resolved
    have hs3r : (resolve_for_read vm {} tmp1
        (if vm.UseCompressedOops then decode_heap_oop vm tmp1 s2 else s2)).regs =
        fun x => if x = tmp1 then resolve vm s.mem (casOop vm (s.regs rax))
        else if x = rax then casCell vm (s.mem (ea addr s)) else s.regs x := by
      funext x
      cases hc : vm.UseCompressedOops <;> by_cases hx : x = tmp1 <;> by_cases hx2 : x = rax <;>
        simp [resolve_for_read, read_barrier_regs, read_barrier_mem, hrb, hc,
          decode_heap_oop, setReg, casOop, casCell, hx, hx2, h1, Ne.symm h1, hs2r, hs2m]
    have hs3m : (resolve_for_read vm {} tmp1
        (if vm.UseCompressedOops then decode_heap_oop vm tmp1 s2 else s2)).mem = s.mem := by
      cases hc : vm.UseCompressedOops <;>
        simp [resolve_for_read, read_barrier_mem, hc, decode_heap_oop, setReg, hs2m]
    generalize resolve_for_read vm {} tmp1
        (if vm.UseCompressedOops then decode_heap_oop vm tmp1 s2 else s2) = s3
      at hs3r hs3m ⊢
    have hs5r : (cmpptr_rr tmp1 tmp2 (cmpxchg_witness vm rax tmp2 s3)).regs = fun x =>
        if x = tmp2 then resolve vm s.mem (casOop vm (s.mem (ea addr s)))
        else if x = tmp1 then resolve vm s.mem (casOop vm (s.regs rax))
        else if x = rax then casCell vm (s.mem (ea addr s)) else s.regs x := by
      funext x
      simp [cmpptr_rr, cmpxchg_witness_regs, hrb, hs3r, hs3m, Ne.symm h1, casOop_casCell]
    have hs5m : (cmpptr_rr tmp1 tmp2 (cmpxchg_witness vm rax tmp2 s3)).mem = s.mem := by
      simp [cmpptr_rr, cmpxchg_witness_mem, hs3m]
    have hs5z : (cmpptr_rr tmp1 tmp2 (cmpxchg_witness vm rax tmp2 s3)).zf =
        decide (resolve vm s.mem (casOop vm (s.regs rax)) =
          resolve vm s.mem (casOop vm (s.mem (ea addr s)))) := by
      simp [cmpptr_rr, cmpxchg_witness_regs, hrb, hs3r, hs3m, Ne.symm h1, casOop_casCell, h3]
    generalize cmpptr_rr tmp1 tmp2 (cmpxchg_witness vm rax tmp2 s3) = s5 at hs5r hs5m hs5z ⊢
    have hea5 : ea addr s5 = ea addr s := ea_congr addr s s5 (by simp [hs5r, a1, a2, a3])
      (by simp [hs5r, a4, a5, a6])
    by_cases hres : resolve vm s.mem (casOop vm (s.regs rax)) =
        resolve vm s.mem (casOop vm (s.mem (ea addr s)))
    · -- Step 3: the retry meets the witness it has just read
      have hz5 : s5.zf = true := by rw [hs5z]; simpa using hres
      have hcond : casCell vm (s5.regs rax) = casCell vm (s5.mem (ea addr s5)) := by
        rw [hea5, hs5m]; simp [hs5r, Ne.symm h1, Ne.symm h2, casCell_idem]
      rw [hz5, cmpxchg_retry_hit vm addr rax newval tmp1 tmp2 f s5 hcond,
        cmpxchg_hw_hit vm newval addr s5 hcond]
      simp [done_regs, done_mem, hea5, hres, hs5r, h5, h6, h4]
    · have hz5 : s5.zf = false := by rw [hs5z]; simpa using hres
      rw [hz5]
      simp [done_regs, done_mem, hz5, hres, hs5m]

/-- Witness for C1: the stale expected value 16 and the witnessed to-space
reference 32 resolve alike, so the result is 1 and the field holds 48. -/
theorem cmpxchg_oop_result_witness :
    ∃ s', cmpxchg_oop vmAll rtIdle 1 rbx ⟨rcx, noreg, 1, 0⟩ rax rdx false false r8 r9 mCas
        = some s' ∧ s'.regs rbx = 1 ∧ s'.mem 100 = 48 := by
  obtain ⟨_, s', hrun, _, hiff, hmem, _⟩ :=
    cmpxchg_oop_result vmAll rtIdle 1 rbx rdx r8 r9 ⟨rcx, noreg, 1, 0⟩ false mCas
      (by decide) rfl rfl (by decide) (by decide)
  have hres : s'.regs rbx = 1 := hiff.mpr (by decide)
  exact ⟨s', hrun, hres, hmem hres⟩

theorem read_barrier_impl_regs (vm : VM) (d : Register) (s : Machine) :
    (read_barrier_impl vm d s).regs =
      fun x => if x = d then resolve vm s.mem (s.regs d) else s.regs x := by
  funext x
  by_cases h0 : s.regs d = 0
  · by_cases hx : x = d <;> simp [read_barrier_impl, testptr, h0, resolve, hx]
  · by_cases hx : x = d <;>
      simp [read_barrier_impl, read_barrier_not_null_impl, testptr, h0,
        resolve, hx, movptr_rm, readMem, setReg, ea, Address.mk2]

/-- C2: with the acmp barrier and the read barrier enabled, the comparison
emitted by `obj_equals`, and by `obj_equals_addr` for a memory operand (with
`src1` not the scratch register the emitter uses), leaves the zero flag set,
i.e. reports "equal", if and only if the two references resolve to the same
reference. -/
theorem obj_equals_iff_resolve (vm : VM) (op1 op2 src1 : Register) (src2 : Address)
    (s : Machine)
    (hacmp : vm.ShenandoahAcmpBarrier = true) (hrb : vm.ShenandoahReadBarrier = true)
    (hsrc : src1 ≠ rscratch2) :
    ((obj_equals vm op1 op2 s).zf = true ↔
      resolve vm s.mem (s.regs op1) = resolve vm s.mem (s.regs op2)) ∧
    ((obj_equals_addr vm src1 src2 s).zf = true ↔
      resolve vm s.mem (s.regs src1) = resolve vm s.mem (s.mem (ea src2 s))) := by
  constructor
  · by_cases hab : s.regs op1 = s.regs op2
    · simp [obj_equals, hacmp, cmpptr_rr, hab]
    · have hne : op2 ≠ op1 := fun h => hab (by rw [h])
      simp [obj_equals, hacmp, cmpptr_rr, hab, read_barrier_regs, read_barrier_mem, hrb, hne,
        Ne.symm hne]
  · by_cases hab : s.regs src1 = s.mem (ea src2 s)
    · simp only [ea] at hab
      simp [obj_equals_addr, hacmp, cmpptr_rm, readMem, hab, ea]
    · simp only [ea] at hab
      simp [obj_equals_addr, hacmp, cmpptr_rm, cmpptr_rr, readMem, hab, read_barrier_regs,
        read_barrier_mem, hrb, movptr_rm, setReg, hsrc, Ne.symm hsrc, ea]

/-- Witness for C2: the from-space copy 16 and the to-space copy 32 of one
object compare equal, in registers and against the field at 100. -/
theorem obj_equals_iff_resolve_witness :
    (16 : Nat) ≠ 32 ∧
    (obj_equals vmAll rax rdx
      { mCas with regs := fun r => if r = rax then 16 else if r = rdx then 32 else 0 }).zf = true ∧
    (obj_equals_addr vmAll rax ⟨rcx, noreg, 1, 0⟩ mCas).zf = true := by
  have h1 := obj_equals_iff_resolve vmAll rax rdx rax ⟨rcx, noreg, 1, 0⟩
    { mCas with regs := fun r => if r = rax then 16 else if r = rdx then 32 else 0 }
    rfl rfl (by decide)
  have h2 := obj_equals_iff_resolve vmAll rax rdx rax ⟨rcx, noreg, 1, 0⟩ mCas
    rfl rfl (by decide)
  exact ⟨by decide, h1.1.mpr (by decide), h2.2.mpr (by decide)⟩

/-- C3: `read_barrier_impl` leaves `resolve` of its operand in the register
(null for null, else the content of the forwarding word), and in a heap where
forwarding never chains resolving is idempotent: `resolve (resolve r) =
resolve r` for every `r`, null included, and applying `read_barrier` a second
time changes neither the registers nor the memory. -/
theorem read_barrier_idempotent (vm : VM) (dst : Register) (s : Machine)
    (hchain : NoChain vm s.mem) :
    (read_barrier_impl vm dst s).regs dst = resolve vm s.mem (s.regs dst) ∧
    resolve vm s.mem 0 = 0 ∧
    resolve vm s.mem (resolve vm s.mem (s.regs dst)) = resolve vm s.mem (s.regs dst) ∧
    (read_barrier vm dst (read_barrier vm dst s)).regs = (read_barrier vm dst s).regs ∧
    (read_barrier vm dst (read_barrier vm dst s)).mem = (read_barrier vm dst s).mem := by
  have hidem : ∀ r, resolve vm s.mem (resolve vm s.mem r) = resolve vm s.mem r := by
    intro r
    by_cases hr : r = 0
    · simp [resolve, hr]
    · by_cases ht : s.mem ((r + vm.brooks_byte_offset) % W) = 0
      · simp [resolve, hr, ht]
      · simpa [resolve, hr, ht] using hchain r hr ht
  refine ⟨by simp [read_barrier_impl_regs], by simp [resolve], hidem _, ?_, ?_⟩
  · cases hrb : vm.ShenandoahReadBarrier
    · simp [read_barrier, hrb]
    · funext x
      by_cases hx : x = dst <;>
        simp [read_barrier_regs, read_barrier_mem, hrb, hx, hidem]
  · simp [read_barrier_mem]

/-- Witness for C3: the heap `heapFwd` has no forwarding chain, and the stale
reference 16 resolves to 32 at the first and at the second application. -/
theorem read_barrier_idempotent_witness :
    NoChain vmAll heapFwd ∧
    (read_barrier vmAll rax mCas).regs rax = 32 ∧
    (read_barrier vmAll rax (read_barrier vmAll rax mCas)).regs rax = 32 := by
  have key : ∀ a, heapFwd a ≠ 0 → heapFwd a = 32 := by
    intro a h
    unfold heapFwd at h ⊢
    split_ifs at h ⊢ <;> first | rfl | exact absurd rfl h
  have hno : NoChain vmAll heapFwd := by
    intro o _ ht
    rw [key _ ht]
    decide
  have h := read_barrier_idempotent vmAll rax mCas hno
  refine ⟨hno, by decide, ?_⟩
  rw [h.2.2.2.1]
  decide

theorem or_eq_zero_iff' (a b : Nat) : a ||| b = 0 ↔ a = 0 ∧ b = 0 := by
  constructor
  · intro h
    have h' : ∀ i, (a ||| b).testBit i = false := by intro i; rw [h]; simp
    constructor <;> apply Nat.eq_of_testBit_eq <;> intro i <;> have := h' i <;>
      simp only [Nat.testBit_or, Bool.or_eq_false_iff] at this <;> simp [this]
  · rintro ⟨rfl, rfl⟩; rfl

theorem or_mod_256 (a b : Nat) : (a ||| b) % 256 = a % 256 ||| b % 256 := by
  apply Nat.eq_of_testBit_eq
  intro i
  have h : (256 : Nat) = 2 ^ 8 := by norm_num
  simp only [h, Nat.testBit_mod_two_pow, Nat.testBit_or]
  cases decide (i < 8) <;> simp

theorem test_or_zero (b E T : Nat) :
    (b &&& ((E ||| T) % 256) = 0) ↔ (b &&& (E % 256) = 0 ∧ b &&& (T % 256) = 0) := by
  rw [or_mod_256, Nat.and_or_distrib_left, or_eq_zero_iff']

theorem testb_gc_state_zf (vm : VM) (E T : Nat) (s : Machine) :
    (testb_mi (Address.mk2 r15_thread vm.gc_state_offset) (E ||| T) s).zf =
      !(gcFlag vm E s || gcFlag vm T s) := by
  have h := test_or_zero (gc_state vm s) E T
  simp only [testb_mi, readMem, gcFlag]
  by_cases h1 : gc_state vm s &&& (E % 256) = 0 <;> by_cases h2 : gc_state vm s &&& (T % 256) = 0
    <;> simp_all [gc_state]

theorem condPush_regs (c : Prop) [Decidable c] (r : Register) (s : Machine) :
    (if c then push r s else s).regs = s.regs := by split <;> rfl

theorem condPush_mem (c : Prop) [Decidable c] (r : Register) (s : Machine) :
    (if c then push r s else s).mem = s.mem := by split <;> rfl

theorem condPush_pool (c : Prop) [Decidable c] (r : Register) (s : Machine) :
    (if c then push r s else s).pool = s.pool := by split <;> rfl

theorem condPush_trace (c : Prop) [Decidable c] (r : Register) (s : Machine) :
    (if c then push r s else s).trace = s.trace := by split <;> rfl

theorem condPop_regs (c : Prop) [Decidable c] (r x : Register) (s : Machine) (h : x ≠ r) :
    (if c then pop r s else s).regs x = s.regs x := by
  split <;> simp [pop, setReg, h]

theorem condPop_mem (c : Prop) [Decidable c] (r : Register) (s : Machine) :
    (if c then pop r s else s).mem = s.mem := by split <;> rfl

theorem condPop_pool (c : Prop) [Decidable c] (r : Register) (s : Machine) :
    (if c then pop r s else s).pool = s.pool := by split <;> rfl

theorem condPop_trace (c : Prop) [Decidable c] (r : Register) (s : Machine) :
    (if c then pop r s else s).trace = s.trace := by split <;> rfl

/-- The first two instructions of `write_barrier_impl` with the read barrier
enabled: the phase test, then the load of the forwarding word into `dst`. -/
theorem write_barrier_check_eq (vm : VM) (dst : Register) (s : Machine)
    (hrb : vm.ShenandoahReadBarrier = true) :
    read_barrier_not_null vm dst
        (testb_mi (Address.mk2 r15_thread vm.gc_state_offset)
          (vm.EVACUATION ||| vm.TRAVERSAL) s) =
      { s with
        regs := fun x =>
          if x = dst then s.mem ((s.regs dst + vm.brooks_byte_offset) % W) else s.regs x,
        zf := !(gcFlag vm vm.EVACUATION s || gcFlag vm vm.TRAVERSAL s),
        trace := s.trace ++
          [Event.load (ea (Address.mk2 r15_thread vm.gc_state_offset) s),
           Event.load ((s.regs dst + vm.brooks_byte_offset) % W)] } := by
  have hz := testb_gc_state_zf vm vm.EVACUATION vm.TRAVERSAL s
  simp only [testb_mi, readMem] at hz
  simp only [read_barrier_not_null, hrb, read_barrier_not_null_impl, movptr_rm, readMem, setReg,
    testb_mi, if_true, hz]
  simp [ea, Address.mk2]

/-- The collection-set test of `write_barrier_impl` leaves the registers as
they were and the zero flag clear exactly when the region of `dst` is in the
collection set. -/
theorem write_barrier_cset_test_eq (vm : VM) (dst : Register) (s : Machine) :
    write_barrier_cset_test vm dst s =
      { s with
        zf := !(inCset vm s.mem (s.regs dst)),
        trace := s.trace ++ [Event.load ((vm.in_cset_fast_test_addr % W +
          (s.regs dst % W) >>> vm.region_size_bytes_shift) % W)] } := by
  simp only [write_barrier_cset_test, push, pop, movptr_rr, shrptr, movptr_ri, movbool_rm,
    testb_ri, readMem, setReg, ea, inCset, rscratch1, rscratch2]
  simp only [Machine.mk.injEq, List.headD_cons, List.tail_cons, true_and, and_true]
  refine ⟨?_, ?_⟩
  · funext x
    split_ifs <;> simp_all
  · simp
    rcases Nat.mod_two_eq_zero_or_one (s.mem ((vm.in_cset_fast_test_addr +
      (s.regs dst % W) >>> vm.region_size_bytes_shift) % W) % 256) with h | h <;> simp [h]
theorem ite_regs (c : Prop) [Decidable c] (a b : Machine) (x : Register) :
    (if c then a else b).regs x = if c then a.regs x else b.regs x := by split <;> rfl

theorem ite_mem (c : Prop) [Decidable c] (a b : Machine) :
    (if c then a else b).mem = if c then a.mem else b.mem := by split <;> rfl

theorem ite_pool (c : Prop) [Decidable c] (a b : Machine) :
    (if c then a else b).pool = if c then a.pool else b.pool := by split <;> rfl

theorem ite_trace (c : Prop) [Decidable c] (a b : Machine) :
    (if c then a else b).trace = if c then a.trace else b.trace := by split <;> rfl

theorem push_regs (r : Register) (s : Machine) : (push r s).regs = s.regs := rfl

theorem push_mem (r : Register) (s : Machine) : (push r s).mem = s.mem := rfl

theorem push_pool (r : Register) (s : Machine) : (push r s).pool = s.pool := rfl

theorem push_trace (r : Register) (s : Machine) : (push r s).trace = s.trace := rfl

theorem pop_regs_ne (r x : Register) (s : Machine) (h : x ≠ r) :
    (pop r s).regs x = s.regs x := by simp [pop, setReg, h]

theorem pop_mem (r : Register) (s : Machine) : (pop r s).mem = s.mem := rfl

theorem pop_pool (r : Register) (s : Machine) : (pop r s).pool = s.pool := rfl

theorem pop_trace (r : Register) (s : Machine) : (pop r s).trace = s.trace := rfl

/-- The slow path of `write_barrier_impl` calls `write_barrier_IRT` on the
content of `dst` and leaves the returned reference in `dst`. -/
theorem write_barrier_slow_spec (vm : VM) (rt : Runtime) (dst : Register) (s : Machine)
    (hd : dst ≠ rscratch1) (hc : vm.c_rarg1 ≠ rscratch1) :
    (write_barrier_slow vm rt dst s).regs dst =
        (rt Entry.write_barrier_IRT [s.regs dst] s.mem s.pool).ret ∧
    (write_barrier_slow vm rt dst s).mem =
        (rt Entry.write_barrier_IRT [s.regs dst] s.mem s.pool).mem ∧
    (write_barrier_slow vm rt dst s).pool =
        (rt Entry.write_barrier_IRT [s.regs dst] s.mem s.pool).pool ∧
    (write_barrier_slow vm rt dst s).trace =
        s.trace ++ [Event.call Entry.write_barrier_IRT [s.regs dst]] := by
  have hr10 : (rscratch1 : Register) = r10 := rfl
  rw [hr10] at hd hc
  have hcall : ∀ t : Machine,
      (super_call_VM_leaf vm rt Entry.write_barrier_IRT dst t).regs rax =
          (rt Entry.write_barrier_IRT [t.regs dst] t.mem t.pool).ret ∧
      (super_call_VM_leaf vm rt Entry.write_barrier_IRT dst t).mem =
          (rt Entry.write_barrier_IRT [t.regs dst] t.mem t.pool).mem ∧
      (super_call_VM_leaf vm rt Entry.write_barrier_IRT dst t).pool =
          (rt Entry.write_barrier_IRT [t.regs dst] t.mem t.pool).pool ∧
      (super_call_VM_leaf vm rt Entry.write_barrier_IRT dst t).trace =
          t.trace ++ [Event.call Entry.write_barrier_IRT [t.regs dst]] := by
    intro t
    by_cases h : vm.c_rarg0 = dst <;>
      simp [super_call_VM_leaf, call_VM_leaf_base, h, movptr_rr, setReg]
  simp only [write_barrier_slow, rscratch1]
  refine ⟨?_, ?_, ?_, ?_⟩ <;>
    simp [-ite_not, pop_regs_ne, pop_mem, pop_pool, pop_trace, movptr_rr, setReg, hd, ite_regs,
      ite_mem, ite_pool, ite_trace, Ne.symm hc, pop_xmm0, hcall, push_xmm0, push_regs,
      push_mem, push_pool, push_trace]
theorem upcalls_append (a b : List Event) : upcalls (a ++ b) = upcalls a ++ upcalls b := by
  induction a with
  | nil => rfl
  | cons e t ih => cases e <;> simp [upcalls, ih]

/-- C4 (amended): with the write barrier and the read barrier enabled, for a
non-null reference `r` in `dst`, `write_barrier` returns `resolve r` with no
runtime call and memory untouched when neither Evacuation nor Traversal is set
or the region of `resolve r` is not in the collection set; otherwise it makes
exactly one call, `write_barrier_IRT (resolve r)`, and returns its result.
Hence, when that call returns a reference outside the collection set, the
reference returned while Evacuation or Traversal is set is outside the
collection set. -/
theorem write_barrier_spec (vm : VM) (rt : Runtime) (dst : Register) (s : Machine)
    (hwb : vm.ShenandoahWriteBarrier = true) (hrb : vm.ShenandoahReadBarrier = true)
    (hd : dst ≠ rscratch1) (hc : vm.c_rarg1 ≠ rscratch1) (hr : s.regs dst ≠ 0) :
    ((gcFlag vm vm.EVACUATION s = false ∧ gcFlag vm vm.TRAVERSAL s = false) ∨
        inCset vm s.mem (resolve vm s.mem (s.regs dst)) = false →
      (write_barrier vm rt dst s).regs dst = resolve vm s.mem (s.regs dst) ∧
      upcalls (write_barrier vm rt dst s).trace = upcalls s.trace ∧
      (write_barrier vm rt dst s).mem = s.mem) ∧
    (¬ ((gcFlag vm vm.EVACUATION s = false ∧ gcFlag vm vm.TRAVERSAL s = false) ∨
        inCset vm s.mem (resolve vm s.mem (s.regs dst)) = false) →
      (write_barrier vm rt dst s).regs dst =
        (rt Entry.write_barrier_IRT [resolve vm s.mem (s.regs dst)] s.mem s.pool).ret ∧
      upcalls (write_barrier vm rt dst s).trace =
        upcalls s.trace ++ [(Entry.write_barrier_IRT, [resolve vm s.mem (s.regs dst)])]) ∧
    ((gcFlag vm vm.EVACUATION s = true ∨ gcFlag vm vm.TRAVERSAL s = true) →
      inCset vm s.mem
        (rt Entry.write_barrier_IRT [resolve vm s.mem (s.regs dst)] s.mem s.pool).ret = false →
      inCset vm s.mem ((write_barrier vm rt dst s).regs dst) = false) := by
  have hres : resolve vm s.mem (s.regs dst) = s.mem ((s.regs dst + vm.brooks_byte_offset) % W) := by
    simp [resolve, hr]
  rw [hres]
  simp only [write_barrier, hwb, if_true, write_barrier_impl, write_barrier_check_eq vm dst s hrb]
  cases hE : gcFlag vm vm.EVACUATION s <;> cases hT : gcFlag vm vm.TRAVERSAL s <;>
    simp only [Bool.or_false, Bool.or_true, Bool.not_false, Bool.not_true, if_true,
      Bool.false_eq_true, if_false, write_barrier_cset_test_eq]
  · simp [upcalls_append, upcalls]
  all_goals
    cases hC : inCset vm s.mem (s.mem ((s.regs dst + vm.brooks_byte_offset) % W))
    · simp [hC, upcalls_append, upcalls]
    · simp only [hC, Bool.not_true, Bool.false_eq_true, if_false,
        (write_barrier_slow_spec vm rt dst _ hd hc).1,
        (write_barrier_slow_spec vm rt dst _ hd hc).2.2.2]
      simp [upcalls_append, upcalls]
/-- Witness for C4: in the idle phase the stale reference 16 comes back as its
forwarding target 32 and no runtime call is made. -/
theorem write_barrier_spec_witness :
    mCas.regs rax ≠ 0 ∧
    (write_barrier vmAll rtIdle rax mCas).regs rax = 32 ∧
    upcalls (write_barrier vmAll rtIdle rax mCas).trace = [] := by
  have h := (write_barrier_spec vmAll rtIdle rax mCas rfl rfl (by decide) (by decide)
    (by decide)).1 (Or.inl (by decide))
  refine ⟨by decide, ?_, ?_⟩
  · rw [h.1]; decide
  · rw [h.2.1]; rfl

/-- Counterexample to C4 as stated: with the write barrier enabled and the read
barrier disabled, in the idle phase (neither Evacuation nor Traversal set) the
write barrier hands back the non-null stale reference 16 itself, not its
forwarding target 32. -/
theorem write_barrier_unresolved :
    vmNoRead.ShenandoahWriteBarrier = true ∧
    mCas.regs rax ≠ 0 ∧
    gcFlag vmNoRead vmNoRead.EVACUATION mCas = false ∧
    gcFlag vmNoRead vmNoRead.TRAVERSAL mCas = false ∧
    resolve vmNoRead mCas.mem (mCas.regs rax) = 32 ∧
    (write_barrier vmNoRead rtIdle rax mCas).regs rax = 16 := by
  decide

theorem loads_append (a b : List Event) : loads (a ++ b) = loads a ++ loads b := by
  induction a with
  | nil => rfl
  | cons e t ih => cases e <;> simp [loads, ih]

theorem stores_append (a b : List Event) : stores (a ++ b) = stores a ++ stores b := by
  induction a with
  | nil => rfl
  | cons e t ih => cases e <;> simp [stores, ih]

theorem savedRegs_getD (f : Register → Nat) (st : List Nat) (r : Register)
    (h : r ∈ savedRegs) : (savedRegs.map f ++ st).getD (savedRegs.indexOf r) 0 = f r := by
  cases r <;> first | rfl | (exfalso; revert h; decide)

/-- Counterexample to C5: applied to null, `write_barrier` and
`resolve_for_write` go on to read through the reference: after the gc-state
byte (at address 0 here) they load the forwarding word of null, at address
`2 ^ 64 - 8`.  The sibling `resolve_for_read`, given the same null, loads
nothing and hands null back. -/
theorem write_barrier_null_reads :
    mNull.regs rax = 0 ∧
    loads (write_barrier vmAll rtIdle rax mNull).trace = [0, 2 ^ 64 - 8] ∧
    loads (resolve_for_write vmAll rtIdle {} rax mNull).trace = [0, 2 ^ 64 - 8] ∧
    loads (resolve_for_read vmAll {} rax mNull).trace = [] ∧
    (resolve_for_read vmAll {} rax mNull).regs rax = 0 := by
  decide
theorem popa_pusha_regs (s t : Machine) (ht : t.stack = savedRegs.map s.regs ++ s.stack)
    (r : Register) (hr : t.regs r = s.regs r) : (popa t).regs r = s.regs r := by
  by_cases h : r ∈ savedRegs
  · simp only [popa, h, if_true, ht]
    exact savedRegs_getD s.regs s.stack r h
  · simp only [popa, h, if_false, hr]

/-- The SATB enqueue of a null value held in `pre_val`: the gc-state byte is
read and nothing else happens. -/
theorem satb_write_barrier_pre_null_reg (vm : VM) (rt : Runtime)
    (pre_val thread tmp : Register) (tosca_live expand_call : Bool) (s : Machine)
    (h0 : s.regs pre_val = 0) :
    satb_write_barrier_pre vm rt noreg pre_val thread tmp tosca_live expand_call s =
      { s with zf := true,
               trace := s.trace ++ [Event.load (ea (Address.mk2 thread vm.gc_state_offset) s)] } := by
  simp only [satb_write_barrier_pre, testb_mi, readMem, ne_eq, not_true_eq_false, if_false,
    cmpptr_ri, h0, decide_True, if_true]
  split
  · next h => simp only [h]
  · rfl

theorem read_barrier_impl_null (vm : VM) (dst : Register) (s : Machine) (h0 : s.regs dst = 0) :
    read_barrier_impl vm dst s = { s with zf := true } := by
  simp [read_barrier_impl, testptr, h0]

theorem storeval_barrier_null (vm : VM) (rt : Runtime) (dst tmp : Register) (s : Machine)
    (hn : dst ≠ noreg) (h0 : s.regs dst = 0) :
    (storeval_barrier vm rt dst tmp s).regs dst = 0 ∧
    (storeval_barrier vm rt dst tmp s).mem = s.mem ∧
    upcalls (storeval_barrier vm rt dst tmp s).trace = upcalls s.trace ∧
    loads (storeval_barrier vm rt dst tmp s).trace = loads s.trace ++
      (if vm.ShenandoahStoreValEnqueueBarrier
        then [ea (Address.mk2 r15_thread vm.gc_state_offset) s] else []) := by
  have hz : (testptr dst dst s).zf = true := by simp [testptr, h0]
  have hsatb := satb_write_barrier_pre_null_reg vm rt dst r15_thread tmp true false
    (push_xmm0 (pusha (testptr dst dst s))) (by simpa [push_xmm0, pusha, testptr] using h0)
  have hpop : (popa (pop_xmm0 (satb_write_barrier_pre vm rt noreg dst r15_thread tmp true false
      (push_xmm0 (pusha (testptr dst dst s)))))).regs dst = 0 := by
    rw [hsatb, ← h0]
    exact popa_pusha_regs s _ (by simp [pop_xmm0, push_xmm0, pusha, testptr]) dst rfl
  cases hE : vm.ShenandoahStoreValEnqueueBarrier <;> cases hR : vm.ShenandoahStoreValReadBarrier
  · simp [storeval_barrier, hE, hR, h0]
  · simp [storeval_barrier, storeval_barrier_impl, hE, hR, hn, read_barrier_impl_null, h0]
  · simp only [storeval_barrier, storeval_barrier_impl, hE, hR, hn, hz, if_true, if_false,
      Bool.or_true, Bool.false_eq_true]
    refine ⟨hpop, ?_, ?_, ?_⟩ <;> rw [hsatb] <;>
      simp [popa, pop_xmm0, push_xmm0, pusha, testptr, upcalls_append, upcalls, loads_append,
        loads, ea]
  · simp only [storeval_barrier, storeval_barrier_impl, hE, hR, hn, hz, if_true, if_false,
      Bool.or_true, Bool.false_eq_true]
    rw [read_barrier_impl_null vm dst _ hpop]
    refine ⟨hpop, ?_, ?_, ?_⟩ <;> rw [hsatb] <;>
      simp [popa, pop_xmm0, push_xmm0, pusha, testptr, upcalls_append, upcalls, loads_append,
        loads, ea]

/-- C5 (what the code does): `write_barrier` has no null test.  With the write
barrier and the read barrier enabled and null in `dst`, in every phase the
first load after the gc-state byte goes through the reference: it reads the
forwarding word of null.  `resolve_for_write` is the same code, whatever its
decorators say.  The sibling `resolve_for_read`, unless told that the reference is
not null, tests for null first: on null it loads nothing and returns null. -/
theorem write_barrier_null (vm : VM) (rt : Runtime) (decorators : DecoratorSet)
    (dst : Register) (s : Machine)
    (hwb : vm.ShenandoahWriteBarrier = true) (hrb : vm.ShenandoahReadBarrier = true)
    (hd : dst ≠ rscratch1) (hc : vm.c_rarg1 ≠ rscratch1)
    (h0 : s.regs dst = 0) :
    (∃ rest, loads (write_barrier vm rt dst s).trace =
      loads s.trace ++ [ea (Address.mk2 r15_thread vm.gc_state_offset) s,
        vm.brooks_byte_offset % W] ++ rest) ∧
    resolve_for_write vm rt decorators dst s = write_barrier vm rt dst s ∧
    (decorators.OOP_NOT_NULL = false →
      loads (resolve_for_read vm decorators dst s).trace = loads s.trace ∧
      (resolve_for_read vm decorators dst s).regs dst = 0) := by
  refine ⟨?_, rfl, ?_⟩
  · simp only [write_barrier, hwb, if_true, write_barrier_impl,
      write_barrier_check_eq vm dst s hrb, h0, Nat.zero_add]
    cases hF : (gcFlag vm vm.EVACUATION s || gcFlag vm vm.TRAVERSAL s)
    · exact ⟨[], by simp [loads_append, loads]⟩
    · simp only [Bool.not_true, Bool.false_eq_true, if_false, write_barrier_cset_test_eq]
      cases hC : inCset vm s.mem (s.mem (vm.brooks_byte_offset % W))
      · exact ⟨_, by simp [hC, loads_append, loads]; rfl⟩
      · exact ⟨_, by
          simp [hC, (write_barrier_slow_spec vm rt dst _ hd hc).2.2.2, loads_append, loads]; rfl⟩
  · intro hnn
    simp [resolve_for_read, hnn, read_barrier, hrb, read_barrier_impl, testptr, h0]
/-- Witness for C5: on `mNull` the write barrier reads through null, where
`resolve_for_read` hands null back. -/
theorem write_barrier_null_witness :
    mNull.regs rax = 0 ∧
    (∃ rest, loads (write_barrier vmAll rtIdle rax mNull).trace =
      loads mNull.trace ++ [ea (Address.mk2 r15_thread vmAll.gc_state_offset) mNull,
        vmAll.brooks_byte_offset % W] ++ rest) ∧
    (resolve_for_read vmAll {} rax mNull).regs rax = 0 :=
  have h := write_barrier_null vmAll rtIdle {} rax mNull rfl rfl (by decide) (by decide) rfl
  ⟨rfl, h.1, (h.2.2 rfl).2⟩

/-- C9: for every phase and every buffer state, the SATB enqueue emitted by
`satb_write_barrier_pre` for a null value (in `pre_val`, or loaded from the
field at `obj`) changes no memory, so the thread's buffer and its write
index are as before, writes nothing, leaves the pool alone and makes no
runtime call. -/
theorem satb_write_barrier_pre_null (vm : VM) (rt : Runtime) (obj pre_val thread tmp : Register)
    (tosca_live expand_call : Bool) (s : Machine)
    (hnull : satbValue vm obj pre_val s = 0) :
    (satb_write_barrier_pre vm rt obj pre_val thread tmp tosca_live expand_call s).mem = s.mem ∧
    (satb_write_barrier_pre vm rt obj pre_val thread tmp tosca_live expand_call s).pool =
      s.pool ∧
    stores (satb_write_barrier_pre vm rt obj pre_val thread tmp tosca_live expand_call s).trace
      = stores s.trace ∧
    upcalls (satb_write_barrier_pre vm rt obj pre_val thread tmp tosca_live expand_call s).trace
      = upcalls s.trace := by
  by_cases ho : obj = noreg
  · subst ho
    rw [satb_write_barrier_pre_null_reg vm rt pre_val thread tmp tosca_live expand_call s
      (by simpa [satbValue] using hnull)]
    simp [stores_append, stores, upcalls_append, upcalls]
  · simp only [satbValue, ho, if_false] at hnull
    simp only [satb_write_barrier_pre, ne_eq, ho, not_false_eq_true, if_true]
    split
    · simp [testb_mi, readMem, stores_append, stores, upcalls_append, upcalls]
    · have hv : (load_heap_oop vm pre_val (Address.mk2 obj 0)
          (testb_mi (Address.mk2 thread vm.gc_state_offset) (vm.MARKING ||| vm.TRAVERSAL)
            s)).regs pre_val = 0 := by
        refine Eq.trans ?_ hnull
        cases hc : vm.UseCompressedOops <;>
          simp [load_heap_oop, hc, decode_heap_oop, movl_rm, movptr_rm, readMem, setReg,
            testb_mi, casOop, ea, Address.mk2]
      simp only [cmpptr_ri, hv, decide_True, if_true]
      cases hc : vm.UseCompressedOops <;>
        simp [load_heap_oop, hc, decode_heap_oop, movl_rm, movptr_rm, readMem, setReg,
          testb_mi, stores_append, stores, upcalls_append, upcalls]

/-- Witness for C9: with Marking active (gc-state byte 2 at 200) and a buffer
with room, enqueueing the null in `rax` leaves the index word at 216 and the
memory as they were. -/
theorem satb_write_barrier_pre_null_witness :
    satbValue vmAll noreg rax mMark = 0 ∧
    gcFlag vmAll vmAll.MARKING mMark = true ∧
    (satb_write_barrier_pre vmAll rtIdle noreg rax r15_thread r8 true false mMark).mem
      = mMark.mem ∧
    upcalls (satb_write_barrier_pre vmAll rtIdle noreg rax r15_thread r8 true false mMark).trace
      = [] :=
  have h := satb_write_barrier_pre_null vmAll rtIdle noreg rax r15_thread r8 true false mMark rfl
  ⟨rfl, by decide, h.1, h.2.2.2⟩

/-- Memory and writes of the connection-matrix record: the cell is written, with
1, exactly when matrix tracking is on, the new value is non-null and the cell's
byte is clear. -/
theorem shenandoah_write_barrier_post_eq (vm : VM) (store_addr new_val tmp tmp2 : Register)
    (s : Machine)
    (hregs : tmp ≠ tmp2 ∧ tmp ≠ rscratch1 ∧ tmp2 ≠ rscratch1 ∧ tmp ≠ noreg ∧
      store_addr ≠ tmp ∧ store_addr ≠ rscratch1 ∧ new_val ≠ rscratch1) :
    (shenandoah_write_barrier_post vm store_addr new_val tmp tmp2 s).mem =
      (if vm.UseShenandoahMatrix = true ∧ s.regs new_val ≠ 0 ∧
          s.mem (matrixCell vm (s.regs store_addr) (s.regs new_val)) % 256 = 0
        then fun a => if a = matrixCell vm (s.regs store_addr) (s.regs new_val) then 1
          else s.mem a
        else s.mem) ∧
    stores (shenandoah_write_barrier_post vm store_addr new_val tmp tmp2 s).trace =
      stores s.trace ++
      (if vm.UseShenandoahMatrix = true ∧ s.regs new_val ≠ 0 ∧
          s.mem (matrixCell vm (s.regs store_addr) (s.regs new_val)) % 256 = 0
        then [(matrixCell vm (s.regs store_addr) (s.regs new_val), 1)] else []) := by
  obtain ⟨h1, h2, h3, h4, h5, h6, h7⟩ := hregs
  have hr10 : (rscratch1 : Register) = r10 := rfl
  rw [hr10] at h2 h3 h6 h7
  cases hm : vm.UseShenandoahMatrix
  · simp [shenandoah_write_barrier_post, hm]
  · by_cases hv : s.regs new_val = 0
    · simp [shenandoah_write_barrier_post, hm, testptr, hv]
    · have hcell : ea ⟨rscratch1, tmp, 1, 0⟩
          (movptr_ri rscratch1 vm.matrix_addr (addptr_rr tmp tmp2
            (imulptr tmp tmp vm.matrix_stride (shrptr tmp2 vm.region_size_bytes_shift
              (subptr_rr tmp2 rscratch1 (movptr_rr tmp2 store_addr
                (shrptr tmp vm.region_size_bytes_shift (subptr_rr tmp rscratch1
                  (movptr_rr tmp new_val (movptr_ri rscratch1 vm.heap_base
                    (testptr new_val new_val s)))))))))))
          = matrixCell vm (s.regs store_addr) (s.regs new_val) := by
        simp [ea, movptr_ri, addptr_rr, imulptr, shrptr, subptr_rr, movptr_rr, testptr, setReg,
          rscratch1, h1, h2, h3, h4, h5, h6, h7, Ne.symm h1, Ne.symm h2, Ne.symm h3,
          matrixCell, regionOf]
      have hz : (testptr new_val new_val s).zf = false := by simp [testptr, hv]
      simp only [shenandoah_write_barrier_post, hm, Bool.not_true, Bool.false_eq_true, if_false,
        hz, hv, not_false_eq_true, true_and, ne_eq]
      generalize hX : movptr_ri rscratch1 vm.matrix_addr (addptr_rr tmp tmp2
            (imulptr tmp tmp vm.matrix_stride (shrptr tmp2 vm.region_size_bytes_shift
              (subptr_rr tmp2 rscratch1 (movptr_rr tmp2 store_addr
                (shrptr tmp vm.region_size_bytes_shift (subptr_rr tmp rscratch1
                  (movptr_rr tmp new_val (movptr_ri rscratch1 vm.heap_base
                    (testptr new_val new_val s)))))))))) = X at hcell ⊢
      have hXm : X.mem = s.mem := by rw [← hX]; rfl
      have hXt : X.trace = s.trace := by rw [← hX]; rfl
      have hea : ∀ z x0 m st p t, ea ⟨rscratch1, tmp, 1, 0⟩ ⟨X.regs, z, x0, m, st, p, t⟩ =
          matrixCell vm (s.regs store_addr) (s.regs new_val) := fun _ _ _ _ _ _ => hcell
      by_cases hb : s.mem (matrixCell vm (s.regs store_addr) (s.regs new_val)) % 256 = 0
      · simp [cmpb_mi, movb_mi, readMem, writeMem, hcell, hea, hXm, hXt, hb, stores_append,
          stores]
      · simp [cmpb_mi, movb_mi, readMem, writeMem, hcell, hea, hXm, hXt, hb, stores_append,
          stores]

/-- C10: the connection-matrix record emitted by `shenandoah_write_barrier_post`
is monotone and idempotent.  With `c` the cell at index `toRegion * stride +
fromRegion`: every other cell is unchanged; a set byte stays set, and `c`
either keeps its content or goes from clear to 1; a null new value or a cell
already set causes no write at all; and a second record with the same
arguments leaves the matrix as the first one left it. -/
theorem shenandoah_write_barrier_post_monotone_idempotent (vm : VM)
    (store_addr new_val tmp tmp2 : Register) (s : Machine)
    (hregs : tmp ≠ tmp2 ∧ tmp ≠ rscratch1 ∧ tmp2 ≠ rscratch1 ∧ tmp ≠ noreg ∧
      store_addr ≠ tmp ∧ store_addr ≠ rscratch1 ∧ new_val ≠ rscratch1) :
    (∀ a, a ≠ matrixCell vm (s.regs store_addr) (s.regs new_val) →
      (shenandoah_write_barrier_post vm store_addr new_val tmp tmp2 s).mem a = s.mem a) ∧
    (∀ a, s.mem a % 256 ≠ 0 →
      (shenandoah_write_barrier_post vm store_addr new_val tmp tmp2 s).mem a % 256 ≠ 0) ∧
    ((shenandoah_write_barrier_post vm store_addr new_val tmp tmp2 s).mem
        (matrixCell vm (s.regs store_addr) (s.regs new_val)) =
          s.mem (matrixCell vm (s.regs store_addr) (s.regs new_val)) ∨
      (s.mem (matrixCell vm (s.regs store_addr) (s.regs new_val)) % 256 = 0 ∧
        (shenandoah_write_barrier_post vm store_addr new_val tmp tmp2 s).mem
          (matrixCell vm (s.regs store_addr) (s.regs new_val)) = 1)) ∧
    (s.regs new_val = 0 ∨
        s.mem (matrixCell vm (s.regs store_addr) (s.regs new_val)) % 256 ≠ 0 →
      stores (shenandoah_write_barrier_post vm store_addr new_val tmp tmp2 s).trace =
        stores s.trace ∧
      (shenandoah_write_barrier_post vm store_addr new_val tmp tmp2 s).mem = s.mem) ∧
    (∀ t : Machine,
      t.mem = (shenandoah_write_barrier_post vm store_addr new_val tmp tmp2 s).mem →
      t.regs store_addr = s.regs store_addr → t.regs new_val = s.regs new_val →
      (shenandoah_write_barrier_post vm store_addr new_val tmp tmp2 t).mem = t.mem ∧
      stores (shenandoah_write_barrier_post vm store_addr new_val tmp tmp2 t).trace =
        stores t.trace) := by
  obtain ⟨hmem, hst⟩ := shenandoah_write_barrier_post_eq vm store_addr new_val tmp tmp2 s hregs
  refine ⟨?_, ?_, ?_, ?_, ?_⟩
  · intro a ha
    rw [hmem]; split <;> simp [ha]
  · intro a ha
    rw [hmem]; split
    · by_cases hc : a = matrixCell vm (s.regs store_addr) (s.regs new_val) <;> simp [hc, ha]
    · exact ha
  · rw [hmem]; split
    · next h => exact Or.inr ⟨h.2.2, by simp⟩
    · exact Or.inl rfl
  · intro h
    have hn : ¬ (vm.UseShenandoahMatrix = true ∧ s.regs new_val ≠ 0 ∧
        s.mem (matrixCell vm (s.regs store_addr) (s.regs new_val)) % 256 = 0) := by
      rintro ⟨_, h1, h2⟩
      rcases h with h | h
      · exact h1 h
      · exact h h2
    rw [hmem, hst, if_neg hn, if_neg hn]
    simp
  · intro t htm hts htn
    obtain ⟨hmem', hst'⟩ :=
      shenandoah_write_barrier_post_eq vm store_addr new_val tmp tmp2 t hregs
    have hn : ¬ (vm.UseShenandoahMatrix = true ∧ t.regs new_val ≠ 0 ∧
        t.mem (matrixCell vm (t.regs store_addr) (t.regs new_val)) % 256 = 0) := by
      rintro ⟨hm, h1, h2⟩
      rw [hts, htn, htm, hmem] at h2
      rw [htn] at h1
      split at h2
      · simp at h2
      · next hs => exact hs ⟨hm, h1, h2⟩
    rw [hmem', hst', if_neg hn, if_neg hn]
    simp

/-- Witness for C10: the store of the reference 32 (region 2) into the field at
100 (region 6) sets the clear cell at `2000 + 2 * 8 + 6`, and nothing else. -/
theorem shenandoah_write_barrier_post_monotone_idempotent_witness :
    matrixCell vmAll 100 32 = 2022 ∧
    (shenandoah_write_barrier_post vmAll rcx rdx r8 r9
      { mCas with regs := fun r => if r = rcx then 100 else if r = rdx then 32 else 0 }).mem 2022
      = 1 ∧
    (∀ a, a ≠ 2022 →
      (shenandoah_write_barrier_post vmAll rcx rdx r8 r9
        { mCas with regs := fun r => if r = rcx then 100 else if r = rdx then 32 else 0 }).mem a
        = heapFwd a) :=
  ⟨by decide, by decide,
    (shenandoah_write_barrier_post_monotone_idempotent vmAll rcx rdx r8 r9
      { mCas with regs := fun r => if r = rcx then 100 else if r = rdx then 32 else 0 }
      (by decide)).1⟩

theorem satb_active_zf (vm : VM) (thread : Register) (s : Machine) (hth : thread = r15_thread)
    (hact : (gcFlag vm vm.MARKING s || gcFlag vm vm.TRAVERSAL s) = true) :
    (testb_mi (Address.mk2 thread vm.gc_state_offset) (vm.MARKING ||| vm.TRAVERSAL) s).zf
      = false := by
  subst hth
  rw [testb_gc_state_zf, hact]; rfl

/-- The fast path of the SATB enqueue of the non-null value in `pre_val`: with
marking or traversal active and a non-zero index, the index is lowered by one
word and the value stored in the slot at the new index; no runtime call. -/
theorem satb_write_barrier_pre_fast (vm : VM) (rt : Runtime) (pre_val tmp : Register)
    (tosca_live expand_call : Bool) (s : Machine)
    (hact : (gcFlag vm vm.MARKING s || gcFlag vm vm.TRAVERSAL s) = true)
    (hv : s.regs pre_val ≠ 0) (hi : s.mem (satbIndexAddr vm s) ≠ 0)
    (htp : tmp ≠ pre_val) (htt : tmp ≠ r15_thread)
    (hab : satbBufferAddr vm s ≠ satbIndexAddr vm s) :
    (satb_write_barrier_pre vm rt noreg pre_val r15_thread tmp tosca_live expand_call s).mem =
      (fun a =>
        if a = ((s.mem (satbIndexAddr vm s) + (W - vm.wordSize % W)) % W +
            s.mem (satbBufferAddr vm s)) % W then s.regs pre_val
        else if a = satbIndexAddr vm s then
          (s.mem (satbIndexAddr vm s) + (W - vm.wordSize % W)) % W
        else s.mem a) ∧
    (satb_write_barrier_pre vm rt noreg pre_val r15_thread tmp tosca_live expand_call s).pool =
      s.pool ∧
    (satb_write_barrier_pre vm rt noreg pre_val r15_thread tmp tosca_live expand_call
      s).regs r15_thread = s.regs r15_thread ∧
    upcalls (satb_write_barrier_pre vm rt noreg pre_val r15_thread tmp tosca_live expand_call
      s).trace = upcalls s.trace ∧
    stores (satb_write_barrier_pre vm rt noreg pre_val r15_thread tmp tosca_live expand_call
      s).trace = stores s.trace ++
        [(satbIndexAddr vm s, (s.mem (satbIndexAddr vm s) + (W - vm.wordSize % W)) % W),
         (((s.mem (satbIndexAddr vm s) + (W - vm.wordSize % W)) % W +
            s.mem (satbBufferAddr vm s)) % W, s.regs pre_val)] := by
  have hz := satb_active_zf vm r15_thread s rfl hact
  simp only [satb_write_barrier_pre, hz, Bool.false_eq_true, if_false, ne_eq, not_true_eq_false]
  have hr : (r15_thread : Register) ≠ tmp := Ne.symm htt
  have hea : ∀ off, ea (Address.mk2 r15_thread off) s = (s.regs r15_thread + off) % W := by
    intro off; simp [ea, Address.mk2]
  simp only [satbIndexAddr, satbBufferAddr, hea] at hi hab ⊢
  have hz2 : (cmpptr_ri pre_val 0 (testb_mi (Address.mk2 r15_thread vm.gc_state_offset)
      (vm.MARKING ||| vm.TRAVERSAL) s)).zf = false := by
    simp [cmpptr_ri, testb_mi, readMem, hv]
  have hz3 : (cmpptr_ri tmp 0 (movptr_rm tmp
      (Address.mk2 r15_thread vm.satb_mark_queue_index_offset)
      (cmpptr_ri pre_val 0 (testb_mi (Address.mk2 r15_thread vm.gc_state_offset)
      (vm.MARKING ||| vm.TRAVERSAL) s)))).zf = false := by
    simp [cmpptr_ri, testb_mi, readMem, movptr_rm, setReg, ea, Address.mk2, hi]
  simp only [hz2, hz3, Bool.false_eq_true, if_false]
  refine ⟨?_, ?_, ?_, ?_, ?_⟩
  · funext a
    simp [satb_enqueue_fast, subptr_ri, movptr_mr, addptr_rm, readMem, writeMem, setReg,
      cmpptr_ri, testb_mi, movptr_rm, ea, Address.mk2, hr, hab, Ne.symm htp]
  · simp [satb_enqueue_fast, subptr_ri, movptr_mr, addptr_rm, readMem, writeMem, setReg,
      cmpptr_ri, testb_mi, movptr_rm]
  · simp [satb_enqueue_fast, subptr_ri, movptr_mr, addptr_rm, readMem, writeMem, setReg,
      cmpptr_ri, testb_mi, movptr_rm, hr]
  · simp [satb_enqueue_fast, subptr_ri, movptr_mr, addptr_rm, readMem, writeMem, setReg,
      cmpptr_ri, testb_mi, movptr_rm, upcalls_append, upcalls]
  · simp [satb_enqueue_fast, subptr_ri, movptr_mr, addptr_rm, readMem, writeMem, setReg,
      cmpptr_ri, testb_mi, movptr_rm, stores_append, stores, ea, Address.mk2, hr, hab,
      Ne.symm htp]
theorem ite_stack (c : Prop) [Decidable c] (a b : Machine) :
    (if c then a else b).stack = if c then a.stack else b.stack := by split <;> rfl

/-- The call sequence at label `runtime` of `satb_write_barrier_pre`, value in
register: one call `g1_wb_pre(value, thread)`; the thread register survives. -/
theorem satb_enqueue_slow_spec (vm : VM) (rt : Runtime) (pre_val : Register)
    (tosca_live expand_call : Bool) (s : Machine)
    (hpt : pre_val ≠ r15_thread) (hp1 : pre_val ≠ vm.c_rarg1) (h01 : vm.c_rarg0 ≠ vm.c_rarg1)
    (h0t : vm.c_rarg0 ≠ r15_thread) :
    (satb_enqueue_slow vm rt noreg pre_val r15_thread tosca_live expand_call s).mem =
      (rt Entry.g1_wb_pre [s.regs pre_val, s.regs r15_thread] s.mem s.pool).mem ∧
    (satb_enqueue_slow vm rt noreg pre_val r15_thread tosca_live expand_call s).pool =
      (rt Entry.g1_wb_pre [s.regs pre_val, s.regs r15_thread] s.mem s.pool).pool ∧
    (satb_enqueue_slow vm rt noreg pre_val r15_thread tosca_live expand_call s).regs r15_thread =
      s.regs r15_thread ∧
    (satb_enqueue_slow vm rt noreg pre_val r15_thread tosca_live expand_call s).trace =
      s.trace ++ [Event.call Entry.g1_wb_pre [s.regs pre_val, s.regs r15_thread]] := by
  have hcs : calleeSaved r15_thread = true := rfl
  have hrax : (r15_thread : Register) ≠ rax := by decide
  have hcall : ∀ Y : Machine,
      ((if expand_call = true then
          call_VM_leaf_base vm rt Entry.g1_wb_pre 2
            (if vm.c_rarg0 ≠ pre_val then movptr_rr vm.c_rarg0 pre_val
              (if vm.c_rarg1 ≠ r15_thread then movptr_rr vm.c_rarg1 r15_thread Y else Y)
            else (if vm.c_rarg1 ≠ r15_thread then movptr_rr vm.c_rarg1 r15_thread Y else Y))
        else call_VM_leaf2 vm rt Entry.g1_wb_pre pre_val r15_thread Y) =
        call_VM_leaf_base vm rt Entry.g1_wb_pre 2
            (if vm.c_rarg0 ≠ pre_val then movptr_rr vm.c_rarg0 pre_val
              (if vm.c_rarg1 ≠ r15_thread then movptr_rr vm.c_rarg1 r15_thread Y else Y)
            else (if vm.c_rarg1 ≠ r15_thread then movptr_rr vm.c_rarg1 r15_thread Y else Y))) := by
    intro Y; cases expand_call <;> simp [call_VM_leaf2]
  have hargs : ∀ Y : Machine,
      let Z := (if vm.c_rarg0 ≠ pre_val then movptr_rr vm.c_rarg0 pre_val
              (if vm.c_rarg1 ≠ r15_thread then movptr_rr vm.c_rarg1 r15_thread Y else Y)
            else (if vm.c_rarg1 ≠ r15_thread then movptr_rr vm.c_rarg1 r15_thread Y else Y))
      Z.regs vm.c_rarg0 = Y.regs pre_val ∧ Z.regs vm.c_rarg1 = Y.regs r15_thread ∧
      Z.regs r15_thread = Y.regs r15_thread ∧ Z.mem = Y.mem ∧ Z.pool = Y.pool ∧
      Z.trace = Y.trace ∧ Z.stack = Y.stack := by
    intro Y
    by_cases ha : vm.c_rarg0 = pre_val <;> by_cases hb : vm.c_rarg1 = r15_thread <;>
      simp [ha, hb, movptr_rr, setReg, hp1, Ne.symm hp1, h01, Ne.symm h01, h0t, Ne.symm h0t,
        hpt, Ne.symm hpt]
  simp only [satb_enqueue_slow, ne_eq, not_true_eq_false, false_and, if_false, hcall]
  have hP : ∀ Y : Machine, Y.regs = s.regs → Y.mem = s.mem → Y.pool = s.pool →
      Y.trace = s.trace →
      let C := call_VM_leaf_base vm rt Entry.g1_wb_pre 2
            (if vm.c_rarg0 ≠ pre_val then movptr_rr vm.c_rarg0 pre_val
              (if vm.c_rarg1 ≠ r15_thread then movptr_rr vm.c_rarg1 r15_thread Y else Y)
            else (if vm.c_rarg1 ≠ r15_thread then movptr_rr vm.c_rarg1 r15_thread Y else Y))
      C.mem = (rt Entry.g1_wb_pre [s.regs pre_val, s.regs r15_thread] s.mem s.pool).mem ∧
      C.pool = (rt Entry.g1_wb_pre [s.regs pre_val, s.regs r15_thread] s.mem s.pool).pool ∧
      C.regs r15_thread = s.regs r15_thread ∧
      C.trace = s.trace ++ [Event.call Entry.g1_wb_pre [s.regs pre_val, s.regs r15_thread]] := by
    intro Y h1 h2 h3 h4
    obtain ⟨a1, a2, a3, a4, a5, a6, _⟩ := hargs Y
    simp only [ne_eq] at a1 a2 a3 a4 a5 a6
    simp only [call_VM_leaf_base, List.take, List.map, ne_eq, a1, a2, a3, a4, a5, a6, h1, h2, h3,
      h4, hcs, hrax, if_false, if_true, and_self]
  have hY := hP (if pre_val ≠ rax then push pre_val (if tosca_live = true then push rax s else s)
      else (if tosca_live = true then push rax s else s))
    (by split <;> [skip; skip] <;> cases tosca_live <;> rfl)
    (by split <;> [skip; skip] <;> cases tosca_live <;> rfl)
    (by split <;> [skip; skip] <;> cases tosca_live <;> rfl)
    (by split <;> [skip; skip] <;> cases tosca_live <;> rfl)
  simp only [ne_eq] at hY
  obtain ⟨y1, y2, y3, y4⟩ := hY
  refine ⟨?_, ?_, ?_, ?_⟩
  · rw [ite_mem, pop_mem, ite_self, ite_mem, pop_mem, ite_self]; exact y1
  · rw [ite_pool, pop_pool, ite_self, ite_pool, pop_pool, ite_self]; exact y2
  · rw [ite_regs, pop_regs_ne _ _ _ hrax, ite_self, ite_regs,
      pop_regs_ne _ _ _ (Ne.symm hpt), ite_self]; exact y3
  · rw [ite_trace, pop_trace, ite_self, ite_trace, pop_trace, ite_self]; exact y4

/-- The slow path of the SATB enqueue of the non-null value in `pre_val`: with
marking or traversal active and the index at zero, the runtime is called once,
`g1_wb_pre(value, thread)`, and memory and pool are as the runtime leaves
them. -/
theorem satb_write_barrier_pre_slow (vm : VM) (rt : Runtime) (pre_val tmp : Register)
    (tosca_live expand_call : Bool) (s : Machine)
    (hact : (gcFlag vm vm.MARKING s || gcFlag vm vm.TRAVERSAL s) = true)
    (hv : s.regs pre_val ≠ 0) (hi : s.mem (satbIndexAddr vm s) = 0)
    (htp : tmp ≠ pre_val) (htt : tmp ≠ r15_thread) (hpt : pre_val ≠ r15_thread)
    (hp1 : pre_val ≠ vm.c_rarg1) (h01 : vm.c_rarg0 ≠ vm.c_rarg1)
    (h0t : vm.c_rarg0 ≠ r15_thread) :
    (satb_write_barrier_pre vm rt noreg pre_val r15_thread tmp tosca_live expand_call s).mem =
      (rt Entry.g1_wb_pre [s.regs pre_val, s.regs r15_thread] s.mem s.pool).mem ∧
    (satb_write_barrier_pre vm rt noreg pre_val r15_thread tmp tosca_live expand_call s).pool =
      (rt Entry.g1_wb_pre [s.regs pre_val, s.regs r15_thread] s.mem s.pool).pool ∧
    (satb_write_barrier_pre vm rt noreg pre_val r15_thread tmp tosca_live expand_call
      s).regs r15_thread = s.regs r15_thread ∧
    upcalls (satb_write_barrier_pre vm rt noreg pre_val r15_thread tmp tosca_live expand_call
      s).trace = upcalls s.trace ++ [(Entry.g1_wb_pre, [s.regs pre_val, s.regs r15_thread])] ∧
    stores (satb_write_barrier_pre vm rt noreg pre_val r15_thread tmp tosca_live expand_call
      s).trace = stores s.trace := by
  have hz := satb_active_zf vm r15_thread s rfl hact
  simp only [satb_write_barrier_pre, hz, Bool.false_eq_true, if_false, ne_eq, not_true_eq_false]
  have hr : (r15_thread : Register) ≠ tmp := Ne.symm htt
  have hea : ∀ off, ea (Address.mk2 r15_thread off) s = (s.regs r15_thread + off) % W := by
    intro off; simp [ea, Address.mk2]
  simp only [satbIndexAddr, hea] at hi
  have hz2 : (cmpptr_ri pre_val 0 (testb_mi (Address.mk2 r15_thread vm.gc_state_offset)
      (vm.MARKING ||| vm.TRAVERSAL) s)).zf = false := by
    simp [cmpptr_ri, testb_mi, readMem, hv]
  have hz3 : (cmpptr_ri tmp 0 (movptr_rm tmp
      (Address.mk2 r15_thread vm.satb_mark_queue_index_offset)
      (cmpptr_ri pre_val 0 (testb_mi (Address.mk2 r15_thread vm.gc_state_offset)
      (vm.MARKING ||| vm.TRAVERSAL) s)))).zf = true := by
    simp [cmpptr_ri, testb_mi, readMem, movptr_rm, setReg, ea, Address.mk2, hi]
  simp only [hz2, hz3, Bool.false_eq_true, if_false, if_true]
  -- the state that enters the slow path agrees with `s` except in `tmp`, flags and trace
  generalize hX : cmpptr_ri tmp 0 (movptr_rm tmp
      (Address.mk2 r15_thread vm.satb_mark_queue_index_offset)
      (cmpptr_ri pre_val 0 (testb_mi (Address.mk2 r15_thread vm.gc_state_offset)
      (vm.MARKING ||| vm.TRAVERSAL) s))) = X
  have hXp : X.regs pre_val = s.regs pre_val := by
    rw [← hX]; simp [cmpptr_ri, testb_mi, readMem, movptr_rm, setReg, Ne.symm htp]
  have hXt : X.regs r15_thread = s.regs r15_thread := by
    rw [← hX]; simp [cmpptr_ri, testb_mi, readMem, movptr_rm, setReg, hr]
  have hXm : X.mem = s.mem := by rw [← hX]; rfl
  have hXq : X.pool = s.pool := by rw [← hX]; rfl
  have hXu : upcalls X.trace = upcalls s.trace := by
    rw [← hX]; simp [cmpptr_ri, testb_mi, readMem, movptr_rm, setReg, upcalls_append, upcalls]
  have hXs : stores X.trace = stores s.trace := by
    rw [← hX]; simp [cmpptr_ri, testb_mi, readMem, movptr_rm, setReg, stores_append, stores]
  clear hX hz2 hz3
  obtain ⟨e1, e2, e3, e4⟩ := satb_enqueue_slow_spec vm rt pre_val tosca_live expand_call X
    hpt hp1 h01 h0t
  rw [e1, e2, e3, e4, hXp, hXt, hXm, hXq, upcalls_append, stores_append, hXu, hXs]
  simp [upcalls, stores]

theorem slotsFrom_congr (mem mem' : Nat → Nat) (base ws i n : Nat)
    (h : ∀ j, i ≤ j → j < n → mem' (base + j * ws) = mem (base + j * ws)) :
    slotsFrom mem' base ws i n = slotsFrom mem base ws i n := by
  unfold slotsFrom
  apply List.map_congr_left
  intro k hk
  rw [List.mem_range] at hk
  exact h (n - 1 - k) (by omega) (by omega)

theorem slotsFrom_pred (mem : Nat → Nat) (base ws i n : Nat) (hi : 0 < i) (hin : i ≤ n) :
    slotsFrom mem base ws (i - 1) n =
      slotsFrom mem base ws i n ++ [mem (base + (i - 1) * ws)] := by
  unfold slotsFrom
  have h1 : n - (i - 1) = (n - i) + 1 := by omega
  rw [h1, List.range_succ, List.map_append]
  have h2 : n - 1 - (n - i) = i - 1 := by omega
  simp [h2]

theorem slotsFrom_full (mem : Nat → Nat) (base ws n : Nat) :
    slotsFrom mem base ws n n = [] := by
  simp [slotsFrom]
theorem thread_addr_eq (vm : VM) (s t : Machine) (h : t.regs r15_thread = s.regs r15_thread) :
    gcStateAddr vm t = gcStateAddr vm s ∧ satbIndexAddr vm t = satbIndexAddr vm s ∧
    satbBufferAddr vm t = satbBufferAddr vm s := by
  simp [gcStateAddr, satbIndexAddr, satbBufferAddr, ea, Address.mk2, h]

theorem gcFlag_congr (vm : VM) (flag : Nat) (s t : Machine)
    (h : t.regs r15_thread = s.regs r15_thread)
    (hm : t.mem (gcStateAddr vm s) = s.mem (gcStateAddr vm s)) :
    gcFlag vm flag t = gcFlag vm flag s := by
  have := (thread_addr_eq vm s t h).1
  simp only [gcStateAddr] at this hm
  simp [gcFlag, gc_state, this, hm]

theorem rtSATB_full (vm : VM) (n : Nat) (alloc : Nat → Nat) (v t : Nat) (mem : Nat → Nat)
    (pool : List (List Nat)) (h0 : mem ((t + vm.satb_mark_queue_index_offset) % W) = 0) :
    (rtSATB vm n alloc Entry.g1_wb_pre [v, t] mem pool).mem =
      (fun a =>
        if a = (alloc (pool.length + 1) + (n * vm.wordSize - vm.wordSize)) % W then v
        else if a = (t + vm.satb_mark_queue_index_offset) % W then
          n * vm.wordSize - vm.wordSize
        else if a = (t + vm.satb_mark_queue_buffer_offset) % W then alloc (pool.length + 1)
        else mem a) ∧
    (rtSATB vm n alloc Entry.g1_wb_pre [v, t] mem pool).pool =
      pool ++ [slotsFrom mem (mem ((t + vm.satb_mark_queue_buffer_offset) % W)) vm.wordSize
        0 n] := by
  simp [rtSATB, h0]

/-- One enqueue keeps the invariant of the SATB queue: on the fast path one
more slot is taken, on the slow path one more buffer is in the pool and the
fresh buffer holds the value. -/
theorem satb_enqueue_step (vm : VM) (n : Nat) (alloc : Nat → Nat) (pre_val tmp : Register)
    (tosca_live expand_call : Bool) (s0 s : Machine) (ds : List Nat) (c i v : Nat)
    (hlay : SatbLayout vm n alloc s0)
    (hact : gcFlag vm vm.MARKING s0 = true)
    (htp : tmp ≠ pre_val) (htt : tmp ≠ r15_thread) (hpt : pre_val ≠ r15_thread)
    (hp1 : pre_val ≠ vm.c_rarg1) (h01 : vm.c_rarg0 ≠ vm.c_rarg1)
    (h0t : vm.c_rarg0 ≠ r15_thread)
    (hinv : SatbInv vm n alloc s0 s ds c i) (hv : v ≠ 0) :
    ∃ c' i', SatbInv vm n alloc s0
      (satb_write_barrier_pre vm (rtSATB vm n alloc) noreg pre_val r15_thread tmp tosca_live
        expand_call (setReg pre_val v s)) (ds ++ [v]) c' i' := by
  obtain ⟨hth, hgc, hidx, hile, hilt, ⟨k, hbuf⟩, ⟨sub, hpool, hsubl, hheld⟩,
    ⟨l, hcalls, hll, hlg⟩, hcount⟩ := hinv
  -- the state with the value in `pre_val`
  generalize hs1 : setReg pre_val v s = s1
  have h1t : s1.regs r15_thread = s0.regs r15_thread := by
    rw [← hs1]; simp [setReg, Ne.symm hpt, hth]
  have h1v : s1.regs pre_val = v := by rw [← hs1]; simp [setReg]
  have h1m : s1.mem = s.mem := by rw [← hs1]; rfl
  have h1p : s1.pool = s.pool := by rw [← hs1]; rfl
  have h1tr : s1.trace = s.trace := by rw [← hs1]; rfl
  obtain ⟨ag, ai, ab⟩ := thread_addr_eq vm s0 s1 h1t
  have hact1 : (gcFlag vm vm.MARKING s1 || gcFlag vm vm.TRAVERSAL s1) = true := by
    rw [gcFlag_congr vm _ s0 s1 h1t (by rw [h1m, hgc]), hact]; rfl
  have hws := hlay.word_pos
  have hfit := hlay.fits
  have hIA : satbIndexAddr vm s0 = (s0.regs r15_thread + vm.satb_mark_queue_index_offset) % W := by
    simp [satbIndexAddr, ea, Address.mk2]
  have hBA : satbBufferAddr vm s0 =
      (s0.regs r15_thread + vm.satb_mark_queue_buffer_offset) % W := by
    simp [satbBufferAddr, ea, Address.mk2]
  have hheldS : heldEntries vm n s =
      slotsFrom s.mem (alloc k) vm.wordSize i n := by
    obtain ⟨_, bi, bb⟩ := thread_addr_eq vm s0 s hth
    simp only [heldEntries, bi, bb, hidx, hbuf, Nat.mul_div_cancel _ hws]
  by_cases hi0 : i = 0
  · -- slow path
    subst hi0
    obtain ⟨e1, e2, e3, e4, _⟩ := satb_write_barrier_pre_slow vm (rtSATB vm n alloc) pre_val tmp
      tosca_live expand_call s1 hact1 (by rw [h1v]; exact hv)
      (by rw [ai, h1m, hidx]; simp) htp htt hpt hp1 h01 h0t
    generalize satb_write_barrier_pre vm (rtSATB vm n alloc) noreg pre_val r15_thread tmp
      tosca_live expand_call s1 = s2 at e1 e2 e3 e4 ⊢
    obtain ⟨f1, f2⟩ := rtSATB_full vm n alloc v (s0.regs r15_thread) s.mem s.pool
      (by rw [← hIA, hidx]; simp)
    simp only [h1v, h1t, h1m, h1p, h1tr] at e1 e2 e3 e4
    rw [f1] at e1
    rw [f2] at e2
    rw [← hIA, ← hBA] at e1
    rw [← hBA, hbuf] at e2
    clear f1 f2
    have hcap := hlay.cap_pos
    have hN : n * vm.wordSize - vm.wordSize = (n - 1) * vm.wordSize := by
      rw [Nat.sub_mul, Nat.one_mul]
    have hslot : (alloc (s.pool.length + 1) + (n * vm.wordSize - vm.wordSize)) % W =
        alloc (s.pool.length + 1) + (n - 1) * vm.wordSize := by
      rw [hN]
      apply Nat.mod_eq_of_lt
      have := hfit (s.pool.length + 1)
      have h2 : (n - 1) * vm.wordSize ≤ n * vm.wordSize :=
        Nat.mul_le_mul_right _ (Nat.sub_le _ _)
      omega
    rw [hslot, hN] at e1
    obtain ⟨p1, p2, p3⟩ := hlay.apart (s.pool.length + 1) (n - 1) (by omega)
    obtain ⟨_, bi, bb⟩ := thread_addr_eq vm s0 s2 e3
    refine ⟨c + 1, n - 1, ⟨e3, ?_, ?_, by omega, fun _ => by omega, ?_, ?_, ?_, ?_⟩⟩
    · rw [e1]
      simp only [Ne.symm p1, hlay.gc_ne_index, hlay.gc_ne_buffer, if_false]
      exact hgc
    · rw [e1]
      simp only [Ne.symm p2, if_false, if_true]
    · refine ⟨s.pool.length + 1, ?_⟩
      rw [e1]
      simp only [Ne.symm p3, hlay.buffer_ne_index, if_false, if_true]
    · refine ⟨sub ++ [slotsFrom s.mem (alloc k) vm.wordSize 0 n], ?_, by simp [hsubl], ?_⟩
      · rw [e2, hpool, List.append_assoc]
      · have hh : heldEntries vm n s2 = [v] := by
          simp only [heldEntries, bi, bb, e1, Ne.symm p2, Ne.symm p3, hlay.buffer_ne_index,
            if_false, if_true, Nat.mul_div_cancel _ hws]
          have h1 : n - (n - 1) = 1 := by omega
          simp [slotsFrom, h1, List.range_succ]
        rw [hh, List.flatten_append, List.append_assoc, ← hheld, hheldS]
        simp
    · refine ⟨l ++ [(Entry.g1_wb_pre, [v, s0.regs r15_thread])], ?_, by simp [hll], ?_⟩
      · rw [e4, hcalls, List.append_assoc]
      · intro x hx
        rcases List.mem_append.mp hx with h | h
        · exact hlg x h
        · simp at h; rw [h]
    · simp only [List.length_append, List.length_singleton]
      have : (c + 1) * n = c * n + n := by ring
      omega
  · -- fast path
    have hipos : 0 < i := Nat.pos_of_ne_zero hi0
    have hiw : vm.wordSize ≤ i * vm.wordSize := Nat.le_mul_of_pos_left _ hipos
    have hin : i * vm.wordSize ≤ n * vm.wordSize := Nat.mul_le_mul_right _ hile
    have hpred : (i - 1) * vm.wordSize = i * vm.wordSize - vm.wordSize := by
      rw [Nat.sub_mul, Nat.one_mul]
    have hfk := hfit k
    have hwW : vm.wordSize % W = vm.wordSize := Nat.mod_eq_of_lt (by omega)
    have hidx' : (i * vm.wordSize + (W - vm.wordSize % W)) % W = (i - 1) * vm.wordSize := by
      rw [hwW, hpred]
      have : i * vm.wordSize + (W - vm.wordSize) = (i * vm.wordSize - vm.wordSize) + W := by
        omega
      rw [this, Nat.add_mod_right]
      exact Nat.mod_eq_of_lt (by omega)
    have hslot : ((i - 1) * vm.wordSize + alloc k) % W = alloc k + (i - 1) * vm.wordSize := by
      rw [Nat.add_comm]
      exact Nat.mod_eq_of_lt (by omega)
    obtain ⟨e1, e2, e3, e4, _⟩ := satb_write_barrier_pre_fast vm (rtSATB vm n alloc) pre_val tmp
      tosca_live expand_call s1 hact1 (by rw [h1v]; exact hv)
      (by rw [ai, h1m, hidx]; exact Nat.ne_of_gt (by omega)) htp htt
      (by rw [ai, ab]; exact hlay.buffer_ne_index)
    generalize satb_write_barrier_pre vm (rtSATB vm n alloc) noreg pre_val r15_thread tmp
      tosca_live expand_call s1 = s2 at e1 e2 e3 e4 ⊢
    simp only [h1v, h1t, h1m, h1p, h1tr, ai, ab, hidx, hbuf, hidx', hslot] at e1 e2 e3 e4
    obtain ⟨p1, p2, p3⟩ := hlay.apart k (i - 1) (by omega)
    obtain ⟨_, bi, bb⟩ := thread_addr_eq vm s0 s2 e3
    refine ⟨c, i - 1, ⟨e3, ?_, ?_, by omega, fun _ => by omega, ?_, ?_, ?_, ?_⟩⟩
    · rw [e1]
      simp only [Ne.symm p1, hlay.gc_ne_index, if_false]
      exact hgc
    · rw [e1]
      simp only [Ne.symm p2, if_false, if_true]
    · refine ⟨k, ?_⟩
      rw [e1]
      simp only [Ne.symm p3, hlay.buffer_ne_index, if_false]
      exact hbuf
    · refine ⟨sub, by rw [e2, hpool], hsubl, ?_⟩
      have hh : heldEntries vm n s2 = slotsFrom s.mem (alloc k) vm.wordSize i n ++ [v] := by
        have hb2 : s2.mem (satbBufferAddr vm s0) = alloc k := by
          rw [e1]
          simp only [Ne.symm p3, hlay.buffer_ne_index, if_false]
          exact hbuf
        have hi2 : s2.mem (satbIndexAddr vm s0) = (i - 1) * vm.wordSize := by
          rw [e1]
          simp only [Ne.symm p2, if_false, if_true]
        simp only [heldEntries, bi, bb, hb2, hi2, Nat.mul_div_cancel _ hws]
        rw [slotsFrom_pred _ _ _ _ _ hipos hile]
        congr 1
        · apply slotsFrom_congr
          intro j hj1 hj2
          obtain ⟨_, q2, _⟩ := hlay.apart k j hj2
          have hne : alloc k + j * vm.wordSize ≠ alloc k + (i - 1) * vm.wordSize := by
            intro h
            have h' : j * vm.wordSize = (i - 1) * vm.wordSize := by omega
            have := Nat.eq_of_mul_eq_mul_right hws h'
            omega
          rw [e1]
          simp only [hne, q2, if_false]
        · rw [e1]
          simp
      rw [hh, ← List.append_assoc, ← hheldS, hheld]
    · exact ⟨l, by rw [e4, hcalls], hll, hlg⟩
    · simp only [List.length_append, List.length_singleton]
      omega

theorem satb_enqueue_all_inv (vm : VM) (n : Nat) (alloc : Nat → Nat) (pre_val tmp : Register)
    (tosca_live expand_call : Bool) (s0 : Machine)
    (hlay : SatbLayout vm n alloc s0)
    (hact : gcFlag vm vm.MARKING s0 = true)
    (htp : tmp ≠ pre_val) (htt : tmp ≠ r15_thread) (hpt : pre_val ≠ r15_thread)
    (hp1 : pre_val ≠ vm.c_rarg1) (h01 : vm.c_rarg0 ≠ vm.c_rarg1)
    (h0t : vm.c_rarg0 ≠ r15_thread) (vs : List Nat) :
    ∀ (s : Machine) (ds : List Nat) (c i : Nat), SatbInv vm n alloc s0 s ds c i →
      (∀ v ∈ vs, v ≠ 0) →
      ∃ c' i', SatbInv vm n alloc s0
        (satb_enqueue_all vm (rtSATB vm n alloc) pre_val tmp tosca_live expand_call vs s)
        (ds ++ vs) c' i' := by
  induction vs with
  | nil =>
    intro s ds c i hinv _
    exact ⟨c, i, by simpa [satb_enqueue_all] using hinv⟩
  | cons v vs ih =>
    intro s ds c i hinv hvs
    obtain ⟨c1, i1, h1⟩ := satb_enqueue_step vm n alloc pre_val tmp tosca_live expand_call
      s0 s ds c i v hlay hact htp htt hpt hp1 h01 h0t hinv (hvs v (List.mem_cons_self _ _))
    obtain ⟨c2, i2, h2⟩ := ih _ (ds ++ [v]) c1 i1 h1
      (fun w hw => hvs w (List.mem_cons_of_mem _ hw))
    refine ⟨c2, i2, ?_⟩
    simpa [satb_enqueue_all] using h2

/-- C8: from an empty thread buffer of `n >= 1` slots, with Marking active and
the slow-path upcall modelled by `rtSATB` (submit the full buffer, install a
fresh one of `n` slots, record the value), the enqueues of the non-null
references `vs`, `m = |vs| >= 1`, make exactly `(m - 1) / n` runtime calls, all
of them `g1_wb_pre`, submit as many buffers, and the submitted buffers followed
by the entries held in the thread buffer are exactly `vs`. -/
theorem satb_enqueue_all_flushes (vm : VM) (n : Nat) (alloc : Nat → Nat)
    (pre_val tmp : Register) (tosca_live expand_call : Bool) (s : Machine) (vs : List Nat)
    (hlay : SatbLayout vm n alloc s)
    (hact : gcFlag vm vm.MARKING s = true)
    (hregs : tmp ≠ pre_val ∧ tmp ≠ r15_thread ∧ pre_val ≠ r15_thread ∧
      pre_val ≠ vm.c_rarg1 ∧ vm.c_rarg0 ≠ vm.c_rarg1 ∧ vm.c_rarg0 ≠ r15_thread)
    (hempty : s.mem (satbIndexAddr vm s) = n * vm.wordSize)
    (hbuf : ∃ k, s.mem (satbBufferAddr vm s) = alloc k)
    (hvs : ∀ v ∈ vs, v ≠ 0) (hne : vs ≠ []) :
    ∃ calls sub,
      upcalls (satb_enqueue_all vm (rtSATB vm n alloc) pre_val tmp tosca_live expand_call
        vs s).trace = upcalls s.trace ++ calls ∧
      calls.length = (vs.length - 1) / n ∧
      (∀ x ∈ calls, x.1 = Entry.g1_wb_pre) ∧
      (satb_enqueue_all vm (rtSATB vm n alloc) pre_val tmp tosca_live expand_call
        vs s).pool = s.pool ++ sub ∧
      sub.length = (vs.length - 1) / n ∧
      sub.flatten ++ heldEntries vm n
        (satb_enqueue_all vm (rtSATB vm n alloc) pre_val tmp tosca_live expand_call vs s)
        = vs := by
  obtain ⟨htp, htt, hpt, hp1, h01, h0t⟩ := hregs
  have hinit : SatbInv vm n alloc s s [] 0 n := by
    refine ⟨rfl, rfl, hempty, le_refl _, fun h => absurd rfl h, hbuf, ⟨[], by simp, rfl, ?_⟩,
      ⟨[], by simp, rfl, by simp⟩, by simp⟩
    simp [heldEntries, hempty, Nat.mul_div_cancel _ hlay.word_pos, slotsFrom_full]
  obtain ⟨c, i, hinv⟩ := satb_enqueue_all_inv vm n alloc pre_val tmp tosca_live expand_call s
    hlay hact htp htt hpt hp1 h01 h0t vs s [] 0 n hinit hvs
  rw [List.nil_append] at hinv
  obtain ⟨_, _, _, hile, hilt, _, ⟨sub, hpool, hsubl, hheld⟩, ⟨l, hcalls, hll, hlg⟩, hcount⟩ :=
    hinv
  have hi := hilt hne
  have hlen : 0 < vs.length := List.length_pos.mpr hne
  have hc : (vs.length - 1) / n = c := by
    apply Nat.div_eq_of_lt_le
    · omega
    · have : (c + 1) * n = c * n + n := by ring
      omega
  exact ⟨l, sub, hcalls, by rw [hll, hc], hlg, hpool, by rw [hsubl, hc], hheld⟩

/-- Witness for C8: a buffer of capacity 4 receiving 5 enqueues is flushed
exactly once, and the pool (one buffer) together with the thread buffer holds
the 5 enqueued references. -/
theorem satb_enqueue_all_flushes_witness :
    ∃ calls sub,
      upcalls (satb_enqueue_all vmAll (rtSATB vmAll 4 alloc4) rax r8 true false
        [16, 32, 48, 64, 80] mSatb).trace = calls ∧
      calls.length = 1 ∧
      (satb_enqueue_all vmAll (rtSATB vmAll 4 alloc4) rax r8 true false
        [16, 32, 48, 64, 80] mSatb).pool = sub ∧
      sub.length = 1 ∧
      sub.flatten ++ heldEntries vmAll 4
        (satb_enqueue_all vmAll (rtSATB vmAll 4 alloc4) rax r8 true false
          [16, 32, 48, 64, 80] mSatb) = [16, 32, 48, 64, 80] := by
  have hlay : SatbLayout vmAll 4 alloc4 mSatb := by
    refine ⟨by decide, by decide, by decide, by decide, by decide, ?_, ?_⟩
    · intro k
      have : k % 8 < 8 := Nat.mod_lt _ (by decide)
      simp only [alloc4, vmAll, W]
      omega
    · intro k j hj
      have h1 : gcStateAddr vmAll mSatb = 200 := by decide
      have h2 : satbIndexAddr vmAll mSatb = 216 := by decide
      have h3 : satbBufferAddr vmAll mSatb = 224 := by decide
      rw [h1, h2, h3]
      simp only [alloc4, vmAll]
      omega
  obtain ⟨calls, sub, h1, h2, _, h4, h5, h6⟩ :=
    satb_enqueue_all_flushes vmAll 4 alloc4 rax r8 true false mSatb [16, 32, 48, 64, 80]
      hlay (by decide) (by decide) (by decide) ⟨0, by decide⟩ (by decide) (by decide)
  exact ⟨calls, sub, by simpa [mSatb, upcalls] using h1, h2, by simpa [mSatb] using h4, h5, h6⟩

/-- Counterexample to C7 as stated: with the enqueue store-value barrier on, the
store of 48 over 32 while Marking is active leaves two entries in the
thread's SATB buffer (empty before): the old value 32 and the new value 48. -/
theorem store_at_logs_new_value :
    vmAll.ShenandoahSATBBarrier = true ∧
    gcFlag vmAll vmAll.MARKING mStore = true ∧
    mStore.mem 312 = 32 ∧
    heldEntries vmAll 2 mStore = [] ∧
    heldEntries vmAll 2
      (store_at vmAll rtIdle { IN_HEAP := true } BasicType.T_OBJECT ⟨rcx, noreg, 1, 8⟩
        rax rdx rbx mStore) = [32, 48] ∧
    (store_at vmAll rtIdle { IN_HEAP := true } BasicType.T_OBJECT ⟨rcx, noreg, 1, 8⟩
        rax rdx rbx mStore).mem 312 = 48 := by
  decide

/-- The fast path of the SATB enqueue of the value loaded from the field at
`obj`: with marking or traversal active, a non-null field and a non-zero index,
the index is lowered by one word and the loaded value stored in the slot at the
new index; no runtime call; registers other than `pre_val` and `tmp` keep
their content. -/
theorem satb_write_barrier_pre_fast_obj (vm : VM) (rt : Runtime) (obj pre_val tmp : Register)
    (tosca_live expand_call : Bool) (s : Machine)
    (hact : (gcFlag vm vm.MARKING s || gcFlag vm vm.TRAVERSAL s) = true)
    (ho : obj ≠ noreg)
    (hv : casOop vm (s.mem (ea (Address.mk2 obj 0) s)) ≠ 0)
    (hi : s.mem (satbIndexAddr vm s) ≠ 0)
    (htp : tmp ≠ pre_val) (htt : tmp ≠ r15_thread) (hpt : pre_val ≠ r15_thread)
    (hab : satbBufferAddr vm s ≠ satbIndexAddr vm s) :
    stores (satb_write_barrier_pre vm rt obj pre_val r15_thread tmp tosca_live expand_call
      s).trace = stores s.trace ++
        [(satbIndexAddr vm s, (s.mem (satbIndexAddr vm s) + (W - vm.wordSize % W)) % W),
         (((s.mem (satbIndexAddr vm s) + (W - vm.wordSize % W)) % W +
            s.mem (satbBufferAddr vm s)) % W, casOop vm (s.mem (ea (Address.mk2 obj 0) s)))] ∧
    upcalls (satb_write_barrier_pre vm rt obj pre_val r15_thread tmp tosca_live expand_call
      s).trace = upcalls s.trace ∧
    (∀ x, x ≠ pre_val → x ≠ tmp →
      (satb_write_barrier_pre vm rt obj pre_val r15_thread tmp tosca_live expand_call
        s).regs x = s.regs x) := by
  have hz := satb_active_zf vm r15_thread s rfl hact
  simp only [satb_write_barrier_pre, hz, Bool.false_eq_true, if_false, ne_eq, ho,
    not_false_eq_true, if_true]
  have hr : (r15_thread : Register) ≠ tmp := Ne.symm htt
  have hr2 : (r15_thread : Register) ≠ pre_val := Ne.symm hpt
  have hea : ∀ off, ea (Address.mk2 r15_thread off) s = (s.regs r15_thread + off) % W := by
    intro off; simp [ea, Address.mk2]
  have hea2 : ea (Address.mk2 obj 0) s = s.regs obj % W := by simp [ea, Address.mk2]
  simp only [satbIndexAddr, satbBufferAddr, hea, hea2] at hi hab hv ⊢
  -- the state after the load of the previous value
  generalize hL : load_heap_oop vm pre_val (Address.mk2 obj 0)
    (testb_mi (Address.mk2 r15_thread vm.gc_state_offset) (vm.MARKING ||| vm.TRAVERSAL) s) = L
  have hLv : L.regs pre_val = casOop vm (s.mem (s.regs obj % W)) := by
    rw [← hL]
    cases hc : vm.UseCompressedOops <;>
      simp [load_heap_oop, hc, decode_heap_oop, movl_rm, movptr_rm, readMem, setReg, testb_mi,
        casOop, ea, Address.mk2]
  have hLr : ∀ x, x ≠ pre_val → L.regs x = s.regs x := by
    intro x hx
    rw [← hL]
    cases hc : vm.UseCompressedOops <;>
      simp [load_heap_oop, hc, decode_heap_oop, movl_rm, movptr_rm, readMem, setReg, testb_mi,
        hx]
  have hLm : L.mem = s.mem := by
    rw [← hL]
    cases hc : vm.UseCompressedOops <;>
      simp [load_heap_oop, hc, decode_heap_oop, movl_rm, movptr_rm, readMem, setReg, testb_mi]
  have hLs : stores L.trace = stores s.trace := by
    rw [← hL]
    cases hc : vm.UseCompressedOops <;>
      simp [load_heap_oop, hc, decode_heap_oop, movl_rm, movptr_rm, readMem, setReg, testb_mi,
        stores_append, stores]
  have hLu : upcalls L.trace = upcalls s.trace := by
    rw [← hL]
    cases hc : vm.UseCompressedOops <;>
      simp [load_heap_oop, hc, decode_heap_oop, movl_rm, movptr_rm, readMem, setReg, testb_mi,
        upcalls_append, upcalls]
  clear hL
  have hLt : L.regs r15_thread = s.regs r15_thread := hLr _ hr2
  have hz2 : (cmpptr_ri pre_val 0 L).zf = false := by
    simp [cmpptr_ri, hLv, hv]
  have hz3 : (cmpptr_ri tmp 0 (movptr_rm tmp
      (Address.mk2 r15_thread vm.satb_mark_queue_index_offset)
      (cmpptr_ri pre_val 0 L))).zf = false := by
    simp [cmpptr_ri, readMem, movptr_rm, setReg, ea, Address.mk2, hLt, hLm, hi]
  simp only [hz2, hz3, Bool.false_eq_true, if_false]
  refine ⟨?_, ?_, ?_⟩
  · simp [satb_enqueue_fast, subptr_ri, movptr_mr, addptr_rm, readMem, writeMem, setReg,
      cmpptr_ri, movptr_rm, stores_append, stores, ea, Address.mk2, hr, hab,
      Ne.symm htp, hLt, hLm, hLs, hLv]
  · simp [satb_enqueue_fast, subptr_ri, movptr_mr, addptr_rm, readMem, writeMem, setReg,
      cmpptr_ri, movptr_rm, upcalls_append, upcalls, hLu]
  · intro x hx1 hx2
    simp [satb_enqueue_fast, subptr_ri, movptr_mr, addptr_rm, readMem, writeMem, setReg,
      cmpptr_ri, movptr_rm, hx2, hLr x hx1]

/-- After the flattening of `store_at`, `Address(tmp1, 0)` is the field. -/
theorem store_at_flatten_spec (dst : Address) (tmp1 : Register) (s : Machine) :
    ea (Address.mk2 tmp1 0) (store_at_flatten dst tmp1 s) = ea dst s ∧
    (store_at_flatten dst tmp1 s).mem = s.mem ∧
    (store_at_flatten dst tmp1 s).pool = s.pool ∧
    (store_at_flatten dst tmp1 s).trace = s.trace ∧
    (store_at_flatten dst tmp1 s).stack = s.stack ∧
    (∀ x, x ≠ tmp1 → (store_at_flatten dst tmp1 s).regs x = s.regs x) := by
  unfold store_at_flatten
  by_cases h1 : dst.index = noreg ∧ dst.disp = 0
  · by_cases h2 : dst.base = tmp1
    · simp [h1, h2, ea, Address.mk2]
    · simp only [h1, and_self, if_true, ne_eq, h2, not_false_eq_true]
      refine ⟨?_, rfl, rfl, rfl, rfl, ?_⟩
      · simp [ea, Address.mk2, movptr_rr, setReg, h1.1, h1.2]
      · intro x hx; simp [movptr_rr, setReg, hx]
  · simp only [h1, if_false]
    refine ⟨?_, rfl, rfl, rfl, rfl, ?_⟩
    · simp [ea, Address.mk2, lea, setReg]
    · intro x hx; simp [lea, setReg, hx]

/-- Without the enqueue mode the store-value barrier writes nothing, calls
nothing and changes no register but the value's. -/
theorem storeval_barrier_read_only (vm : VM) (rt : Runtime) (dst tmp : Register) (s : Machine)
    (hnoenq : vm.ShenandoahStoreValEnqueueBarrier = false) :
    stores (storeval_barrier vm rt dst tmp s).trace = stores s.trace ∧
    upcalls (storeval_barrier vm rt dst tmp s).trace = upcalls s.trace ∧
    (storeval_barrier vm rt dst tmp s).mem = s.mem ∧
    (∀ x, x ≠ dst → (storeval_barrier vm rt dst tmp s).regs x = s.regs x) := by
  cases hR : vm.ShenandoahStoreValReadBarrier
  · simp [storeval_barrier, hnoenq, hR]
  · by_cases hn : dst = noreg
    · simp [storeval_barrier, storeval_barrier_impl, hnoenq, hR, hn]
    · simp only [storeval_barrier, storeval_barrier_impl, hnoenq, hR, hn, if_false, if_true,
        Bool.or_false, Bool.false_eq_true]
      by_cases h0 : s.regs dst = 0
      · rw [read_barrier_impl_null vm dst s h0]
        simp
      · refine ⟨?_, ?_, ?_, ?_⟩ <;>
          simp [read_barrier_impl, read_barrier_not_null_impl, testptr, h0, movptr_rm, readMem,
            setReg, stores_append, stores, upcalls_append, upcalls]
        intro x hx; simp [hx]

/-- The raw reference store of the base assembler makes exactly one write, at
its operand's address. -/
theorem raw_store_oop (vm : VM) (decorators : DecoratorSet) (type : BasicType)
    (dst : Address) (val : Register) (s : Machine)
    (htype : type = BasicType.T_OBJECT ∨ type = BasicType.T_ARRAY)
    (hea : ea dst (encode_heap_oop vm val s) = ea dst s) :
    ∃ b, stores (BarrierSetAssembler.store_at vm decorators type dst val s).trace =
        stores s.trace ++ [(ea dst s, b)] ∧
      upcalls (BarrierSetAssembler.store_at vm decorators type dst val s).trace =
        upcalls s.trace ∧
      (BarrierSetAssembler.store_at vm decorators type dst val s).mem =
        fun a => if a = ea dst s then b else s.mem a := by
  have hw : ∀ (a v : Nat) (t : Machine), t.trace = s.trace → t.mem = s.mem →
      stores (writeMem a v t).trace = stores s.trace ++ [(a, v)] ∧
      upcalls (writeMem a v t).trace = upcalls s.trace ∧
      (writeMem a v t).mem = fun x => if x = a then v else s.mem x := by
    intro a v t h1 h2
    simp [writeMem, stores_append, stores, upcalls_append, upcalls, h1, h2]
  have key : ∃ a v t, t.trace = s.trace ∧ t.mem = s.mem ∧ a = ea dst s ∧
      BarrierSetAssembler.store_at vm decorators type dst val s = writeMem a v t := by
    rcases htype with h | h <;> subst h <;> simp only [BarrierSetAssembler.store_at] <;>
      split_ifs <;>
      first
      | exact ⟨_, _, s, rfl, rfl, rfl, rfl⟩
      | exact ⟨ea dst s, (encode_heap_oop vm val s).regs val % 2 ^ 32, encode_heap_oop vm val s,
          rfl, rfl, rfl, by rw [movl_mr, hea]⟩
  obtain ⟨a, v, t, h1, h2, h3, h4⟩ := key
  rw [h4, ← h3]
  exact ⟨v, hw a v t h1 h2⟩

/-- The connection-matrix record writes at most one byte, a 1, and calls
nothing. -/
theorem shenandoah_write_barrier_post_writes (vm : VM) (store_addr new_val tmp tmp2 : Register)
    (s : Machine) :
    ∃ m, stores (shenandoah_write_barrier_post vm store_addr new_val tmp tmp2 s).trace =
        stores s.trace ++ m ∧ (m = [] ∨ ∃ c, m = [(c, 1)]) ∧
      upcalls (shenandoah_write_barrier_post vm store_addr new_val tmp tmp2 s).trace =
        upcalls s.trace := by
  simp only [shenandoah_write_barrier_post]
  split_ifs
  · exact ⟨[], by simp, Or.inl rfl, rfl⟩
  · exact ⟨[], by simp [testptr], Or.inl rfl, by simp [testptr]⟩
  · refine ⟨[], ?_, Or.inl rfl, ?_⟩ <;>
      simp [cmpb_mi, readMem, movptr_ri, addptr_rr, imulptr, shrptr, subptr_rr, movptr_rr,
        testptr, setReg, stores_append, stores, upcalls_append, upcalls]
  · generalize hX : movptr_ri rscratch1 vm.matrix_addr _ = X
    have hXt : X.trace = s.trace := by rw [← hX]; rfl
    refine ⟨[(ea ⟨rscratch1, tmp, 1, 0⟩ (cmpb_mi ⟨rscratch1, tmp, 1, 0⟩ 0 X), 1)], ?_,
      Or.inr ⟨_, rfl⟩, ?_⟩ <;>
      simp [movb_mi, writeMem, cmpb_mi, readMem, stores_append, stores, upcalls_append, upcalls,
        hXt]

/-- C7 (amended): with SATB pre-write logging on and the enqueue store-value
barrier off, a `store_at` into a heap reference field that holds a non-null
`A`, while Marking is active and the thread's buffer has room, makes exactly
these writes after the write barrier on the base: the SATB index lowered by one
word, `A` in the buffer slot at the new index, the raw store to the field, and
at most one connection-matrix byte; it makes no runtime call.  The field, the
phase and the queue are those of the state `s1` that the write barrier on the
base leaves. -/
theorem store_at_satb_once (vm : VM) (rt : Runtime) (decorators : DecoratorSet)
    (type : BasicType) (dst : Address) (val tmp1 tmp2 : Register) (s s1 : Machine)
    (hsatb : vm.ShenandoahSATBBarrier = true)
    (hnoenq : vm.ShenandoahStoreValEnqueueBarrier = false)
    (hheap : decorators.IN_HEAP = true)
    (htype : type = BasicType.T_OBJECT ∨ type = BasicType.T_ARRAY)
    (hs1 : write_barrier vm rt dst.base s = s1)
    (hregs : tmp1 ≠ tmp2 ∧ tmp1 ≠ r8 ∧ tmp2 ≠ r8 ∧ tmp1 ≠ r15_thread ∧ tmp2 ≠ r15_thread ∧
      tmp1 ≠ noreg ∧ val ≠ tmp1)
    (hact : gcFlag vm vm.MARKING s1 = true)
    (hA : casOop vm (s1.mem (ea dst s1)) ≠ 0)
    (hi : s1.mem (satbIndexAddr vm s1) ≠ 0)
    (hab : satbBufferAddr vm s1 ≠ satbIndexAddr vm s1) :
    ∃ b m,
      stores (store_at vm rt decorators type dst val tmp1 tmp2 s).trace =
        stores s1.trace ++
          [(satbIndexAddr vm s1, (s1.mem (satbIndexAddr vm s1) + (W - vm.wordSize % W)) % W),
           (((s1.mem (satbIndexAddr vm s1) + (W - vm.wordSize % W)) % W +
              s1.mem (satbBufferAddr vm s1)) % W, casOop vm (s1.mem (ea dst s1))),
           (ea dst s1, b)] ++ m ∧
      (m = [] ∨ ∃ c, m = [(c, 1)]) ∧
      upcalls (store_at vm rt decorators type dst val tmp1 tmp2 s).trace = upcalls s1.trace := by
  obtain ⟨r1, r2, r3, r4, r5, r6, r7⟩ := hregs
  obtain ⟨f1, f2, f3, f4, _, f6⟩ := store_at_flatten_spec dst tmp1 s1
  have hft : (store_at_flatten dst tmp1 s1).regs r15_thread = s1.regs r15_thread :=
    f6 _ (Ne.symm r4)
  obtain ⟨ag, ai, ab⟩ := thread_addr_eq vm s1 _ hft
  have hactf : (gcFlag vm vm.MARKING (store_at_flatten dst tmp1 s1) ||
      gcFlag vm vm.TRAVERSAL (store_at_flatten dst tmp1 s1)) = true := by
    rw [gcFlag_congr vm _ s1 _ hft (by rw [f2]), hact]; rfl
  obtain ⟨p1, p2, p3⟩ := satb_write_barrier_pre_fast_obj vm rt tmp1 tmp2 r8
    (decide (val ≠ noreg)) false (store_at_flatten dst tmp1 s1) hactf r6
    (by rw [f1, f2]; exact hA) (by rw [ai, f2]; exact hi) (Ne.symm r3) (by decide) r5
    (by rw [ai, ab]; exact hab)
  rw [f1, f2, f4, ai, ab] at p1
  rw [f4] at p2
  simp only [store_at, hheap, htype, hs1, if_true, Bool.true_or, hsatb,
    shenandoah_write_barrier_pre]
  generalize satb_write_barrier_pre vm rt tmp1 tmp2 r15_thread r8 (decide (val ≠ noreg)) false
    (store_at_flatten dst tmp1 s1) = P at p1 p2 p3 ⊢
  have hPea : ∀ t : Machine, t.regs tmp1 = P.regs tmp1 →
      ea (Address.mk2 tmp1 0) t = ea dst s1 := by
    intro t ht
    rw [← f1]
    simp [ea, Address.mk2, ht, p3 tmp1 r1 r2]
  by_cases hv : val = noreg
  · simp only [hv, if_true]
    obtain ⟨b, q1, q2, _⟩ := raw_store_oop vm decorators type (Address.mk2 tmp1 0) noreg P htype
      (by simp [ea, Address.mk2, encode_heap_oop, setReg, r6])
    rw [hPea P rfl] at q1
    exact ⟨b, [], by rw [q1, p1]; simp, Or.inl rfl, by rw [q2, p2]⟩
  · simp only [hv, if_false]
    obtain ⟨v1, v2, _, v4⟩ := storeval_barrier_read_only vm rt val r8 P hnoenq
    generalize storeval_barrier vm rt val r8 P = V at v1 v2 v4 ⊢
    generalize hM : (if (decide (val ≠ noreg) && true && vm.UseShenandoahMatrix) = true ∧
        vm.UseCompressedOops = true then movptr_rr tmp2 val V else V) = M
    have hMt : M.trace = V.trace := by rw [← hM]; split <;> rfl
    have hMr : M.regs tmp1 = P.regs tmp1 := by
      rw [← hM, ← v4 tmp1 (Ne.symm r7)]
      split <;> simp [movptr_rr, setReg, r1]
    obtain ⟨b, q1, q2, _⟩ := raw_store_oop vm decorators type (Address.mk2 tmp1 0) val M htype
      (by simp [ea, Address.mk2, encode_heap_oop, setReg, Ne.symm r7])
    rw [hPea M hMr, hMt, v1, p1] at q1
    rw [hMt, v2, p2] at q2
    split
    · obtain ⟨m, w1, w2, w3⟩ := shenandoah_write_barrier_post_writes vm tmp1
        (if (decide (val ≠ noreg) && true && vm.UseShenandoahMatrix) = true ∧
          vm.UseCompressedOops = true then tmp2 else val) r8 tmp2
        (BarrierSetAssembler.store_at vm decorators type (Address.mk2 tmp1 0) val M)
      exact ⟨b, m, by rw [w1, q1]; simp, w2, by rw [w3, q2]⟩
    · exact ⟨b, [], by rw [q1]; simp, Or.inl rfl, q2⟩

/-- Witness for C7: in read store-value mode the store of 48 over 32 on `mStore`
writes the index (16 to 8), the old value 32 at slot 408, the field, and one
matrix byte; no runtime call. -/
theorem store_at_satb_once_witness :
    gcFlag vmRead vmRead.MARKING mStore = true ∧
    ∃ b m,
      stores (store_at vmRead rtIdle { IN_HEAP := true } BasicType.T_OBJECT
        ⟨rcx, noreg, 1, 8⟩ rax rdx rbx mStore).trace =
        [(216, 8), (408, 32), (312, b)] ++ m ∧
      (m = [] ∨ ∃ c, m = [(c, 1)]) ∧
      upcalls (store_at vmRead rtIdle { IN_HEAP := true } BasicType.T_OBJECT
        ⟨rcx, noreg, 1, 8⟩ rax rdx rbx mStore).trace = [] := by
  refine ⟨by decide, ?_⟩
  obtain ⟨b, m, h1, h2, h3⟩ := store_at_satb_once vmRead rtIdle { IN_HEAP := true }
    BasicType.T_OBJECT ⟨rcx, noreg, 1, 8⟩ rax rdx rbx mStore
    (write_barrier vmRead rtIdle rcx mStore) rfl rfl rfl (Or.inl rfl) rfl (by decide)
    (by decide) (by decide) (by decide) (by decide)
  refine ⟨b, m, ?_, h2, ?_⟩
  · rw [h1]
    have e1 : stores (write_barrier vmRead rtIdle rcx mStore).trace = [] := by decide
    have e2 : satbIndexAddr vmRead (write_barrier vmRead rtIdle rcx mStore) = 216 := by decide
    have e3 : (write_barrier vmRead rtIdle rcx mStore).mem 216 = 16 := by decide
    have e4 : satbBufferAddr vmRead (write_barrier vmRead rtIdle rcx mStore) = 224 := by decide
    have e5 : (write_barrier vmRead rtIdle rcx mStore).mem 224 = 400 := by decide
    have e6 : ea ⟨rcx, noreg, 1, 8⟩ (write_barrier vmRead rtIdle rcx mStore) = 312 := by decide
    have e7 : (write_barrier vmRead rtIdle rcx mStore).mem 312 = 32 := by decide
    rw [e1, e2, e3, e4, e5, e6, e7]
    have e8 : (16 + (W - vmRead.wordSize % W)) % W = 8 := by decide
    have e9 : casOop vmRead 32 = 32 := by decide
    rw [e8, e9]
    rfl
  · rw [h3]; decide

theorem savedAround_stack (c : Prop) [Decidable c] (r : Register) (f : Machine → Machine)
    (hf : ∀ t, (f t).stack = t.stack) (t : Machine) :
    (savedAround c r f t).stack = t.stack := by
  by_cases h : c <;> simp [savedAround, h, pop, push, setReg, hf]

theorem savedAround_regs (c : Prop) [Decidable c] (r : Register) (f : Machine → Machine)
    (hf : ∀ t, (f t).stack = t.stack) (x : Register) (hc : x = r → c)
    (hx : x = r ∨ ∀ t, (f t).regs x = t.regs x) (t : Machine) :
    (savedAround c r f t).regs x = t.regs x := by
  by_cases hr : x = r
  · have h := hc hr
    simp [savedAround, h, hr, pop, push, setReg, hf]
  · have hp := hx.resolve_left hr
    by_cases h : c <;> simp [savedAround, h, pop, push, setReg, hr, hp]

/-- The slow path of `write_barrier_impl` leaves the stack as it found it and
keeps every register that `survivesWriteBarrier` lists, `dst` apart. -/
theorem write_barrier_slow_frame (vm : VM) (rt : Runtime) (dst : Register) (s : Machine) :
    (write_barrier_slow vm rt dst s).stack = s.stack ∧
    (∀ x, x ≠ dst → x ≠ rscratch1 → survivesWriteBarrier vm x = true →
      (write_barrier_slow vm rt dst s).regs x = s.regs x) := by
  let f0 : Machine → Machine := fun t =>
    pop_xmm0 (movptr_rr rscratch1 rax
      (super_call_VM_leaf vm rt Entry.write_barrier_IRT dst (push_xmm0 t)))
  have heq : write_barrier_slow vm rt dst s =
      pop rscratch1 (movptr_rr dst rscratch1
        (savedAround (dst ≠ rax) rax (savedAround (dst ≠ rbx) rbx (savedAround (dst ≠ rcx) rcx
          (savedAround (dst ≠ rdx) rdx (savedAround (dst ≠ vm.c_rarg1) vm.c_rarg1 f0))))
          (push rscratch1 s))) := rfl
  have hs0 : ∀ t, (f0 t).stack = t.stack := by
    intro t
    by_cases h : vm.c_rarg0 = dst <;>
      simp [f0, pop_xmm0, movptr_rr, setReg, super_call_VM_leaf, call_VM_leaf_base, push_xmm0, h]
  have hs1 := savedAround_stack (dst ≠ vm.c_rarg1) vm.c_rarg1 f0 hs0
  have hs2 := savedAround_stack (dst ≠ rdx) rdx _ hs1
  have hs3 := savedAround_stack (dst ≠ rcx) rcx _ hs2
  have hs4 := savedAround_stack (dst ≠ rbx) rbx _ hs3
  have hs5 := savedAround_stack (dst ≠ rax) rax _ hs4
  rw [heq]
  refine ⟨?_, ?_⟩
  · simp [pop, movptr_rr, setReg, hs5, push]
  · intro x hxd hx10 hsv
    have hr0 : (calleeSaved x = true ∧ x ≠ vm.c_rarg0) → x ≠ rax → ∀ t, (f0 t).regs x = t.regs x := by
      rintro ⟨h1, h2⟩ h3 t
      have hx10' : x ≠ r10 := hx10
      by_cases h : vm.c_rarg0 = dst <;>
        simp [f0, pop_xmm0, movptr_rr, setReg, super_call_VM_leaf, call_VM_leaf_base, push_xmm0, h,
          h1, h2, h3, hx10', rscratch1]
    have hne : ∀ r : Register, x = r → dst ≠ r := fun r h => h ▸ (Ne.symm hxd)
    have hx : x = rax ∨ x = rbx ∨ x = rcx ∨ x = rdx ∨ x = vm.c_rarg1 ∨
        (calleeSaved x = true ∧ x ≠ vm.c_rarg0) := by
      simpa [survivesWriteBarrier, or_assoc] using hsv
    have q1 : (x = vm.c_rarg1 ∨ (calleeSaved x = true ∧ x ≠ vm.c_rarg0 ∧ x ≠ rax)) → ∀ t,
        (savedAround (dst ≠ vm.c_rarg1) vm.c_rarg1 f0 t).regs x = t.regs x := fun h =>
      savedAround_regs _ _ _ hs0 x (hne _) (h.imp id (fun h => hr0 ⟨h.1, h.2.1⟩ h.2.2))
    have q2 : (x = rdx ∨ x = vm.c_rarg1 ∨ (calleeSaved x = true ∧ x ≠ vm.c_rarg0 ∧ x ≠ rax)) →
        ∀ t, (savedAround (dst ≠ rdx) rdx
          (savedAround (dst ≠ vm.c_rarg1) vm.c_rarg1 f0) t).regs x = t.regs x := fun h =>
      savedAround_regs _ _ _ hs1 x (hne _) (h.imp id q1)
    have q3 := fun h => savedAround_regs (dst ≠ rcx) rcx _ hs2 x (hne _) (Or.imp id q2 h)
    have q4 := fun h => savedAround_regs (dst ≠ rbx) rbx _ hs3 x (hne _) (Or.imp id q3 h)
    have q5 := fun h => savedAround_regs (dst ≠ rax) rax _ hs4 x (hne _) (Or.imp id q4 h)
    have hall : x = rax ∨ x = rbx ∨ x = rcx ∨ x = rdx ∨ x = vm.c_rarg1 ∨
        (calleeSaved x = true ∧ x ≠ vm.c_rarg0 ∧ x ≠ rax) := by
      by_cases hra : x = rax
      · exact Or.inl hra
      · simpa [hra] using hx
    have hx10' : x ≠ r10 := hx10
    simp only [pop, movptr_rr, setReg, hxd, hx10', rscratch1, if_false]
    rw [← show rscratch1 = r10 from rfl]
    exact q5 hall (push rscratch1 s)

/-- Counterexample to C6 as stated: in the read store-value mode the barrier
only resolves the new value.  The non-null reference 48, in a collection-set
region and not yet copied, is stored while Evacuation is set, and `load_at`
then returns 48 from the field. -/
theorem store_at_keeps_from_space :
    vmRead.ShenandoahStoreValReadBarrier = true ∧
    gcFlag vmRead vmRead.EVACUATION mEvac = true ∧
    mEvac.regs rax = 48 ∧
    (load_at vmRead rtIdle { IN_HEAP := true } BasicType.T_OBJECT rax ⟨rcx, noreg, 1, 8⟩ rdx
      (store_at vmRead rtIdle { IN_HEAP := true } BasicType.T_OBJECT ⟨rcx, noreg, 1, 8⟩
        rax rdx rbx mEvac)).regs rax = 48 ∧
    gcFlag vmRead vmRead.EVACUATION
      (store_at vmRead rtIdle { IN_HEAP := true } BasicType.T_OBJECT ⟨rcx, noreg, 1, 8⟩
        rax rdx rbx mEvac) = true ∧
    inCset vmRead
      (store_at vmRead rtIdle { IN_HEAP := true } BasicType.T_OBJECT ⟨rcx, noreg, 1, 8⟩
        rax rdx rbx mEvac).mem 48 = true := by
  decide

/-- With Evacuation set, `write_barrier_impl` leaves in `dst` a reference
outside the collection set, provided the relocation call returns one; the stack
is as before and so is every register that `survivesWriteBarrier` lists. -/
theorem write_barrier_impl_frame (vm : VM) (rt : Runtime) (dst : Register) (s : Machine)
    (hd : dst ≠ rscratch1) (hc : vm.c_rarg1 ≠ rscratch1)
    (hev : gcFlag vm vm.EVACUATION s = true)
    (hup : ∀ r, inCset vm s.mem (rt Entry.write_barrier_IRT [r] s.mem s.pool).ret = false) :
    (write_barrier_impl vm rt dst s).stack = s.stack ∧
    inCset vm s.mem ((write_barrier_impl vm rt dst s).regs dst) = false ∧
    (∀ x, x ≠ dst → x ≠ rscratch1 → survivesWriteBarrier vm x = true →
      (write_barrier_impl vm rt dst s).regs x = s.regs x) := by
  have hz := testb_gc_state_zf vm vm.EVACUATION vm.TRAVERSAL s
  rw [hev] at hz
  simp only [Bool.true_or, Bool.not_true] at hz
  simp only [write_barrier_impl]
  generalize hA : read_barrier_not_null vm dst
    (testb_mi (Address.mk2 r15_thread vm.gc_state_offset) (vm.EVACUATION ||| vm.TRAVERSAL) s) = A
  have hAz : A.zf = false := by
    rw [← hA, ← hz]
    cases hr : vm.ShenandoahReadBarrier <;>
      simp [read_barrier_not_null, hr, read_barrier_not_null_impl, movptr_rm, readMem, setReg,
        testb_mi]
  have hAm : A.mem = s.mem := by
    rw [← hA]
    cases hr : vm.ShenandoahReadBarrier <;>
      simp [read_barrier_not_null, hr, read_barrier_not_null_impl, movptr_rm, readMem, setReg,
        testb_mi]
  have hAp : A.pool = s.pool := by
    rw [← hA]
    cases hr : vm.ShenandoahReadBarrier <;>
      simp [read_barrier_not_null, hr, read_barrier_not_null_impl, movptr_rm, readMem, setReg,
        testb_mi]
  have hAs : A.stack = s.stack := by
    rw [← hA]
    cases hr : vm.ShenandoahReadBarrier <;>
      simp [read_barrier_not_null, hr, read_barrier_not_null_impl, movptr_rm, readMem, setReg,
        testb_mi]
  have hAr : ∀ x, x ≠ dst → A.regs x = s.regs x := by
    intro x hx
    rw [← hA]
    cases hr : vm.ShenandoahReadBarrier <;>
      simp [read_barrier_not_null, hr, read_barrier_not_null_impl, movptr_rm, readMem, setReg,
        testb_mi, hx]
  clear hA hz
  simp only [hAz, Bool.false_eq_true, if_false, write_barrier_cset_test_eq]
  cases hC : inCset vm A.mem (A.regs dst)
  · simp only [Bool.not_false, if_true]
    refine ⟨hAs, ?_, fun x hx _ _ => hAr x hx⟩
    rw [← hAm]; exact hC
  · simp only [Bool.not_true, Bool.false_eq_true, if_false]
    obtain ⟨e1, _, _, _⟩ := write_barrier_slow_spec vm rt dst
      { A with zf := false, trace := A.trace ++ [Event.load ((vm.in_cset_fast_test_addr % W +
          (A.regs dst % W) >>> vm.region_size_bytes_shift) % W)] } hd hc
    obtain ⟨g1, g2⟩ := write_barrier_slow_frame vm rt dst
      { A with zf := false, trace := A.trace ++ [Event.load ((vm.in_cset_fast_test_addr % W +
          (A.regs dst % W) >>> vm.region_size_bytes_shift) % W)] }
    refine ⟨by rw [g1]; exact hAs, ?_, ?_⟩
    · rw [e1]
      simp only [hAm, hAp]
      exact hup _
    · intro x hx h10 hsv
      rw [g2 x hx h10 hsv]
      exact hAr x hx

/-- The call sequence at label `runtime` of `satb_write_barrier_pre` leaves the
stack as it found it and, with the accumulator live, restores the accumulator,
the value register and the object register. -/
theorem satb_enqueue_slow_frame (vm : VM) (rt : Runtime) (obj pre_val thread : Register)
    (tosca_live expand_call : Bool) (X : Machine) :
    (satb_enqueue_slow vm rt obj pre_val thread tosca_live expand_call X).stack = X.stack ∧
    (∀ x, tosca_live = true → x ≠ noreg → (x = rax ∨ x = pre_val ∨ x = obj) →
      (satb_enqueue_slow vm rt obj pre_val thread tosca_live expand_call X).regs x =
        X.regs x) := by
  let C : Machine → Machine := fun s =>
    if expand_call then
      call_VM_leaf_base vm rt Entry.g1_wb_pre 2
        (if vm.c_rarg0 ≠ pre_val then movptr_rr vm.c_rarg0 pre_val
          (if vm.c_rarg1 ≠ thread then movptr_rr vm.c_rarg1 thread s else s)
        else (if vm.c_rarg1 ≠ thread then movptr_rr vm.c_rarg1 thread s else s))
    else call_VM_leaf2 vm rt Entry.g1_wb_pre pre_val thread s
  have heq : satb_enqueue_slow vm rt obj pre_val thread tosca_live expand_call X =
      savedAround (tosca_live = true) rax (savedAround (obj ≠ noreg ∧ obj ≠ rax) obj
        (savedAround (pre_val ≠ rax) pre_val C)) X := rfl
  have hs0 : ∀ t, (C t).stack = t.stack := by
    intro t
    simp only [C, call_VM_leaf2, call_VM_leaf_base]
    split_ifs <;> rfl
  have hs1 := savedAround_stack (pre_val ≠ rax) pre_val C hs0
  have hs2 := savedAround_stack (obj ≠ noreg ∧ obj ≠ rax) obj _ hs1
  rw [heq]
  refine ⟨savedAround_stack _ _ _ hs2 X, ?_⟩
  intro x htl hn hx
  by_cases hra : x = rax
  · exact savedAround_regs _ _ _ hs2 x (fun _ => htl) (Or.inl hra) X
  · refine savedAround_regs _ _ _ hs2 x (fun h => absurd h hra) (Or.inr ?_) X
    by_cases hob : x = obj
    · exact savedAround_regs _ _ _ hs1 x (fun h => ⟨h ▸ hn, h ▸ hra⟩) (Or.inl hob)
    · have hpv : x = pre_val := by
        rcases hx with h | h | h
        · exact absurd h hra
        · exact h
        · exact absurd h hob
      refine savedAround_regs _ _ _ hs1 x (fun h => absurd h hob) (Or.inr ?_)
      exact savedAround_regs _ _ _ hs0 x (fun h => h ▸ hra) (Or.inl hpv)

/-- The SATB pre-write barrier leaves the stack as it found it; with the
accumulator live it also hands back the accumulator, the object register and,
when the value comes in a register, the value register, unless one of them is
the scratch register `tmp`. -/
theorem satb_write_barrier_pre_frame (vm : VM) (rt : Runtime) (obj pre_val thread tmp : Register)
    (tosca_live expand_call : Bool) (s : Machine) :
    (satb_write_barrier_pre vm rt obj pre_val thread tmp tosca_live expand_call s).stack =
      s.stack ∧
    (∀ x, tosca_live = true → x ≠ noreg → x ≠ tmp → (obj ≠ noreg → x ≠ pre_val) →
      (x = rax ∨ x = pre_val ∨ x = obj) →
      (satb_write_barrier_pre vm rt obj pre_val thread tmp tosca_live expand_call s).regs x =
        s.regs x) := by
  simp only [satb_write_barrier_pre]
  generalize hL : (if obj ≠ noreg then load_heap_oop vm pre_val (Address.mk2 obj 0)
      (testb_mi (Address.mk2 thread vm.gc_state_offset) (vm.MARKING ||| vm.TRAVERSAL) s)
    else testb_mi (Address.mk2 thread vm.gc_state_offset) (vm.MARKING ||| vm.TRAVERSAL) s) = L
  have hLs : L.stack = s.stack := by
    rw [← hL]
    cases hc : vm.UseCompressedOops <;> split_ifs <;>
      simp [load_heap_oop, hc, decode_heap_oop, movl_rm, movptr_rm, readMem, setReg, testb_mi]
  have hLr : ∀ x, (obj ≠ noreg → x ≠ pre_val) → L.regs x = s.regs x := by
    intro x hx
    rw [← hL]
    by_cases ho : obj = noreg
    · simp [ho, testb_mi, readMem]
    · have := hx ho
      cases hc : vm.UseCompressedOops <;>
        simp [ho, load_heap_oop, hc, decode_heap_oop, movl_rm, movptr_rm, readMem, setReg,
          testb_mi, this]
  clear hL
  generalize hX : cmpptr_ri tmp 0 (movptr_rm tmp
    (Address.mk2 thread vm.satb_mark_queue_index_offset) (cmpptr_ri pre_val 0 L)) = X
  have hXs : X.stack = L.stack := by rw [← hX]; rfl
  have hXr : ∀ x, x ≠ tmp → X.regs x = L.regs x := by
    intro x hx; rw [← hX]; simp [cmpptr_ri, movptr_rm, readMem, setReg, hx]
  clear hX
  obtain ⟨w1, w2⟩ := satb_enqueue_slow_frame vm rt obj pre_val thread tosca_live expand_call X
  refine ⟨?_, ?_⟩
  · split_ifs
    · simp [testb_mi, readMem]
    · simp [cmpptr_ri, hLs]
    · rw [w1, hXs, hLs]
    · simp [satb_enqueue_fast, subptr_ri, movptr_mr, addptr_rm, readMem, writeMem, setReg, hXs,
        hLs]
  · intro x htl hn hxt hxp hx
    split_ifs
    · simp [testb_mi, readMem]
    · simp [cmpptr_ri, hLr x hxp]
    · rw [w2 x htl hn hx, hXr x hxt, hLr x hxp]
    · simp [satb_enqueue_fast, subptr_ri, movptr_mr, addptr_rm, readMem, writeMem, setReg, hxt,
        hXr x hxt, hLr x hxp]

theorem popa_pusha_saved (s t : Machine) (ht : t.stack = savedRegs.map s.regs ++ s.stack)
    (r : Register) (h : r ∈ savedRegs) : (popa t).regs r = s.regs r := by
  simp only [popa, h, if_true, ht]
  exact savedRegs_getD s.regs s.stack r h

/-- In the enqueue mode alone, the store-value barrier on a non-null value
leaves every register that `pusha` saves as `write_barrier_impl` left it. -/
theorem storeval_barrier_enqueue_regs (vm : VM) (rt : Runtime) (dst tmp : Register)
    (s : Machine) (henq : vm.ShenandoahStoreValEnqueueBarrier = true)
    (hnord : vm.ShenandoahStoreValReadBarrier = false) (hn : dst ≠ noreg)
    (hv : s.regs dst ≠ 0) (x : Register) (hx : x ∈ savedRegs) :
    (storeval_barrier vm rt dst tmp s).regs x =
      (write_barrier_impl vm rt dst (testptr dst dst s)).regs x := by
  have hz : (testptr dst dst s).zf = false := by simp [testptr, hv]
  simp only [storeval_barrier, storeval_barrier_impl, henq, hnord, hn, hz, if_true, if_false,
    Bool.or_true, Bool.false_eq_true]
  refine popa_pusha_saved _ _ ?_ x hx
  simp only [pop_xmm0, (satb_write_barrier_pre_frame vm rt noreg dst r15_thread tmp true false _).1]
  simp [push_xmm0, pusha]

theorem matrixCell_mod (vm : VM) (a v : Nat) : matrixCell vm (a % W) v = matrixCell vm a v := by
  simp [matrixCell, regionOf, Nat.mod_add_mod]

/-- The raw store of a reference held in a register: the field receives the
reference, or the low 32 bits of its encoding under compressed references. -/
theorem raw_store_oop_value (vm : VM) (decorators : DecoratorSet) (type : BasicType)
    (b val : Register) (s : Machine)
    (htype : type = BasicType.T_OBJECT ∨ type = BasicType.T_ARRAY)
    (hheap : decorators.IN_HEAP = true) (hn : val ≠ noreg) (hb : val ≠ b) :
    (BarrierSetAssembler.store_at vm decorators type (Address.mk2 b 0) val s).mem =
      (fun a => if a = ea (Address.mk2 b 0) s
        then (if vm.UseCompressedOops then vm.encode (s.regs val) % 2 ^ 32 else s.regs val)
        else s.mem a) ∧
    (BarrierSetAssembler.store_at vm decorators type (Address.mk2 b 0) val s).regs b =
      s.regs b ∧
    (vm.UseCompressedOops = false →
      (BarrierSetAssembler.store_at vm decorators type (Address.mk2 b 0) val s).regs val =
        s.regs val) ∧
    (∀ x, x ≠ val →
      (BarrierSetAssembler.store_at vm decorators type (Address.mk2 b 0) val s).regs x =
        s.regs x) := by
  have hb' : b ≠ val := Ne.symm hb
  rcases htype with h | h <;> subst h <;> cases hc : vm.UseCompressedOops <;>
    simp [BarrierSetAssembler.store_at, hheap, hn, hc, movptr_mr, movl_mr, encode_heap_oop,
      writeMem, setReg, ea, Address.mk2, hb'] <;>
    intro x hx <;> simp [hx]

/-- What `load_at` returns for a heap reference field: the reference held by
the field of the resolved base. -/
theorem load_at_oop (vm : VM) (rt : Runtime) (ld : DecoratorSet) (type : BasicType)
    (dstR tmpR : Register) (src : Address) (t : Machine)
    (htype : type = BasicType.T_OBJECT ∨ type = BasicType.T_ARRAY)
    (hheap : ld.IN_HEAP = true) (hdn : dstR ≠ noreg) (hne : tmpR ≠ dstR) :
    (load_at vm rt ld type dstR src tmpR t).regs dstR =
      casOop vm (t.mem (ea src (read_barrier_not_null vm src.base t))) := by
  simp only [load_at, hheap, if_true]
  generalize hA : read_barrier_not_null vm src.base t = A
  have hAm : A.mem = t.mem := by
    rw [← hA]
    cases hr : vm.ShenandoahReadBarrier <;>
      simp [read_barrier_not_null, hr, read_barrier_not_null_impl, movptr_rm, readMem, setReg]
  have hB : (BarrierSetAssembler.load_at vm ld type dstR src A).regs dstR =
      casOop vm (t.mem (ea src A)) := by
    rw [← hAm]
    rcases htype with h | h <;> subst h <;> cases hc : vm.UseCompressedOops <;>
      simp [BarrierSetAssembler.load_at, hheap, hc, decode_heap_oop, movl_rm, movptr_rm, readMem,
        setReg, casOop]
  split_ifs
  · simp only [shenandoah_write_barrier_pre]
    split_ifs
    · rw [(satb_write_barrier_pre_frame vm rt noreg dstR r15_thread tmpR true true _).2 dstR rfl
        hdn (Ne.symm hne) (fun h => absurd rfl h) (Or.inr (Or.inl rfl)), hB]
    · exact hB
  · exact hB

/-- The connection-matrix record leaves a word alone that is not the cell it
marks. -/
theorem shenandoah_write_barrier_post_keeps (vm : VM) (store_addr new_val tmp tmp2 : Register)
    (s : Machine) (F : Nat)
    (hregs : tmp ≠ tmp2 ∧ tmp ≠ rscratch1 ∧ tmp2 ≠ rscratch1 ∧ tmp ≠ noreg ∧
      store_addr ≠ tmp ∧ store_addr ≠ rscratch1 ∧ new_val ≠ rscratch1)
    (hcell : matrixCell vm (s.regs store_addr) (s.regs new_val) ≠ F) :
    (shenandoah_write_barrier_post vm store_addr new_val tmp tmp2 s).mem F = s.mem F := by
  rw [(shenandoah_write_barrier_post_eq vm store_addr new_val tmp tmp2 s hregs).1]
  split_ifs
  · simp [Ne.symm hcell]
  · rfl

/-- C6 (amended): in the enqueue store-value mode (read mode off), for a heap
reference field `F` and a non-null new value, with the relocation call
answering outside the collection set: when `store_at` stores while Evacuation
is set, the reference `X` that its store-value barrier produces lies outside
the collection set, the field holds `X` after the store, and every `load_at`
of that field, from a state where the field is as the store left it, returns
`X`.  The phase, the value and the collection set are those of the state `s2`
in which the store-value barrier starts; under compressed references `X` has
to survive encoding and decoding. -/
theorem store_at_load_at_to_space (vm : VM) (rt : Runtime) (decorators : DecoratorSet)
    (type : BasicType) (dst : Address) (val tmp1 tmp2 : Register) (s s2 : Machine) (F X : Nat)
    (henq : vm.ShenandoahStoreValEnqueueBarrier = true)
    (hnord : vm.ShenandoahStoreValReadBarrier = false)
    (hheap : decorators.IN_HEAP = true)
    (htype : type = BasicType.T_OBJECT ∨ type = BasicType.T_ARRAY)
    (hF : ea dst (write_barrier vm rt dst.base s) = F)
    (hs2 : shenandoah_write_barrier_pre vm rt tmp1 tmp2 r15_thread r8 (decide (val ≠ noreg)) false
      (store_at_flatten dst tmp1 (write_barrier vm rt dst.base s)) = s2)
    (hX : (storeval_barrier vm rt val r8 s2).regs val = X)
    (hregs : val ≠ noreg ∧ val ≠ rscratch1 ∧ val ≠ tmp1 ∧ val ∈ savedRegs ∧ tmp1 ∈ savedRegs ∧
      val ≠ tmp2 ∧ tmp1 ≠ tmp2 ∧ tmp1 ≠ r8 ∧ tmp1 ≠ rscratch1 ∧ tmp2 ≠ r8 ∧ tmp2 ≠ rscratch1 ∧
      survivesWriteBarrier vm tmp1 = true ∧ vm.c_rarg1 ≠ rscratch1)
    (hev : gcFlag vm vm.EVACUATION s2 = true)
    (hv : s2.regs val ≠ 0)
    (hup : ∀ r, inCset vm s2.mem (rt Entry.write_barrier_IRT [r] s2.mem s2.pool).ret = false)
    (hcell : matrixCell vm F X ≠ F)
    (hcodec : vm.UseCompressedOops = true → vm.decode (vm.encode X % 2 ^ 32) = X) :
    inCset vm s2.mem X = false ∧
    casOop vm ((store_at vm rt decorators type dst val tmp1 tmp2 s).mem F) = X ∧
    (∀ (ld : DecoratorSet) (dstR tmpR : Register) (src : Address) (t : Machine),
      ld.IN_HEAP = true → dstR ≠ noreg → tmpR ≠ dstR →
      t.mem F = (store_at vm rt decorators type dst val tmp1 tmp2 s).mem F →
      ea src (read_barrier_not_null vm src.base t) = F →
      (load_at vm rt ld type dstR src tmpR t).regs dstR = X) := by
  obtain ⟨r1, r2, r3, r4, r5, r13, r6, r7, r8', r9, r10', r11', r12'⟩ := hregs
  have hn1 : tmp1 ≠ noreg := by
    intro h; rw [h] at r5; revert r5; decide
  -- the field address is in `tmp1` when the store-value barrier starts
  obtain ⟨f1, _, _, _, _, _⟩ := store_at_flatten_spec dst tmp1 (write_barrier vm rt dst.base s)
  have hF2 : s2.regs tmp1 % W = F := by
    have h1 : s2.regs tmp1 =
        (store_at_flatten dst tmp1 (write_barrier vm rt dst.base s)).regs tmp1 := by
      rw [← hs2]
      simp only [shenandoah_write_barrier_pre]
      split_ifs
      · exact (satb_write_barrier_pre_frame vm rt tmp1 tmp2 r15_thread r8
          (decide (val ≠ noreg)) false _).2 tmp1 (by simp [r1]) hn1 r7 (fun _ => r6)
          (Or.inr (Or.inr rfl))
      · rfl
    rw [← hF, ← f1, h1]
    simp [ea, Address.mk2]
  -- the store-value barrier
  have hgc : gcFlag vm vm.EVACUATION (testptr val val s2) = true := hev
  obtain ⟨_, w2, w3⟩ := write_barrier_impl_frame vm rt val (testptr val val s2) r2 r12' hgc hup
  have hVv := storeval_barrier_enqueue_regs vm rt val r8 s2 henq hnord r1 hv val r4
  have hVt := storeval_barrier_enqueue_regs vm rt val r8 s2 henq hnord r1 hv tmp1 r5
  rw [hX] at hVv
  rw [w3 tmp1 (Ne.symm r3) r8' r11'] at hVt
  have hin : inCset vm s2.mem X = false := by rw [hVv]; exact w2
  have hVt' : (storeval_barrier vm rt val r8 s2).regs tmp1 = s2.regs tmp1 := hVt
  clear hVv hVt w2 w3 hgc
  -- the raw store and the matrix record
  have hs2' : shenandoah_write_barrier_pre vm rt tmp1 tmp2 r15_thread r8 true false
      (store_at_flatten dst tmp1 (write_barrier vm rt dst.base s)) = s2 := by
    simpa [r1] using hs2
  generalize hV : storeval_barrier vm rt val r8 s2 = V at hX hVt'
  have hFV : ∀ M : Machine, M.regs tmp1 = V.regs tmp1 → ea (Address.mk2 tmp1 0) M = F := by
    intro M h; rw [← hF2, ← hVt', ← h]; simp [ea, Address.mk2]
  have hcellV : ∀ R : Machine, R.regs tmp1 = V.regs tmp1 →
      matrixCell vm (R.regs tmp1) X ≠ F := by
    intro R h; rw [h, hVt', ← matrixCell_mod, hF2]; exact hcell
  have hr8 : (r8 : Register) ≠ rscratch1 := by decide
  have hr8n : (r8 : Register) ≠ noreg := by decide
  have key : (store_at vm rt decorators type dst val tmp1 tmp2 s).mem F =
      (if vm.UseCompressedOops then vm.encode X % 2 ^ 32 else X) := by
    cases hm : vm.UseShenandoahMatrix <;> cases hc : vm.UseCompressedOops <;>
      simp only [store_at, hheap, htype, if_true, Bool.true_or, hs2', r1, if_false, ne_eq,
        not_false_eq_true, decide_True, Bool.true_and, Bool.and_true, hm, hc, and_self,
        and_false, false_and, and_true, Bool.false_eq_true, Bool.and_false, hV]
    · obtain ⟨q1, _, _, _⟩ :=
        raw_store_oop_value vm decorators type tmp1 val V htype hheap r1 r3
      rw [q1, hFV V rfl, hX]; simp [hc]
    · obtain ⟨q1, _, _, _⟩ :=
        raw_store_oop_value vm decorators type tmp1 val V htype hheap r1 r3
      rw [q1, hFV V rfl, hX]; simp [hc]
    · obtain ⟨q1, q2, q3, _⟩ :=
        raw_store_oop_value vm decorators type tmp1 val V htype hheap r1 r3
      rw [shenandoah_write_barrier_post_keeps vm tmp1 val r8 tmp2 _ F
        ⟨Ne.symm r9, hr8, r10', hr8n, r7, r8', r2⟩
        (by rw [q3 hc, hX]; exact hcellV _ q2)]
      rw [q1, hFV V rfl, hX]; simp [hc]
    · have hMv : (movptr_rr tmp2 val V).regs val = X := by
        rw [← hX]; simp [movptr_rr, setReg]
      have hMt : (movptr_rr tmp2 val V).regs tmp1 = V.regs tmp1 := by
        simp [movptr_rr, setReg, r6]
      have hM2 : (movptr_rr tmp2 val V).regs tmp2 = X := by
        rw [← hX]; simp [movptr_rr, setReg]
      obtain ⟨q1, q2, _, q4⟩ :=
        raw_store_oop_value vm decorators type tmp1 val (movptr_rr tmp2 val V) htype hheap r1 r3
      rw [shenandoah_write_barrier_post_keeps vm tmp1 tmp2 r8 tmp2 _ F
        ⟨Ne.symm r9, hr8, r10', hr8n, r7, r8', r10'⟩
        (by rw [q4 tmp2 (Ne.symm r13), hM2]; exact hcellV _ (q2.trans hMt))]
      rw [q1, hFV _ hMt, hMv]; simp [hc]
  have hcas : casOop vm (if vm.UseCompressedOops then vm.encode X % 2 ^ 32 else X) = X := by
    cases hc : vm.UseCompressedOops
    · simp [casOop, hc]
    · have h := hcodec hc
      simpa [casOop, hc] using h
  refine ⟨hin, by rw [key, hcas], ?_⟩
  intro ld dstR tmpR src t hld hdn hne ht hsrc
  rw [load_at_oop vm rt ld type dstR tmpR src t htype hld hdn hne, hsrc, ht, key, hcas]

/-- Witness for C6: in the enqueue store-value mode, with Evacuation set, the
store of the collection-set reference 48 puts its to-space copy 64 into the
field at 312, and `load_at` returns 64, outside the collection set. -/
theorem store_at_load_at_to_space_witness :
    gcFlag vmEnq vmEnq.EVACUATION mEvac = true ∧
    mEvac.regs rax = 48 ∧
    inCset vmEnq mEvac.mem 48 = true ∧
    (load_at vmEnq rtCopy { IN_HEAP := true } BasicType.T_OBJECT rax ⟨rcx, noreg, 1, 8⟩ rdx
      (store_at vmEnq rtCopy { IN_HEAP := true } BasicType.T_OBJECT ⟨rcx, noreg, 1, 8⟩
        rax rdx rbx mEvac)).regs rax = 64 ∧
    inCset vmEnq mEvac.mem 64 = false := by
  have h := store_at_load_at_to_space vmEnq rtCopy { IN_HEAP := true } BasicType.T_OBJECT
    ⟨rcx, noreg, 1, 8⟩ rax rdx rbx mEvac
    (shenandoah_write_barrier_pre vmEnq rtCopy rdx rbx r15_thread r8 (decide (rax ≠ noreg)) false
      (store_at_flatten ⟨rcx, noreg, 1, 8⟩ rdx (write_barrier vmEnq rtCopy rcx mEvac)))
    312 64 rfl rfl rfl (Or.inl rfl) (by decide) rfl (by decide) (by decide) (by decide)
    (by decide)
    (fun _ => (by decide : inCset vmEnq
      (shenandoah_write_barrier_pre vmEnq rtCopy rdx rbx r15_thread r8 (decide (rax ≠ noreg))
        false (store_at_flatten ⟨rcx, noreg, 1, 8⟩ rdx
          (write_barrier vmEnq rtCopy rcx mEvac))).mem 64 = false))
    (by decide) (fun hc => absurd hc (by decide))
  refine ⟨by decide, by decide, by decide, ?_, by decide⟩
  exact h.2.2 { IN_HEAP := true } rax rdx ⟨rcx, noreg, 1, 8⟩ _ rfl (by decide) (by decide) rfl
    (by decide)

theorem casAttempts_append (a b : List Event) :
    casAttempts (a ++ b) = casAttempts a ++ casAttempts b := by
  induction a with
  | nil => rfl
  | cons e t ih => cases e <;> simp [casAttempts, ih]

/-- The effect of `resolve_for_read` without `OOP_NOT_NULL`: its register
receives `resolveRead` of its content; memory and the compare-and-swap record
are as before. -/
theorem resolve_for_read_spec (vm : VM) (r : Register) (s : Machine) :
    (resolve_for_read vm {} r s).regs =
      (fun x => if x = r then resolveRead vm s.mem (s.regs r) else s.regs x) ∧
    (resolve_for_read vm {} r s).mem = s.mem ∧
    casAttempts (resolve_for_read vm {} r s).trace = casAttempts s.trace := by
  cases hrb : vm.ShenandoahReadBarrier
  · refine ⟨?_, ?_, ?_⟩ <;> simp [resolve_for_read, read_barrier, hrb, resolveRead]
    funext x
    by_cases hx : x = r <;> simp [hx]
  · refine ⟨?_, read_barrier_mem vm r s, ?_⟩
    · simp [resolve_for_read, read_barrier_regs, hrb, resolveRead]
    · by_cases h0 : s.regs r = 0 <;>
        simp [resolve_for_read, read_barrier, read_barrier_impl, read_barrier_not_null_impl, hrb,
          testptr, h0, movptr_rm, readMem, setReg, casAttempts_append, casAttempts]

/-- The reload of the failure witness: `tmp2` receives `resolveRead` of the
reference that `oldval` denotes. -/
theorem cmpxchg_witness_spec (vm : VM) (oldval tmp2 : Register) (s : Machine) :
    (cmpxchg_witness vm oldval tmp2 s).regs =
      (fun x => if x = tmp2 then resolveRead vm s.mem (casOop vm (s.regs oldval))
        else s.regs x) ∧
    (cmpxchg_witness vm oldval tmp2 s).mem = s.mem ∧
    casAttempts (cmpxchg_witness vm oldval tmp2 s).trace = casAttempts s.trace := by
  simp only [cmpxchg_witness]
  generalize hY : (if vm.UseCompressedOops = true then decode_heap_oop vm tmp2 (movl_rr tmp2 oldval s)
    else movptr_rr tmp2 oldval s) = Y
  have hYr : Y.regs = fun x => if x = tmp2 then casOop vm (s.regs oldval) else s.regs x := by
    rw [← hY]
    funext x
    cases hc : vm.UseCompressedOops <;> by_cases hx : x = tmp2 <;>
      simp [decode_heap_oop, movl_rr, movptr_rr, setReg, casOop, hc, hx]
  have hYm : Y.mem = s.mem := by
    rw [← hY]; cases hc : vm.UseCompressedOops <;> simp [decode_heap_oop, movl_rr, movptr_rr, setReg]
  have hYt : Y.trace = s.trace := by
    rw [← hY]; cases hc : vm.UseCompressedOops <;> simp [decode_heap_oop, movl_rr, movptr_rr, setReg]
  obtain ⟨r1, r2, r3⟩ := resolve_for_read_spec vm tmp2 Y
  refine ⟨?_, by rw [r2, hYm], by rw [r3, hYt]⟩
  rw [r1, hYr, hYm]
  funext x
  by_cases hx : x = tmp2 <;> simp [hx]

/-- One sequential run of `cmpxchg_oop` with the CAS barrier enabled, from the
state `p` in which the hardware compare-and-swap is first tried, with `nv` the
register that holds the new value there.  `q` is the state at label `done`.
Three courses: the first attempt succeeds; it fails, both sides resolve alike
and the retry, which compares against the witness now in `rax`, succeeds; or it
fails and the sides resolve differently. -/
theorem cmpxchg_oop_run (vm : VM) (rt : Runtime) (f : Nat) (res newval nv tmp1 tmp2 : Register)
    (addr : Address) (exchange encode : Bool) (s p : Machine)
    (hcas : vm.ShenandoahCASBarrier = true)
    (hp : cmpxchg_prologue vm rt rax newval encode tmp1 tmp2 s = p)
    (hnv : cmpxchg_newval vm newval encode = nv)
    (hregs : tmp1 ≠ rax ∧ tmp2 ≠ rax ∧ tmp1 ≠ tmp2 ∧ nv ≠ rax ∧ nv ≠ tmp1 ∧ nv ≠ tmp2)
    (haddr : addr.base ≠ rax ∧ addr.base ≠ tmp1 ∧ addr.base ≠ tmp2 ∧
      addr.index ≠ rax ∧ addr.index ≠ tmp1 ∧ addr.index ≠ tmp2) :
    ∃ q, cmpxchg_oop vm rt (f + 1) res addr rax newval exchange encode tmp1 tmp2 s =
        some (if (!exchange) = true then movzbl res res (setb_equal res q) else q) ∧
      (casCell vm (p.regs rax) = casCell vm (p.mem (ea addr p)) →
        q.zf = true ∧
        q.mem = (fun x => if x = ea addr p then casCell vm (p.regs nv) else p.mem x) ∧
        q.regs rax = p.regs rax ∧
        casAttempts q.trace = casAttempts p.trace ++
          [(ea addr p, casCell vm (p.regs rax), casCell vm (p.regs nv), true)]) ∧
      (casCell vm (p.regs rax) ≠ casCell vm (p.mem (ea addr p)) →
        resolveRead vm p.mem (casOop vm (p.regs rax)) =
          resolveRead vm p.mem (casOop vm (p.mem (ea addr p))) →
        q.zf = true ∧
        q.mem = (fun x => if x = ea addr p then casCell vm (p.regs nv) else p.mem x) ∧
        q.regs rax = casCell vm (p.mem (ea addr p)) ∧
        casAttempts q.trace = casAttempts p.trace ++
          [(ea addr p, casCell vm (p.regs rax), casCell vm (p.regs nv), false),
           (ea addr p, casCell vm (p.mem (ea addr p)), casCell vm (p.regs nv), true)]) ∧
      (casCell vm (p.regs rax) ≠ casCell vm (p.mem (ea addr p)) →
        resolveRead vm p.mem (casOop vm (p.regs rax)) ≠
          resolveRead vm p.mem (casOop vm (p.mem (ea addr p))) →
        q.zf = false ∧ q.mem = p.mem ∧
        q.regs rax = casCell vm (p.mem (ea addr p)) ∧
        casAttempts q.trace = casAttempts p.trace ++
          [(ea addr p, casCell vm (p.regs rax), casCell vm (p.regs nv), false)]) := by
  obtain ⟨h1, h2, h3, h4, h5, h6⟩ := hregs
  obtain ⟨a1, a2, a3, a4, a5, a6⟩ := haddr
  simp only [cmpxchg_oop, hcas, Bool.not_true, Bool.false_eq_true, if_false, hp, hnv]
  clear hp hnv
  -- the state after remembering oldval in tmp1
  have hs1 : (if vm.UseCompressedOops then movl_rr tmp1 rax p else movptr_rr tmp1 rax p) =
      setReg tmp1 (casCell vm (p.regs rax)) p := by
    cases hc : vm.UseCompressedOops <;> simp [movl_rr, movptr_rr, casCell, hc]
  simp only [hs1]
  have hea1 : ea addr (setReg tmp1 (casCell vm (p.regs rax)) p) = ea addr p :=
    ea_congr addr p _ (by simp [setReg, a2]) (by simp [setReg, a5])
  have hrax1 : (setReg tmp1 (casCell vm (p.regs rax)) p).regs rax = p.regs rax := by
    simp [setReg, Ne.symm h1]
  have hnv1 : (setReg tmp1 (casCell vm (p.regs rax)) p).regs nv = p.regs nv := by
    simp [setReg, h5]
  by_cases hev : casCell vm (p.regs rax) = casCell vm (p.mem (ea addr p))
  · -- Step 1 succeeds
    have hhit := cmpxchg_hw_hit vm nv addr _ (by rw [hrax1, hea1]; exact hev)
    have hz1 : (cmpxchg_hw vm nv addr (setReg tmp1 (casCell vm (p.regs rax)) p)).zf = true := by
      rw [hhit]
    refine ⟨cmpxchg_hw vm nv addr (setReg tmp1 (casCell vm (p.regs rax)) p), ?_, ?_,
      fun h => absurd hev h, fun h => absurd hev h⟩
    · simp only [hz1, if_true]
    · intro _
      rw [hea1, hnv1, hrax1] at hhit
      rw [hhit]
      refine ⟨rfl, rfl, hrax1, ?_⟩
      have ht : (setReg tmp1 (casCell vm (p.regs rax)) p).trace = p.trace := rfl
      simp only [ht, casAttempts_append, casAttempts]
  · -- Step 1 fails: rax receives the witness
    have hmiss := cmpxchg_hw_miss vm nv addr _ (by rw [hrax1, hea1]; exact hev)
    have hs2r : (cmpxchg_hw vm nv addr (setReg tmp1 (casCell vm (p.regs rax)) p)).regs =
        fun x => if x = rax then casCell vm (p.mem (ea addr p))
        else if x = tmp1 then casCell vm (p.regs rax) else p.regs x := by
      rw [hmiss, hea1]; rfl
    have hs2m : (cmpxchg_hw vm nv addr (setReg tmp1 (casCell vm (p.regs rax)) p)).mem =
        p.mem := by rw [hmiss]; rfl
    have hz2 : (cmpxchg_hw vm nv addr (setReg tmp1 (casCell vm (p.regs rax)) p)).zf =
        false := by rw [hmiss]
    have hs2t : casAttempts
        (cmpxchg_hw vm nv addr (setReg tmp1 (casCell vm (p.regs rax)) p)).trace =
        casAttempts p.trace ++
          [(ea addr p, casCell vm (p.regs rax), casCell vm (p.regs nv), false)] := by
      rw [hmiss, hea1, hnv1, hrax1]
      have ht : (setReg tmp1 (casCell vm (p.regs rax)) p).trace = p.trace := rfl
      simp only [setReg, casAttempts_append, casAttempts]
    clear hmiss
    generalize cmpxchg_hw vm nv addr (setReg tmp1 (casCell vm (p.regs rax)) p) = s2
      at hs2r hs2m hz2 hs2t ⊢
    simp only [hz2, Bool.false_eq_true, if_false]
    -- Step 2: both sides resolved
    generalize hD : (if vm.UseCompressedOops = true then decode_heap_oop vm tmp1 s2 else s2) = D
    have hDr : D.regs = fun x => if x = tmp1 then casOop vm (p.regs rax)
        else if x = rax then casCell vm (p.mem (ea addr p)) else p.regs x := by
      rw [← hD]
      funext x
      cases hc : vm.UseCompressedOops <;> by_cases hx : x = tmp1 <;> by_cases hx2 : x = rax <;>
        simp [decode_heap_oop, setReg, casOop, casCell, hx, hx2, h1, Ne.symm h1, hs2r, hc]
    have hDm : D.mem = p.mem := by
      rw [← hD]; cases hc : vm.UseCompressedOops <;> simp [decode_heap_oop, setReg, hs2m]
    have hDt : casAttempts D.trace = casAttempts p.trace ++
        [(ea addr p, casCell vm (p.regs rax), casCell vm (p.regs nv), false)] := by
      rw [← hD, ← hs2t]; cases hc : vm.UseCompressedOops <;> simp [decode_heap_oop, setReg]
    clear hD hs2r hs2m hs2t hz2
    obtain ⟨t1, t2, t3⟩ := resolve_for_read_spec vm tmp1 D
    generalize resolve_for_read vm {} tmp1 D = s3 at t1 t2 t3 ⊢
    obtain ⟨w1, w2, w3⟩ := cmpxchg_witness_spec vm rax tmp2 s3
    have hs5r : (cmpptr_rr tmp1 tmp2 (cmpxchg_witness vm rax tmp2 s3)).regs = fun x =>
        if x = tmp2 then resolveRead vm p.mem (casOop vm (p.mem (ea addr p)))
        else if x = tmp1 then resolveRead vm p.mem (casOop vm (p.regs rax))
        else if x = rax then casCell vm (p.mem (ea addr p)) else p.regs x := by
      funext x
      by_cases hx1 : x = tmp1 <;> by_cases hx2 : x = tmp2 <;>
        simp [cmpptr_rr, w1, t1, t2, hDr, hDm, Ne.symm h1, casOop_casCell, hx1, hx2]
    have hs5m : (cmpptr_rr tmp1 tmp2 (cmpxchg_witness vm rax tmp2 s3)).mem = p.mem := by
      simp [cmpptr_rr, w2, t2, hDm]
    have hs5z : (cmpptr_rr tmp1 tmp2 (cmpxchg_witness vm rax tmp2 s3)).zf =
        decide (resolveRead vm p.mem (casOop vm (p.regs rax)) =
          resolveRead vm p.mem (casOop vm (p.mem (ea addr p)))) := by
      simp [cmpptr_rr, w1, t1, t2, hDr, hDm, Ne.symm h1, casOop_casCell, h3]
    have hs5t : casAttempts (cmpptr_rr tmp1 tmp2 (cmpxchg_witness vm rax tmp2 s3)).trace =
        casAttempts p.trace ++
          [(ea addr p, casCell vm (p.regs rax), casCell vm (p.regs nv), false)] := by
      simp only [cmpptr_rr, w3, t3, hDt]
    clear w1 w2 w3 t1 t2 t3 hDr hDm hDt
    generalize cmpptr_rr tmp1 tmp2 (cmpxchg_witness vm rax tmp2 s3) = s5
      at hs5r hs5m hs5z hs5t ⊢
    have hea5 : ea addr s5 = ea addr p := ea_congr addr p s5 (by simp [hs5r, a1, a2, a3])
      (by simp [hs5r, a4, a5, a6])
    by_cases hres : resolveRead vm p.mem (casOop vm (p.regs rax)) =
        resolveRead vm p.mem (casOop vm (p.mem (ea addr p)))
    · -- Step 3: the retry meets the witness it has just read
      have hz5 : s5.zf = true := by rw [hs5z]; simpa using hres
      have hcond : casCell vm (s5.regs rax) = casCell vm (s5.mem (ea addr s5)) := by
        rw [hea5, hs5m]; simp [hs5r, Ne.symm h1, Ne.symm h2, casCell_idem]
      refine ⟨cmpxchg_hw vm nv addr s5, ?_, fun h => absurd h hev, ?_,
        fun _ h => absurd hres h⟩
      · rw [hz5, cmpxchg_retry_hit vm addr rax nv tmp1 tmp2 f s5 hcond]
        simp
      · intro _ _
        rw [cmpxchg_hw_hit vm nv addr s5 hcond]
        refine ⟨rfl, ?_, ?_, ?_⟩
        · simp [hea5, hs5m, hs5r, h4, h5, h6]
        · simp [hs5r, Ne.symm h1, Ne.symm h2]
        · simp [hea5, hs5t, hs5r, h4, h5, h6, Ne.symm h1, Ne.symm h2, casAttempts_append,
            casAttempts, casCell_idem]
    · have hz5 : s5.zf = false := by rw [hs5z]; simpa using hres
      refine ⟨s5, ?_, fun h => absurd h hev, fun _ h => absurd h hres, ?_⟩
      · rw [hz5]; simp
      · intro _ _
        exact ⟨hz5, hs5m, by simp [hs5r, Ne.symm h1, Ne.symm h2], hs5t⟩

/-- Counterexample to C11 as stated: with the CAS barrier on and the read
barrier off, while Evacuation is set, the expected value is the stale reference
16 and the field holds the to-space reference 32 of the same object; the
operation makes one hardware attempt, reports failure and leaves the field as
it was. -/
theorem cmpxchg_oop_stale_fails :
    vmNoRead.ShenandoahCASBarrier = true ∧
    gcFlag vmNoRead vmNoRead.EVACUATION mCasEvac = true ∧
    mCasEvac.regs rax = 16 ∧ mCasEvac.mem 100 = 32 ∧
    resolve vmNoRead mCasEvac.mem 16 = 32 ∧ resolve vmNoRead mCasEvac.mem 32 = 32 ∧
    (cmpxchg_oop vmNoRead rtIdle 1 rbx ⟨rcx, noreg, 1, 0⟩ rax rdx false false r8 r9 mCasEvac).map
      (fun s' => casAttempts s'.trace) = some [(100, 16, 48, false)] ∧
    (cmpxchg_oop vmNoRead rtIdle 1 rbx ⟨rcx, noreg, 1, 0⟩ rax rdx false false r8 r9 mCasEvac).map
      (fun s' => (s'.regs rbx, s'.mem 100)) = some (0, 32) := by
  decide

/-- C11 (amended): with the CAS barrier and the read barrier enabled, in a
sequential execution (in every phase, Evacuating included), when the expected
value and the value at the address are different words that resolve to the same
reference, as the stale and the to-space reference of one object do,
`cmpxchg_oop` returns and succeeds after one resolve-and-retry: it makes
exactly two hardware compare-and-swap attempts, the first fails, the second
succeeds, and the address then holds the new value.  `p` is the state in which
the first attempt is made. -/
theorem cmpxchg_oop_stale_expected (vm : VM) (rt : Runtime) (fuel : Nat)
    (res newval nv tmp1 tmp2 : Register) (addr : Address) (exchange encode : Bool)
    (s p : Machine)
    (hfuel : 1 ≤ fuel)
    (hcas : vm.ShenandoahCASBarrier = true) (hrb : vm.ShenandoahReadBarrier = true)
    (hp : cmpxchg_prologue vm rt rax newval encode tmp1 tmp2 s = p)
    (hnv : cmpxchg_newval vm newval encode = nv)
    (hregs : tmp1 ≠ rax ∧ tmp2 ≠ rax ∧ tmp1 ≠ tmp2 ∧ nv ≠ rax ∧ nv ≠ tmp1 ∧ nv ≠ tmp2)
    (haddr : addr.base ≠ rax ∧ addr.base ≠ tmp1 ∧ addr.base ≠ tmp2 ∧
      addr.index ≠ rax ∧ addr.index ≠ tmp1 ∧ addr.index ≠ tmp2)
    (hstale : casCell vm (p.regs rax) ≠ casCell vm (p.mem (ea addr p)))
    (hsame : resolve vm p.mem (casOop vm (p.regs rax)) =
      resolve vm p.mem (casOop vm (p.mem (ea addr p)))) :
    ∃ s', cmpxchg_oop vm rt fuel res addr rax newval exchange encode tmp1 tmp2 s = some s' ∧
      casAttempts s'.trace = casAttempts p.trace ++
        [(ea addr p, casCell vm (p.regs rax), casCell vm (p.regs nv), false),
         (ea addr p, casCell vm (p.mem (ea addr p)), casCell vm (p.regs nv), true)] ∧
      s'.mem (ea addr p) = casCell vm (p.regs nv) ∧
      (exchange = false → s'.regs res = 1) ∧
      (exchange = true → s'.zf = true) := by
  obtain ⟨f, rfl⟩ : ∃ f, fuel = f + 1 := ⟨fuel - 1, by omega⟩
  obtain ⟨q, hrun, _, hB, _⟩ := cmpxchg_oop_run vm rt f res newval nv tmp1 tmp2 addr exchange
    encode s p hcas hp hnv hregs haddr
  obtain ⟨b1, b2, _, b4⟩ := hB hstale (by simpa [resolveRead, hrb] using hsame)
  refine ⟨_, hrun, ?_, ?_, ?_, ?_⟩
  · cases exchange
    · simpa [movzbl, setb_equal, setReg] using b4
    · simpa using b4
  · cases exchange
    · simp [done_mem, b2]
    · simp [b2]
  · intro he
    subst he
    simp [done_regs, b1]
  · intro he
    subst he
    simpa using b1

/-- Witness for C11: on `mCasEvac`, while Evacuation is set, the stale expected
value 16 meets the to-space reference 32: two attempts, the second against 32,
and the field holds 48. -/
theorem cmpxchg_oop_stale_expected_witness :
    gcFlag vmAll vmAll.EVACUATION mCasEvac = true ∧
    ∃ s', cmpxchg_oop vmAll rtIdle 1 rbx ⟨rcx, noreg, 1, 0⟩ rax rdx false false r8 r9 mCasEvac
        = some s' ∧
      casAttempts s'.trace = [(100, 16, 48, false), (100, 32, 48, true)] ∧
      s'.mem 100 = 48 ∧ s'.regs rbx = 1 := by
  refine ⟨by decide, ?_⟩
  obtain ⟨s', h1, h2, h3, h4, _⟩ := cmpxchg_oop_stale_expected vmAll rtIdle 1 rbx rdx rdx r8 r9
    ⟨rcx, noreg, 1, 0⟩ false false mCasEvac mCasEvac (by decide) rfl rfl rfl rfl (by decide)
    (by decide) (by decide) (by decide)
  exact ⟨s', h1, h2, h3, h4 rfl⟩

/-- C12: in a sequential execution, `cmpxchg_oop` with `exchange = true`
returns with the witnessed old value in the old-value register `rax`: the word
the address held when the hardware compare-and-swap was first tried (its low 32
bits under compressed references).  With the CAS barrier enabled, `p` being the
state of that first attempt: this holds when the swap succeeds at once (`rax`
keeps the expected value, which matches the word), when it succeeds after the
forwarding retry and when it fails with a genuine mismatch (`rax` then holds
the word itself); the zero flag tells success, on success the address holds the
new value, on failure memory is as in `p`.  With the CAS barrier disabled the
plain compare-and-swap of the base assembler leaves the same in `rax`. -/
theorem cmpxchg_oop_exchange_witnessed (vm : VM) (rt : Runtime) (fuel : Nat)
    (res newval nv tmp1 tmp2 : Register) (addr : Address) (encode : Bool) (s p : Machine)
    (hfuel : 1 ≤ fuel)
    (hp : cmpxchg_prologue vm rt rax newval encode tmp1 tmp2 s = p)
    (hnv : cmpxchg_newval vm newval encode = nv)
    (hregs : tmp1 ≠ rax ∧ tmp2 ≠ rax ∧ tmp1 ≠ tmp2 ∧ nv ≠ rax ∧ nv ≠ tmp1 ∧ nv ≠ tmp2)
    (haddr : addr.base ≠ rax ∧ addr.base ≠ tmp1 ∧ addr.base ≠ tmp2 ∧
      addr.index ≠ rax ∧ addr.index ≠ tmp1 ∧ addr.index ≠ tmp2)
    (hscratch : vm.ShenandoahCASBarrier = false →
      addr.base ≠ rscratch1 ∧ addr.index ≠ rscratch1) :
    (vm.ShenandoahCASBarrier = true →
      ∃ s', cmpxchg_oop vm rt fuel res addr rax newval true encode tmp1 tmp2 s = some s' ∧
        casCell vm (s'.regs rax) = casCell vm (p.mem (ea addr p)) ∧
        (casCell vm (p.regs rax) ≠ casCell vm (p.mem (ea addr p)) →
          s'.regs rax = casCell vm (p.mem (ea addr p))) ∧
        (s'.zf = true ↔ resolveRead vm p.mem (casOop vm (p.regs rax)) =
          resolveRead vm p.mem (casOop vm (p.mem (ea addr p)))) ∧
        (s'.zf = true → s'.mem (ea addr p) = casCell vm (p.regs nv)) ∧
        (s'.zf = false → s'.mem = p.mem)) ∧
    (vm.ShenandoahCASBarrier = false →
      ∃ s', cmpxchg_oop vm rt fuel res addr rax newval true encode tmp1 tmp2 s = some s' ∧
        casCell vm (s'.regs rax) = casCell vm (s.mem (ea addr s))) := by
  refine ⟨fun hcas => ?_, fun hoff => ?_⟩
  · obtain ⟨f, rfl⟩ : ∃ f, fuel = f + 1 := ⟨fuel - 1, by omega⟩
    obtain ⟨q, hrun, hA, hB, hC⟩ := cmpxchg_oop_run vm rt f res newval nv tmp1 tmp2 addr true
      encode s p hcas hp hnv hregs haddr
    refine ⟨q, by simpa using hrun, ?_⟩
    by_cases hev : casCell vm (p.regs rax) = casCell vm (p.mem (ea addr p))
    · obtain ⟨b1, b2, b3, _⟩ := hA hev
      have hr : resolveRead vm p.mem (casOop vm (p.regs rax)) =
          resolveRead vm p.mem (casOop vm (p.mem (ea addr p))) := by
        rw [casOop_congr vm _ _ hev]
      refine ⟨by rw [b3, hev], fun h => absurd hev h, ?_, ?_, ?_⟩
      · simp [b1, hr]
      · intro _; simp [b2]
      · intro h; rw [b1] at h; cases h
    · by_cases hres : resolveRead vm p.mem (casOop vm (p.regs rax)) =
          resolveRead vm p.mem (casOop vm (p.mem (ea addr p)))
      · obtain ⟨b1, b2, b3, _⟩ := hB hev hres
        refine ⟨by rw [b3, casCell_idem], fun _ => b3, ?_, ?_, ?_⟩
        · simp [b1, hres]
        · intro _; simp [b2]
        · intro h; rw [b1] at h; cases h
      · obtain ⟨b1, b2, b3, _⟩ := hC hev hres
        refine ⟨by rw [b3, casCell_idem], fun _ => b3, ?_, ?_, ?_⟩
        · simp [b1, hres]
        · intro h; rw [b1] at h; cases h
        · intro _; exact b2
  · obtain ⟨a1, _, _, a4, _, _⟩ := haddr
    obtain ⟨c1, c2⟩ := hscratch hoff
    have c1' : addr.base ≠ r10 := c1
    have c2' : addr.index ≠ r10 := c2
    refine ⟨BarrierSetAssembler.cmpxchg_oop vm res addr rax newval true encode s,
      by simp [cmpxchg_oop, hoff], ?_⟩
    cases hc : vm.UseCompressedOops <;> cases encode <;>
      simp only [BarrierSetAssembler.cmpxchg_oop, hc, Bool.false_eq_true, if_false, if_true,
        Bool.not_true, cmpxchgptr, cmpxchgl, casCell] <;>
      split_ifs with h <;>
      simp_all [setReg, ea, encode_heap_oop, movptr_rr, rscratch1]

/-- Witness for C12: on `mCasEvac` the exchange form returns the witnessed
word 32 in `rax` (the expected value was 16), with the swap done after the
forwarding retry. -/
theorem cmpxchg_oop_exchange_witnessed_witness :
    ∃ s', cmpxchg_oop vmAll rtIdle 1 rbx ⟨rcx, noreg, 1, 0⟩ rax rdx true false r8 r9 mCasEvac
        = some s' ∧ s'.regs rax = 32 ∧ s'.zf = true ∧ s'.mem 100 = 48 := by
  obtain ⟨s', h1, _, h3, h4, h5, _⟩ := (cmpxchg_oop_exchange_witnessed vmAll rtIdle 1 rbx rdx rdx
    r8 r9 ⟨rcx, noreg, 1, 0⟩ false mCasEvac mCasEvac (by decide) rfl rfl (by decide) (by decide)
    (fun h => absurd h (by decide))).1 rfl
  have hz : s'.zf = true := h4.mpr (by decide)
  exact ⟨s', h1, h3 (by decide), hz, h5 hz⟩

/-- Counterexample to C14 as stated: the expected value is the to-space
reference 32 and the field holds the stale reference 16 of the same object.
The first attempt fails, both sides resolve to 32, and the retried attempt
compares the field against 16, the witness, not against `resolve 32 = 32`. -/
theorem cmpxchg_oop_retry_not_resolved :
    mCasStale.regs rax = 32 ∧ mCasStale.mem 100 = 16 ∧
    resolve vmAll mCasStale.mem 32 = 32 ∧ resolve vmAll mCasStale.mem 16 = 32 ∧
    (cmpxchg_oop vmAll rtIdle 1 rbx ⟨rcx, noreg, 1, 0⟩ rax rdx false false r8 r9 mCasStale).map
      (fun s' => casAttempts s'.trace) = some [(100, 32, 48, false), (100, 16, 48, true)] := by
  decide

/-- C14 (amended): with the CAS barrier and the read barrier enabled, when the
first hardware compare-and-swap of `cmpxchg_oop` fails while the expected value
and the witnessed value resolve to the same reference, the retried attempt
compares the memory content against the witnessed word, which the failed
attempt left in `rax` and which resolves as the expected value does; in a
sequential execution it succeeds.  Every attempt of the loop at `retry`, from
whatever state `t` it is entered, compares against the content of `rax`; a
failed attempt leaves the word it read in `rax` and that word's resolution in
`tmp2`, and the loop goes round exactly when `tmp2` equals `tmp1`, the resolved
expected value. -/
theorem cmpxchg_oop_retry_against_witness (vm : VM) (rt : Runtime) (fuel : Nat)
    (res newval nv tmp1 tmp2 : Register) (addr : Address) (exchange encode : Bool)
    (s p : Machine)
    (hfuel : 1 ≤ fuel)
    (hcas : vm.ShenandoahCASBarrier = true) (hrb : vm.ShenandoahReadBarrier = true)
    (hp : cmpxchg_prologue vm rt rax newval encode tmp1 tmp2 s = p)
    (hnv : cmpxchg_newval vm newval encode = nv)
    (hregs : tmp1 ≠ rax ∧ tmp2 ≠ rax ∧ tmp1 ≠ tmp2 ∧ nv ≠ rax ∧ nv ≠ tmp1 ∧ nv ≠ tmp2)
    (haddr : addr.base ≠ rax ∧ addr.base ≠ tmp1 ∧ addr.base ≠ tmp2 ∧
      addr.index ≠ rax ∧ addr.index ≠ tmp1 ∧ addr.index ≠ tmp2)
    (hmiss : casCell vm (p.regs rax) ≠ casCell vm (p.mem (ea addr p)))
    (hsame : resolve vm p.mem (casOop vm (p.regs rax)) =
      resolve vm p.mem (casOop vm (p.mem (ea addr p)))) :
    (∃ s', cmpxchg_oop vm rt fuel res addr rax newval exchange encode tmp1 tmp2 s = some s' ∧
      casAttempts s'.trace = casAttempts p.trace ++
        [(ea addr p, casCell vm (p.regs rax), casCell vm (p.regs nv), false),
         (ea addr p, casCell vm (p.mem (ea addr p)), casCell vm (p.regs nv), true)]) ∧
    (∀ (g : Nat) (t : Machine),
      (casCell vm (t.regs rax) = casCell vm (t.mem (ea addr t)) →
        cmpxchg_retry vm addr rax nv tmp1 tmp2 (g + 1) t = some (cmpxchg_hw vm nv addr t) ∧
        casAttempts (cmpxchg_hw vm nv addr t).trace = casAttempts t.trace ++
          [(ea addr t, casCell vm (t.regs rax), casCell vm (t.regs nv), true)]) ∧
      (casCell vm (t.regs rax) ≠ casCell vm (t.mem (ea addr t)) →
        ∃ t', t'.regs rax = casCell vm (t.mem (ea addr t)) ∧
          t'.regs tmp2 = resolve vm t.mem (casOop vm (t.mem (ea addr t))) ∧
          t'.regs tmp1 = t.regs tmp1 ∧ t'.regs nv = t.regs nv ∧ t'.mem = t.mem ∧
          ea addr t' = ea addr t ∧
          casAttempts t'.trace = casAttempts t.trace ++
            [(ea addr t, casCell vm (t.regs rax), casCell vm (t.regs nv), false)] ∧
          cmpxchg_retry vm addr rax nv tmp1 tmp2 (g + 1) t =
            if t.regs tmp1 = t'.regs tmp2 then cmpxchg_retry vm addr rax nv tmp1 tmp2 g t'
            else some t')) := by
  refine ⟨?_, ?_⟩
  · obtain ⟨f, rfl⟩ : ∃ f, fuel = f + 1 := ⟨fuel - 1, by omega⟩
    obtain ⟨q, hrun, _, hB, _⟩ := cmpxchg_oop_run vm rt f res newval nv tmp1 tmp2 addr exchange
      encode s p hcas hp hnv hregs haddr
    obtain ⟨_, _, _, b4⟩ := hB hmiss (by simpa [resolveRead, hrb] using hsame)
    refine ⟨_, hrun, ?_⟩
    cases exchange
    · simpa [movzbl, setb_equal, setReg] using b4
    · simpa using b4
  · obtain ⟨h1, h2, h3, h4, h5, h6⟩ := hregs
    obtain ⟨a1, a2, a3, a4, a5, a6⟩ := haddr
    intro g t
    refine ⟨fun hhit => ?_, fun hm => ?_⟩
    · refine ⟨cmpxchg_retry_hit vm addr rax nv tmp1 tmp2 g t hhit, ?_⟩
      rw [cmpxchg_hw_hit vm nv addr t hhit]
      simp only [casAttempts_append, casAttempts]
    · have hmiss' := cmpxchg_hw_miss vm nv addr t hm
      obtain ⟨w1, w2, w3⟩ := cmpxchg_witness_spec vm rax tmp2 (cmpxchg_hw vm nv addr t)
      have hr : (cmpxchg_hw vm nv addr t).regs =
          fun x => if x = rax then casCell vm (t.mem (ea addr t)) else t.regs x := by
        rw [hmiss']; rfl
      have hm2 : (cmpxchg_hw vm nv addr t).mem = t.mem := by rw [hmiss']; rfl
      have hz2 : (cmpxchg_hw vm nv addr t).zf = false := by rw [hmiss']
      have ht2 : casAttempts (cmpxchg_hw vm nv addr t).trace = casAttempts t.trace ++
          [(ea addr t, casCell vm (t.regs rax), casCell vm (t.regs nv), false)] := by
        rw [hmiss']; simp only [setReg, casAttempts_append, casAttempts]
      have hW2 : (cmpxchg_witness vm rax tmp2 (cmpxchg_hw vm nv addr t)).regs tmp2 =
          resolve vm t.mem (casOop vm (t.mem (ea addr t))) := by
        rw [w1, hr, hm2]; simp [resolveRead, hrb, casOop_casCell]
      have hW1 : (cmpxchg_witness vm rax tmp2 (cmpxchg_hw vm nv addr t)).regs tmp1 =
          t.regs tmp1 := by
        rw [w1, hr]; simp [h3, h1]
      refine ⟨cmpptr_rr tmp1 tmp2 (cmpxchg_witness vm rax tmp2 (cmpxchg_hw vm nv addr t)),
        ?_, hW2, hW1, ?_, ?_, ?_, ?_, ?_⟩
      · simp [cmpptr_rr, w1, hr, Ne.symm h2]
      · simp [cmpptr_rr, w1, hr, h6, h4]
      · simp [cmpptr_rr, w2, hm2]
      · exact ea_congr addr t _ (by simp [cmpptr_rr, w1, hr, a1, a3])
          (by simp [cmpptr_rr, w1, hr, a4, a6])
      · simp only [cmpptr_rr, w3, ht2]
      · have hzc : (cmpptr_rr tmp1 tmp2
            (cmpxchg_witness vm rax tmp2 (cmpxchg_hw vm nv addr t))).zf =
            decide (t.regs tmp1 = resolve vm t.mem (casOop vm (t.mem (ea addr t)))) := by
          simp only [cmpptr_rr, hW1, hW2]
        have hreg2 : (cmpptr_rr tmp1 tmp2
            (cmpxchg_witness vm rax tmp2 (cmpxchg_hw vm nv addr t))).regs tmp2 =
            resolve vm t.mem (casOop vm (t.mem (ea addr t))) := hW2
        rw [hreg2]
        simp only [cmpxchg_retry, hz2, Bool.false_eq_true, if_false, hzc, decide_eq_true_eq]

/-- Witness for C14: on `mCasStale` the retried attempt compares against 16,
the witness, and succeeds. -/
theorem cmpxchg_oop_retry_against_witness_witness :
    ∃ s', cmpxchg_oop vmAll rtIdle 1 rbx ⟨rcx, noreg, 1, 0⟩ rax rdx false false r8 r9 mCasStale
        = some s' ∧
      casAttempts s'.trace = [(100, 32, 48, false), (100, 16, 48, true)] := by
  obtain ⟨s', h1, h2⟩ := (cmpxchg_oop_retry_against_witness vmAll rtIdle 1 rbx rdx rdx r8 r9
    ⟨rcx, noreg, 1, 0⟩ false false mCasStale mCasStale (by decide) rfl rfl rfl rfl (by decide)
    (by decide) (by decide) (by decide)).1
  exact ⟨s', h1, h2⟩

/-- Counterexample to C17 as stated: with the enqueue store-value barrier on and
the new value in the second argument register `rsi`, `cmpxchg_oop` with
`encode` set runs the store-value barrier on a copy in `tmp2` and stores the
caller's value itself.  The new value 16 has the forwarded copy 32, which is
what the store-value barrier makes of it; the swap succeeds and the field holds
16. -/
theorem cmpxchg_oop_drops_barrier :
    vmAll.ShenandoahStoreValEnqueueBarrier = true ∧ vmAll.c_rarg1 = rsi ∧
    mCasArg.regs rsi = 16 ∧ resolve vmAll mCasArg.mem 16 = 32 ∧
    (storeval_barrier vmAll rtIdle rsi r8 mCasArg).regs rsi = 32 ∧
    (cmpxchg_oop vmAll rtIdle 1 rbx ⟨rcx, noreg, 1, 0⟩ rax rsi false true r8 r9 mCasArg).map
      (fun s' => (s'.regs rbx, s'.mem 100)) = some (1, 16) := by
  decide

/-- C17 (what the code does): `cmpxchg_oop` with `encode` set and the CAS
barrier enabled installs, when the swap succeeds, the content that the register
`newval` has after the store-value barrier of the opening (its encoding under
compressed references).  When the barrier is applied to `newval` itself this is
the barrier's result; when `newval` is the second argument register and the
enqueue mode is on, the barrier is applied to a copy in `tmp2` and what is
installed is what that leaves in `newval`. -/
theorem cmpxchg_oop_installs (vm : VM) (rt : Runtime) (fuel : Nat)
    (res newval nv tmp1 tmp2 : Register) (addr : Address) (exchange : Bool) (s p : Machine)
    (hfuel : 1 ≤ fuel)
    (hcas : vm.ShenandoahCASBarrier = true)
    (hp : cmpxchg_prologue vm rt rax newval true tmp1 tmp2 s = p)
    (hnv : cmpxchg_newval vm newval true = nv)
    (hregs : tmp1 ≠ rax ∧ tmp2 ≠ rax ∧ tmp1 ≠ tmp2 ∧ nv ≠ rax ∧ nv ≠ tmp1 ∧ nv ≠ tmp2)
    (haddr : addr.base ≠ rax ∧ addr.base ≠ tmp1 ∧ addr.base ≠ tmp2 ∧
      addr.index ≠ rax ∧ addr.index ≠ tmp1 ∧ addr.index ≠ tmp2)
    (hnr : newval ≠ rax) :
    ∃ s', cmpxchg_oop vm rt fuel res addr rax newval exchange true tmp1 tmp2 s = some s' ∧
      ((exchange = false ∧ s'.regs res = 1) ∨ (exchange = true ∧ s'.zf = true) →
        (¬ (newval = vm.c_rarg1 ∧ vm.ShenandoahStoreValEnqueueBarrier = true) →
          s'.mem (ea addr p) = casCell vm
            (if vm.UseCompressedOops
              then vm.encode ((storeval_barrier vm rt newval tmp1 s).regs newval)
              else (storeval_barrier vm rt newval tmp1 s).regs newval)) ∧
        (newval = vm.c_rarg1 ∧ vm.ShenandoahStoreValEnqueueBarrier = true →
          s'.mem (ea addr p) = casCell vm
            (if vm.UseCompressedOops
              then vm.encode
                ((storeval_barrier vm rt tmp2 tmp1 (movptr_rr tmp2 newval s)).regs newval)
              else (storeval_barrier vm rt tmp2 tmp1 (movptr_rr tmp2 newval s)).regs newval))) := by
  obtain ⟨f, rfl⟩ : ∃ f, fuel = f + 1 := ⟨fuel - 1, by omega⟩
  obtain ⟨q, hrun, hA, hB, hC⟩ := cmpxchg_oop_run vm rt f res newval nv tmp1 tmp2 addr exchange
    true s p hcas hp hnv hregs haddr
  have hq : q.zf = true → q.mem (ea addr p) = casCell vm (p.regs nv) := by
    intro hz
    by_cases hev : casCell vm (p.regs rax) = casCell vm (p.mem (ea addr p))
    · rw [(hA hev).2.1]; simp
    · by_cases hres : resolveRead vm p.mem (casOop vm (p.regs rax)) =
          resolveRead vm p.mem (casOop vm (p.mem (ea addr p)))
      · rw [(hB hev hres).2.1]; simp
      · rw [(hC hev hres).1] at hz; cases hz
  have hpn : p.regs nv =
      (if vm.UseCompressedOops then vm.encode
        ((if newval = vm.c_rarg1 ∧ vm.ShenandoahStoreValEnqueueBarrier = true
          then storeval_barrier vm rt tmp2 tmp1 (movptr_rr tmp2 newval s)
          else storeval_barrier vm rt newval tmp1 s).regs newval)
       else (if newval = vm.c_rarg1 ∧ vm.ShenandoahStoreValEnqueueBarrier = true
          then storeval_barrier vm rt tmp2 tmp1 (movptr_rr tmp2 newval s)
          else storeval_barrier vm rt newval tmp1 s).regs newval) := by
    rw [← hp, ← hnv]
    cases hc : vm.UseCompressedOops <;>
      simp [cmpxchg_prologue, cmpxchg_newval, hc, encode_heap_oop, movptr_rr, setReg, hnr]
  refine ⟨_, hrun, ?_⟩
  intro hs
  have hz : q.zf = true := by
    rcases hs with ⟨he, h1⟩ | ⟨he, h1⟩
    · subst he
      simp only [Bool.not_false, if_true, done_regs] at h1
      by_contra hz
      simp [hz] at h1
    · subst he
      simpa using h1
  have hm : (if (!exchange) = true then movzbl res res (setb_equal res q) else q).mem
      (ea addr p) = casCell vm (p.regs nv) := by
    cases exchange
    · simpa [done_mem] using hq hz
    · simpa using hq hz
  rw [hm, hpn]
  refine ⟨fun h => by simp only [h, if_false], fun h => by simp only [h, and_self, if_true]⟩

/-- Witness for C17: with the new value 16 in `rdx` the store-value barrier is
applied in place and the field receives 32, its forwarded copy. -/
theorem cmpxchg_oop_installs_witness :
    ∃ s', cmpxchg_oop vmAll rtIdle 1 rbx ⟨rcx, noreg, 1, 0⟩ rax rdx false true r8 r9
        mCasVal = some s' ∧ s'.regs rbx = 1 ∧ s'.mem 100 = 32 := by
  obtain ⟨s', h1, h2⟩ := cmpxchg_oop_installs vmAll rtIdle 1 rbx rdx rdx r8 r9
    ⟨rcx, noreg, 1, 0⟩ false mCasVal (cmpxchg_prologue vmAll rtIdle rax rdx true r8 r9 mCasVal)
    (by decide) rfl rfl rfl (by decide) (by decide) (by decide)
  have hres : s'.regs rbx = 1 := by
    have : (cmpxchg_oop vmAll rtIdle 1 rbx ⟨rcx, noreg, 1, 0⟩ rax rdx false true r8 r9
        mCasVal).map (fun t => t.regs rbx) = some 1 := by decide
    rw [h1] at this
    simpa using this
  have hm := (h2 (Or.inl ⟨rfl, hres⟩)).1 (by decide)
  refine ⟨s', h1, hres, ?_⟩
  have e1 : ea ⟨rcx, noreg, 1, 0⟩ (cmpxchg_prologue vmAll rtIdle rax rdx true r8 r9 mCasVal) =
      100 := by decide
  rw [e1] at hm
  rw [hm]
  decide

theorem savedAround_trace_grows (c : Prop) [Decidable c] (r : Register) (f : Machine → Machine)
    (hf : ∀ t, t.trace <+: (f t).trace) (t : Machine) :
    t.trace <+: (savedAround c r f t).trace := by
  by_cases h : c
  · simpa [savedAround, h, pop, push, setReg] using hf (push r t)
  · simpa [savedAround, h] using hf t

theorem stores_extends (a b : List Event) (h : a <+: b) :
    ∃ R, stores b = stores a ++ R := by
  obtain ⟨l, rfl⟩ := h
  exact ⟨stores l, stores_append a l⟩

/-- The slow path of `write_barrier_impl` only adds to the trace. -/
theorem write_barrier_slow_trace_grows (vm : VM) (rt : Runtime) (dst : Register)
    (s : Machine) : s.trace <+: (write_barrier_slow vm rt dst s).trace := by
  let f0 : Machine → Machine := fun t =>
    pop_xmm0 (movptr_rr rscratch1 rax
      (super_call_VM_leaf vm rt Entry.write_barrier_IRT dst (push_xmm0 t)))
  have heq : write_barrier_slow vm rt dst s =
      pop rscratch1 (movptr_rr dst rscratch1
        (savedAround (dst ≠ rax) rax (savedAround (dst ≠ rbx) rbx (savedAround (dst ≠ rcx) rcx
          (savedAround (dst ≠ rdx) rdx (savedAround (dst ≠ vm.c_rarg1) vm.c_rarg1 f0))))
          (push rscratch1 s))) := rfl
  have h0 : ∀ t, t.trace <+: (f0 t).trace := by
    intro t
    by_cases h : vm.c_rarg0 = dst <;>
      simp [f0, pop_xmm0, movptr_rr, setReg, super_call_VM_leaf, call_VM_leaf_base, push_xmm0, h]
  have h1 := savedAround_trace_grows (dst ≠ vm.c_rarg1) vm.c_rarg1 f0 h0
  have h2 := savedAround_trace_grows (dst ≠ rdx) rdx _ h1
  have h3 := savedAround_trace_grows (dst ≠ rcx) rcx _ h2
  have h4 := savedAround_trace_grows (dst ≠ rbx) rbx _ h3
  have h5 := savedAround_trace_grows (dst ≠ rax) rax _ h4 (push rscratch1 s)
  rw [heq]
  exact h5

/-- The write barrier only adds to the trace. -/
theorem write_barrier_impl_trace_grows (vm : VM) (rt : Runtime) (dst : Register)
    (s : Machine) : s.trace <+: (write_barrier_impl vm rt dst s).trace := by
  simp only [write_barrier_impl]
  generalize hA : read_barrier_not_null vm dst
    (testb_mi (Address.mk2 r15_thread vm.gc_state_offset) (vm.EVACUATION ||| vm.TRAVERSAL) s) = A
  have hAt : s.trace <+: A.trace := by
    rw [← hA]
    cases hr : vm.ShenandoahReadBarrier <;>
      simp [read_barrier_not_null, hr, read_barrier_not_null_impl, movptr_rm, readMem, setReg,
        testb_mi]
  clear hA
  split_ifs
  · exact hAt
  · rw [write_barrier_cset_test_eq]
    exact hAt.trans (by simp)
  · refine hAt.trans (List.IsPrefix.trans ?_ (write_barrier_slow_trace_grows vm rt dst _))
    rw [write_barrier_cset_test_eq]
    simp

/-- The SATB pre-write barrier only adds to the trace. -/
theorem satb_write_barrier_pre_trace_grows (vm : VM) (rt : Runtime)
    (obj pre_val thread tmp : Register) (tosca_live expand_call : Bool) (s : Machine) :
    s.trace <+: (satb_write_barrier_pre vm rt obj pre_val thread tmp tosca_live expand_call
      s).trace := by
  let C : Machine → Machine := fun s =>
    if expand_call then
      call_VM_leaf_base vm rt Entry.g1_wb_pre 2
        (if vm.c_rarg0 ≠ pre_val then movptr_rr vm.c_rarg0 pre_val
          (if vm.c_rarg1 ≠ thread then movptr_rr vm.c_rarg1 thread s else s)
        else (if vm.c_rarg1 ≠ thread then movptr_rr vm.c_rarg1 thread s else s))
    else call_VM_leaf2 vm rt Entry.g1_wb_pre pre_val thread s
  have hslow : ∀ X, X.trace <+:
      (satb_enqueue_slow vm rt obj pre_val thread tosca_live expand_call X).trace := by
    intro X
    have heq : satb_enqueue_slow vm rt obj pre_val thread tosca_live expand_call X =
        savedAround (tosca_live = true) rax (savedAround (obj ≠ noreg ∧ obj ≠ rax) obj
          (savedAround (pre_val ≠ rax) pre_val C)) X := rfl
    have h0 : ∀ t, t.trace <+: (C t).trace := by
      intro t
      simp only [C, call_VM_leaf2, call_VM_leaf_base]
      split_ifs <;> simp [movptr_rr, setReg]
    rw [heq]
    exact savedAround_trace_grows _ _ _ (savedAround_trace_grows _ _ _
      (savedAround_trace_grows _ _ _ h0)) X
  simp only [satb_write_barrier_pre]
  generalize hL : (if obj ≠ noreg then load_heap_oop vm pre_val (Address.mk2 obj 0)
      (testb_mi (Address.mk2 thread vm.gc_state_offset) (vm.MARKING ||| vm.TRAVERSAL) s)
    else testb_mi (Address.mk2 thread vm.gc_state_offset) (vm.MARKING ||| vm.TRAVERSAL) s) = L
  have hLt : s.trace <+: L.trace := by
    rw [← hL]
    cases hc : vm.UseCompressedOops <;> split_ifs <;>
      simp [load_heap_oop, hc, decode_heap_oop, movl_rm, movptr_rm, readMem, setReg, testb_mi]
  clear hL
  generalize hX : cmpptr_ri tmp 0 (movptr_rm tmp
    (Address.mk2 thread vm.satb_mark_queue_index_offset) (cmpptr_ri pre_val 0 L)) = X
  have hXt : L.trace <+: X.trace := by
    rw [← hX]; simp [cmpptr_ri, movptr_rm, readMem, setReg]
  clear hX
  split_ifs
  · simp [testb_mi, readMem]
  · simpa [cmpptr_ri] using hLt
  · exact hLt.trans (hXt.trans (hslow X))
  · refine hLt.trans (hXt.trans ?_)
    simp [satb_enqueue_fast, subptr_ri, movptr_mr, addptr_rm, readMem, writeMem, setReg]

/-- The store-value barrier only adds to the trace. -/
theorem storeval_barrier_trace_grows (vm : VM) (rt : Runtime) (dst tmp : Register)
    (s : Machine) : s.trace <+: (storeval_barrier vm rt dst tmp s).trace := by
  have hrd : ∀ t : Machine, t.trace <+: (read_barrier_impl vm dst t).trace := by
    intro t
    simp only [read_barrier_impl]
    split_ifs <;> simp [testptr, read_barrier_not_null_impl, movptr_rm, readMem, setReg]
  have henq : s.trace <+: (popa (pop_xmm0 (satb_write_barrier_pre vm rt noreg dst r15_thread
      tmp true false (push_xmm0 (pusha (if (testptr dst dst s).zf = true then testptr dst dst s
        else write_barrier_impl vm rt dst (testptr dst dst s))))))).trace := by
    generalize hW : (if (testptr dst dst s).zf = true then testptr dst dst s
      else write_barrier_impl vm rt dst (testptr dst dst s)) = Wb
    have hWt : s.trace <+: Wb.trace := by
      rw [← hW]; split_ifs
      · exact List.prefix_refl _
      · exact write_barrier_impl_trace_grows vm rt dst (testptr dst dst s)
    exact hWt.trans (satb_write_barrier_pre_trace_grows vm rt noreg dst r15_thread tmp true false
      (push_xmm0 (pusha Wb)))
  by_cases hn : dst = noreg
  · simp only [storeval_barrier, storeval_barrier_impl, hn, if_true, ite_self]
    exact List.prefix_refl _
  · cases hR : vm.ShenandoahStoreValReadBarrier <;>
      cases hE : vm.ShenandoahStoreValEnqueueBarrier <;>
      simp only [storeval_barrier, storeval_barrier_impl, hn, hR, hE, if_true, if_false,
        Bool.or_false, Bool.or_true, Bool.false_eq_true]
    · exact List.prefix_refl _
    · exact henq
    · exact hrd s
    · exact henq.trans (hrd _)

/-- With neither Marking nor Traversal set the SATB pre-write barrier stops at
its phase test. -/
theorem satb_write_barrier_pre_idle (vm : VM) (rt : Runtime) (obj pre_val tmp : Register)
    (tosca_live expand_call : Bool) (s : Machine)
    (hidle : (gcFlag vm vm.MARKING s || gcFlag vm vm.TRAVERSAL s) = false) :
    satb_write_barrier_pre vm rt obj pre_val r15_thread tmp tosca_live expand_call s =
      testb_mi (Address.mk2 r15_thread vm.gc_state_offset) (vm.MARKING ||| vm.TRAVERSAL) s := by
  have hz := testb_gc_state_zf vm vm.MARKING vm.TRAVERSAL s
  rw [hidle] at hz
  simp only [satb_write_barrier_pre, hz, Bool.not_false, if_true]

/-- The raw load of the base assembler reads: memory, pool, calls and writes
are as before. -/
theorem raw_load_reads (vm : VM) (ld : DecoratorSet) (type : BasicType) (dst : Register)
    (src : Address) (s : Machine) :
    (BarrierSetAssembler.load_at vm ld type dst src s).mem = s.mem ∧
    (BarrierSetAssembler.load_at vm ld type dst src s).pool = s.pool ∧
    upcalls (BarrierSetAssembler.load_at vm ld type dst src s).trace = upcalls s.trace ∧
    stores (BarrierSetAssembler.load_at vm ld type dst src s).trace = stores s.trace := by
  cases type <;> cases hh : ld.IN_HEAP <;> cases hc : vm.UseCompressedOops <;>
    simp [BarrierSetAssembler.load_at, hh, hc, decode_heap_oop, movl_rm, movptr_rm, readMem,
      setReg, upcalls_append, upcalls, stores_append, stores]

/-- The forwarding load on the base reads: memory, pool, calls and writes are
as before. -/
theorem read_barrier_not_null_reads (vm : VM) (r : Register) (s : Machine) :
    (read_barrier_not_null vm r s).mem = s.mem ∧
    (read_barrier_not_null vm r s).pool = s.pool ∧
    upcalls (read_barrier_not_null vm r s).trace = upcalls s.trace ∧
    stores (read_barrier_not_null vm r s).trace = stores s.trace := by
  cases hr : vm.ShenandoahReadBarrier <;>
    simp [read_barrier_not_null, hr, read_barrier_not_null_impl, movptr_rm, readMem, setReg,
      upcalls_append, upcalls, stores_append, stores]

/-- Counterexample to C15 as stated: with the read barrier disabled the base of
a heap load is not resolved.  The object at 64 has been copied to 128; the load
of its field at offset 8 returns 16, the content in the stale copy, not 32, the
content read through the resolved base. -/
theorem load_at_unresolved_base :
    vmNoRead.ShenandoahReadBarrier = false ∧
    mLoad.regs rcx = 64 ∧ resolve vmNoRead mLoad.mem 64 = 128 ∧
    mLoad.mem (128 + 8) = 32 ∧
    (load_at vmNoRead rtIdle { IN_HEAP := true } BasicType.T_OBJECT rax ⟨rcx, noreg, 1, 8⟩ rdx
      mLoad).regs rax = 16 := by
  decide

/-- C15 (amended): `load_at` logs the loaded value exactly when `loadLogs`
holds.  With `B` the state after the barrier on the base and `L` the state
after the raw load: the load itself changes neither memory nor pool and makes
no call; when `loadLogs` holds the value in `dst` goes to the thread's SATB
buffer (index lowered by a word, value in the slot at the new index, no call)
if the index is non-zero, and to the slow-path call `g1_wb_pre(value, thread)`
otherwise; in every other case memory (buffer and index included) and pool are
unchanged and no call is made.  The value returned is the one loaded; for a
heap field it is read through the base register as the barrier left it: for a
reference, `casOop` of the word at `ea src B`, where the base holds its
forwarding word when the read barrier is enabled and is untouched when it is
disabled; no relocation call is made. -/
theorem load_at_logs (vm : VM) (rt : Runtime) (ld : DecoratorSet) (type : BasicType)
    (dst tmp1 : Register) (src : Address) (s B L : Machine)
    (hB : (if ld.IN_HEAP then read_barrier_not_null vm src.base s else s) = B)
    (hL : BarrierSetAssembler.load_at vm ld type dst src B = L)
    (hregs : tmp1 ≠ dst ∧ tmp1 ≠ r15_thread ∧ dst ≠ noreg ∧ dst ≠ r15_thread ∧
      dst ≠ vm.c_rarg1 ∧ vm.c_rarg0 ≠ vm.c_rarg1 ∧ vm.c_rarg0 ≠ r15_thread)
    (hab : satbBufferAddr vm L ≠ satbIndexAddr vm L) :
    (L.mem = s.mem ∧ L.pool = s.pool ∧ upcalls L.trace = upcalls s.trace ∧
      stores L.trace = stores s.trace) ∧
    (loadLogs vm ld type dst L = true → L.mem (satbIndexAddr vm L) ≠ 0 →
      (load_at vm rt ld type dst src tmp1 s).mem =
        (fun a =>
          if a = ((L.mem (satbIndexAddr vm L) + (W - vm.wordSize % W)) % W +
              L.mem (satbBufferAddr vm L)) % W then L.regs dst
          else if a = satbIndexAddr vm L then
            (L.mem (satbIndexAddr vm L) + (W - vm.wordSize % W)) % W
          else L.mem a) ∧
      (load_at vm rt ld type dst src tmp1 s).pool = s.pool ∧
      upcalls (load_at vm rt ld type dst src tmp1 s).trace = upcalls s.trace ∧
      stores (load_at vm rt ld type dst src tmp1 s).trace = stores s.trace ++
        [(satbIndexAddr vm L, (L.mem (satbIndexAddr vm L) + (W - vm.wordSize % W)) % W),
         (((L.mem (satbIndexAddr vm L) + (W - vm.wordSize % W)) % W +
            L.mem (satbBufferAddr vm L)) % W, L.regs dst)]) ∧
    (loadLogs vm ld type dst L = true → L.mem (satbIndexAddr vm L) = 0 →
      upcalls (load_at vm rt ld type dst src tmp1 s).trace =
        upcalls s.trace ++ [(Entry.g1_wb_pre, [L.regs dst, L.regs r15_thread])] ∧
      stores (load_at vm rt ld type dst src tmp1 s).trace = stores s.trace ∧
      (load_at vm rt ld type dst src tmp1 s).mem =
        (rt Entry.g1_wb_pre [L.regs dst, L.regs r15_thread] L.mem L.pool).mem ∧
      (load_at vm rt ld type dst src tmp1 s).pool =
        (rt Entry.g1_wb_pre [L.regs dst, L.regs r15_thread] L.mem L.pool).pool) ∧
    (loadLogs vm ld type dst L = false →
      (load_at vm rt ld type dst src tmp1 s).mem = s.mem ∧
      (load_at vm rt ld type dst src tmp1 s).pool = s.pool ∧
      upcalls (load_at vm rt ld type dst src tmp1 s).trace = upcalls s.trace ∧
      stores (load_at vm rt ld type dst src tmp1 s).trace = stores s.trace) ∧
    (load_at vm rt ld type dst src tmp1 s).regs dst = L.regs dst ∧
    ((type = BasicType.T_OBJECT ∨ type = BasicType.T_ARRAY) → ld.IN_HEAP = true →
      L.regs dst = casOop vm (s.mem (ea src B))) ∧
    (ld.IN_HEAP = true → vm.ShenandoahReadBarrier = true →
      B.regs src.base = s.mem ((s.regs src.base + vm.brooks_byte_offset) % W) ∧
      ∀ x, x ≠ src.base → B.regs x = s.regs x) ∧
    (vm.ShenandoahReadBarrier = false → B = s) := by
  obtain ⟨r1, r2, r3, r4, r5, r6, r7⟩ := hregs
  have hBs : B.mem = s.mem ∧ B.pool = s.pool ∧ upcalls B.trace = upcalls s.trace ∧
      stores B.trace = stores s.trace := by
    rw [← hB]; split_ifs
    · exact read_barrier_not_null_reads vm src.base s
    · exact ⟨rfl, rfl, rfl, rfl⟩
  obtain ⟨b1, b2, b3, b4⟩ := hBs
  obtain ⟨l1, l2, l3, l4⟩ := raw_load_reads vm ld type dst src B
  rw [hL] at l1 l2 l3 l4
  have hLs : L.mem = s.mem ∧ L.pool = s.pool ∧ upcalls L.trace = upcalls s.trace ∧
      stores L.trace = stores s.trace :=
    ⟨l1.trans b1, l2.trans b2, l3.trans b3, l4.trans b4⟩
  have hrun : load_at vm rt ld type dst src tmp1 s =
      if vm.ShenandoahKeepAliveBarrier = true ∧
          (type = BasicType.T_OBJECT ∨ type = BasicType.T_ARRAY) ∧
          (ld.ON_WEAK_OOP_REF || ld.ON_PHANTOM_OOP_REF) = true then
        shenandoah_write_barrier_pre vm rt noreg dst r15_thread tmp1 true true L
      else L := by
    simp only [load_at, hB, hL]
  refine ⟨hLs, ?_, ?_, ?_, ?_, ?_, ?_, ?_⟩
  · intro hlog hi
    simp only [loadLogs, Bool.and_eq_true, decide_eq_true_eq, Bool.or_eq_true] at hlog
    obtain ⟨⟨⟨⟨⟨h1, h2⟩, h3⟩, h4⟩, h5⟩, h6⟩ := hlog
    have hact : (gcFlag vm vm.MARKING L || gcFlag vm vm.TRAVERSAL L) = true := by
      simpa using h5
    obtain ⟨e1, e2, _, e4, e5⟩ := satb_write_barrier_pre_fast vm rt dst tmp1 true true L hact h6
      hi r1 r2 hab
    rw [hrun]
    simp only [h3, h1, h2, Bool.or_eq_true, and_self, if_true, shenandoah_write_barrier_pre, h4]
    exact ⟨e1, by rw [e2, hLs.2.1], by rw [e4, hLs.2.2.1], by rw [e5, hLs.2.2.2]⟩
  · intro hlog hi
    simp only [loadLogs, Bool.and_eq_true, decide_eq_true_eq, Bool.or_eq_true] at hlog
    obtain ⟨⟨⟨⟨⟨h1, h2⟩, h3⟩, h4⟩, h5⟩, h6⟩ := hlog
    have hact : (gcFlag vm vm.MARKING L || gcFlag vm vm.TRAVERSAL L) = true := by
      simpa using h5
    obtain ⟨e1, e2, _, e4, e5⟩ := satb_write_barrier_pre_slow vm rt dst tmp1 true true L hact h6
      hi r1 r2 r4 r5 r6 r7
    rw [hrun]
    simp only [h3, h1, h2, Bool.or_eq_true, and_self, if_true, shenandoah_write_barrier_pre, h4]
    exact ⟨by rw [e4, hLs.2.2.1], by rw [e5, hLs.2.2.2], e1, e2⟩
  · intro hlog
    rw [hrun]
    by_cases hk : vm.ShenandoahKeepAliveBarrier = true ∧
        (type = BasicType.T_OBJECT ∨ type = BasicType.T_ARRAY) ∧
        (ld.ON_WEAK_OOP_REF || ld.ON_PHANTOM_OOP_REF) = true
    · simp only [hk, and_self, if_true, shenandoah_write_barrier_pre]
      cases h4 : vm.ShenandoahSATBBarrier
      · simpa using hLs
      · simp only [if_true]
        cases h5 : (gcFlag vm vm.MARKING L || gcFlag vm vm.TRAVERSAL L)
        · rw [satb_write_barrier_pre_idle vm rt noreg dst tmp1 true true L h5]
          simpa [testb_mi, readMem, upcalls_append, upcalls, stores_append, stores] using hLs
        · have h6 : L.regs dst = 0 := by
            by_contra h6
            simp [loadLogs, hk.1, hk.2.1, h4, h5, h6] at hlog
            simp [hlog] at hk
          rw [satb_write_barrier_pre_null_reg vm rt dst r15_thread tmp1 true true L h6]
          simpa [upcalls_append, upcalls, stores_append, stores] using hLs
    · simp only [hk, if_false]
      exact hLs
  · rw [hrun]
    split_ifs
    · simp only [shenandoah_write_barrier_pre]
      split_ifs
      · exact (satb_write_barrier_pre_frame vm rt noreg dst r15_thread tmp1 true true L).2 dst rfl
          r3 (Ne.symm r1) (fun h => absurd rfl h) (Or.inr (Or.inl rfl))
      · rfl
    · rfl
  · intro htype hh
    rw [← hL, ← b1]
    rcases htype with h | h <;> subst h <;> cases hc : vm.UseCompressedOops <;>
      simp [BarrierSetAssembler.load_at, hh, hc, decode_heap_oop, movl_rm, movptr_rm, readMem,
        setReg, casOop]
  · intro hh hrb
    rw [← hB]
    refine ⟨?_, ?_⟩
    · simp [hh, read_barrier_not_null, hrb, read_barrier_not_null_impl, movptr_rm, readMem,
        setReg, ea, Address.mk2]
    · intro x hx
      simp [hh, read_barrier_not_null, hrb, read_barrier_not_null_impl, movptr_rm, readMem,
        setReg, hx]
  · intro hrb
    rw [← hB]
    simp [read_barrier_not_null, hrb]

/-- Witness for C15: the weak load of the field of the object at 64 on `mLoad`
reads through the resolved base 128, returns 32 and logs it: the index goes
from 16 to 8 and 32 is written to the slot at 408. -/
theorem load_at_logs_witness :
    (load_at vmAll rtIdle { IN_HEAP := true, ON_WEAK_OOP_REF := true } BasicType.T_OBJECT rax
      ⟨rcx, noreg, 1, 8⟩ rdx mLoad).regs rax = 32 ∧
    stores (load_at vmAll rtIdle { IN_HEAP := true, ON_WEAK_OOP_REF := true }
      BasicType.T_OBJECT rax ⟨rcx, noreg, 1, 8⟩ rdx mLoad).trace = [(216, 8), (408, 32)] := by
  obtain ⟨_, hfast, _, _, hret, hval, _, _⟩ := load_at_logs vmAll rtIdle
    { IN_HEAP := true, ON_WEAK_OOP_REF := true } BasicType.T_OBJECT rax rdx ⟨rcx, noreg, 1, 8⟩
    mLoad (read_barrier_not_null vmAll rcx mLoad)
    (BarrierSetAssembler.load_at vmAll { IN_HEAP := true, ON_WEAK_OOP_REF := true }
      BasicType.T_OBJECT rax ⟨rcx, noreg, 1, 8⟩ (read_barrier_not_null vmAll rcx mLoad))
    rfl rfl (by decide) (by decide)
  refine ⟨?_, ?_⟩
  · rw [hret, hval (Or.inl rfl) rfl]; decide
  · rw [(hfast (by decide) (by decide)).2.2.2]
    decide

/-- Counterexample to C16 as stated: with `dst` in `r11` and `count` in `rdx`
(distinct registers), a plain reference array copy first saves `count` in
`r11`; the upcall then receives the count 7 as its first argument instead of
the original `dst` 500. -/
theorem arraycopy_prologue_clobbers_dst :
    mCopy.regs r11 = 500 ∧ mCopy.regs rdx = 7 ∧ satbActive vmAll mCopy ≠ 0 ∧
    upcalls (arraycopy_prologue vmAll rtIdle {} BasicType.T_OBJECT rax r11 rdx mCopy).trace =
      [(Entry.write_ref_array_pre_oop_entry, [7, 7])] := by
  decide

/-- C16 (amended): `arraycopy_prologue` with `dst` and `count` in registers that
leave `r11` to it (`dst` is not `r11` where `count` is saved there, `count` is
not `r11` where `dst` is saved there), whatever their relation to the argument
registers.  On a reference-typed array it makes the array pre-write call
exactly once, with the original `dst` and `count` as first and second
argument, if and only if the destination is not flagged uninitialised and the
thread's SATB-active flag is non-zero; otherwise, and for every other element
type, it makes no call.  Afterwards every general register but `r11` holds
what it held on entry, and `r11` holds the saved `count` or `dst`. -/
theorem arraycopy_prologue_upcall (vm : VM) (rt : Runtime) (decorators : DecoratorSet)
    (type : BasicType) (src dst count : Register) (s : Machine)
    (hcc : vm.c_rarg0 ≠ vm.c_rarg1)
    (hd11 : decorators.ARRAYCOPY_CHECKCAST = false →
      (decide (type = BasicType.T_OBJECT) && vm.UseCompressedOops) = false → dst ≠ r11)
    (hc11 : decorators.ARRAYCOPY_DISJOINT = true →
      (decide (type = BasicType.T_OBJECT) && vm.UseCompressedOops) = true → count ≠ r11) :
    ((type = BasicType.T_OBJECT ∨ type = BasicType.T_ARRAY) →
      decorators.AS_DEST_NOT_INITIALIZED = false → satbActive vm s ≠ 0 →
      upcalls (arraycopy_prologue vm rt decorators type src dst count s).trace =
        upcalls s.trace ++ [(arrayPreEntry vm, [s.regs dst, s.regs count])]) ∧
    (¬ ((type = BasicType.T_OBJECT ∨ type = BasicType.T_ARRAY) ∧
        decorators.AS_DEST_NOT_INITIALIZED = false ∧ satbActive vm s ≠ 0) →
      upcalls (arraycopy_prologue vm rt decorators type src dst count s).trace =
        upcalls s.trace) ∧
    (∀ x, x ∈ savedRegs → x ≠ r11 →
      (arraycopy_prologue vm rt decorators type src dst count s).regs x = s.regs x) ∧
    (arraycopy_prologue vm rt decorators type src dst count s).regs r11 =
      (if type = BasicType.T_OBJECT ∨ type = BasicType.T_ARRAY then
        if (!decorators.ARRAYCOPY_CHECKCAST &&
            !(decide (type = BasicType.T_OBJECT) && vm.UseCompressedOops)) = true then
          s.regs count
        else if (decorators.ARRAYCOPY_DISJOINT &&
            (decide (type = BasicType.T_OBJECT) && vm.UseCompressedOops)) = true then s.regs dst
        else s.regs r11
      else s.regs r11) := by
  by_cases htype : type = BasicType.T_OBJECT ∨ type = BasicType.T_ARRAY
  swap
  · simp [arraycopy_prologue, htype]
  simp only [arraycopy_prologue, htype, if_true]
  -- the state after the save in r11
  generalize hS : (if (!decorators.ARRAYCOPY_CHECKCAST &&
      !(decide (type = BasicType.T_OBJECT) && vm.UseCompressedOops)) = true
    then movptr_rr r11 count s
    else if (decorators.ARRAYCOPY_DISJOINT &&
      (decide (type = BasicType.T_OBJECT) && vm.UseCompressedOops)) = true
    then movptr_rr r11 dst s else s) = S0
  have hSx : ∀ x, x ≠ r11 → S0.regs x = s.regs x := by
    intro x hx; rw [← hS]; split_ifs <;> simp [movptr_rr, setReg, hx]
  have hS11 : S0.regs r11 =
      (if (!decorators.ARRAYCOPY_CHECKCAST &&
          !(decide (type = BasicType.T_OBJECT) && vm.UseCompressedOops)) = true then
        s.regs count
      else if (decorators.ARRAYCOPY_DISJOINT &&
          (decide (type = BasicType.T_OBJECT) && vm.UseCompressedOops)) = true then s.regs dst
      else s.regs r11) := by
    rw [← hS]; split_ifs <;> simp [movptr_rr, setReg]
  have hSd : S0.regs dst = s.regs dst := by
    by_cases h : dst = r11
    · rw [← hS]
      cases hck : decorators.ARRAYCOPY_CHECKCAST <;>
        cases hoi : (decide (type = BasicType.T_OBJECT) && vm.UseCompressedOops) <;>
        cases hdj : decorators.ARRAYCOPY_DISJOINT <;>
        simp [movptr_rr, setReg, h]
      · exact absurd h (hd11 hck hoi)
      · exact absurd h (hd11 hck hoi)
    · exact hSx dst h
  have hSc : S0.regs count = s.regs count := by
    by_cases h : count = r11
    · rw [← hS]
      cases hck : decorators.ARRAYCOPY_CHECKCAST <;>
        cases hoi : (decide (type = BasicType.T_OBJECT) && vm.UseCompressedOops) <;>
        cases hdj : decorators.ARRAYCOPY_DISJOINT <;>
        simp [movptr_rr, setReg, h]
      all_goals exact absurd h (hc11 hdj hoi)
    · exact hSx count h
  have hSm : S0.mem = s.mem := by rw [← hS]; split_ifs <;> rfl
  have hSt : S0.trace = s.trace := by rw [← hS]; split_ifs <;> rfl
  clear hS
  -- the test of the SATB-active flag
  generalize hT : (if vm.byte_width_of_active = 4
    then cmpl_mi (Address.mk2 r15_thread vm.satb_mark_queue_active_offset) 0 S0
    else cmpb_mi (Address.mk2 r15_thread vm.satb_mark_queue_active_offset) 0 S0) = T
  have hTr : T.regs = S0.regs := by rw [← hT]; split_ifs <;> rfl
  have hTu : upcalls T.trace = upcalls s.trace := by
    rw [← hT, ← hSt]
    split_ifs <;> simp [cmpl_mi, cmpb_mi, readMem, upcalls_append, upcalls]
  have hTz : T.zf = decide (satbActive vm s = 0) := by
    have h15 : S0.regs r15_thread = s.regs r15_thread := hSx _ (by decide)
    rw [← hT]
    simp only [satbActive]
    split_ifs <;> simp [cmpl_mi, cmpb_mi, readMem, ea, Address.mk2, h15, hSm]
  clear hT
  -- the call sequence
  have hcall : ∀ e : Entry,
      let A := (if count = vm.c_rarg0 then
          if dst = vm.c_rarg1 then xchgptr vm.c_rarg1 vm.c_rarg0 (pusha T)
          else movptr_rr vm.c_rarg0 dst (movptr_rr vm.c_rarg1 count (pusha T))
        else movptr_rr vm.c_rarg1 count (movptr_rr vm.c_rarg0 dst (pusha T)))
      upcalls (popa (call_VM_leaf_base vm rt e 2 A)).trace =
        upcalls s.trace ++ [(e, [s.regs dst, s.regs count])] ∧
      ∀ x, x ∈ savedRegs → (popa (call_VM_leaf_base vm rt e 2 A)).regs x = T.regs x := by
    intro e A
    have hA0 : A.regs vm.c_rarg0 = s.regs dst := by
      rw [← hSd, ← hTr]
      by_cases h1 : count = vm.c_rarg0
      · by_cases h2 : dst = vm.c_rarg1
        · simp [A, h1, h2, xchgptr, pusha, hcc]
        · simp [A, h1, h2, movptr_rr, setReg, pusha]
      · simp [A, h1, movptr_rr, setReg, pusha, hcc]
    have hA1 : A.regs vm.c_rarg1 = s.regs count := by
      rw [← hSc, ← hTr]
      by_cases h1 : count = vm.c_rarg0
      · by_cases h2 : dst = vm.c_rarg1
        · simp [A, h1, h2, xchgptr, pusha]
        · simp [A, h1, h2, movptr_rr, setReg, pusha, Ne.symm hcc]
      · simp [A, h1, movptr_rr, setReg, pusha]
    have hAs : A.stack = savedRegs.map T.regs ++ T.stack := by
      simp only [A]; split_ifs <;> rfl
    have hAt : A.trace = T.trace := by
      simp only [A]; split_ifs <;> rfl
    refine ⟨?_, ?_⟩
    · simp [popa, call_VM_leaf_base, hA0, hA1, hAt, upcalls_append, upcalls, hTu]
    · intro x hx
      exact popa_pusha_saved T _ (by simp [call_VM_leaf_base, hAs]) x hx
  have hentry : (if vm.UseCompressedOops = true then
        call_VM_leaf_base vm rt Entry.write_ref_array_pre_narrow_oop_entry 2
          (if count = vm.c_rarg0 then
            if dst = vm.c_rarg1 then xchgptr vm.c_rarg1 vm.c_rarg0 (pusha T)
            else movptr_rr vm.c_rarg0 dst (movptr_rr vm.c_rarg1 count (pusha T))
          else movptr_rr vm.c_rarg1 count (movptr_rr vm.c_rarg0 dst (pusha T)))
      else call_VM_leaf_base vm rt Entry.write_ref_array_pre_oop_entry 2
          (if count = vm.c_rarg0 then
            if dst = vm.c_rarg1 then xchgptr vm.c_rarg1 vm.c_rarg0 (pusha T)
            else movptr_rr vm.c_rarg0 dst (movptr_rr vm.c_rarg1 count (pusha T))
          else movptr_rr vm.c_rarg1 count (movptr_rr vm.c_rarg0 dst (pusha T)))) =
      call_VM_leaf_base vm rt (arrayPreEntry vm) 2
          (if count = vm.c_rarg0 then
            if dst = vm.c_rarg1 then xchgptr vm.c_rarg1 vm.c_rarg0 (pusha T)
            else movptr_rr vm.c_rarg0 dst (movptr_rr vm.c_rarg1 count (pusha T))
          else movptr_rr vm.c_rarg1 count (movptr_rr vm.c_rarg0 dst (pusha T))) := by
    cases hc : vm.UseCompressedOops <;> simp [arrayPreEntry, hc]
  simp only [hentry]
  obtain ⟨c1, c2⟩ := hcall (arrayPreEntry vm)
  have h11s : (r11 : Register) ∈ savedRegs := by decide
  have hzf : T.zf = true ↔ satbActive vm s = 0 := by rw [hTz]; simp
  refine ⟨fun _ hd hz => ?_, fun hn => ?_, fun x hx hx11 => ?_, ?_⟩
  · have hz' : ¬ T.zf = true := fun h => hz (hzf.mp h)
    simp only [hd, Bool.not_false, if_true, hz', if_false]
    exact c1
  · cases hdu : decorators.AS_DEST_NOT_INITIALIZED
    · have hz' : T.zf = true := by
        apply hzf.mpr
        by_contra hne
        exact hn ⟨trivial, hdu, hne⟩
      simp only [Bool.not_false, if_true, hz']
      exact hTu
    · simp only [Bool.not_true, Bool.false_eq_true, if_false, hSt]
  · cases hdu : decorators.AS_DEST_NOT_INITIALIZED
    · by_cases hz : T.zf = true
      · simp only [Bool.not_false, if_true, hz]
        rw [hTr]; exact hSx x hx11
      · simp only [Bool.not_false, if_true, hz, Bool.false_eq_true, if_false]
        rw [c2 x hx, hTr]; exact hSx x hx11
    · simp only [Bool.not_true, Bool.false_eq_true, if_false]
      exact hSx x hx11
  · cases hdu : decorators.AS_DEST_NOT_INITIALIZED
    · by_cases hz : T.zf = true
      · simp only [Bool.not_false, if_true, hz]
        rw [hTr]; exact hS11
      · simp only [Bool.not_false, if_true, hz, Bool.false_eq_true, if_false]
        rw [c2 r11 h11s, hTr]; exact hS11
    · simp only [Bool.not_true, Bool.false_eq_true, if_false]
      exact hS11

/-- Witness for C16: with `count` in the first argument register `rdi` and `dst`
in the second, `rsi`, the two are exchanged: the call receives 600 and 3, and
both registers hold their original content afterwards. -/
theorem arraycopy_prologue_upcall_witness :
    upcalls (arraycopy_prologue vmAll rtIdle {} BasicType.T_OBJECT rax rsi rdi mCopy).trace =
      [(Entry.write_ref_array_pre_oop_entry, [600, 3])] ∧
    (arraycopy_prologue vmAll rtIdle {} BasicType.T_OBJECT rax rsi rdi mCopy).regs rsi = 600 ∧
    (arraycopy_prologue vmAll rtIdle {} BasicType.T_OBJECT rax rsi rdi mCopy).regs rdi = 3 := by
  obtain ⟨h1, _, h3, _⟩ := arraycopy_prologue_upcall vmAll rtIdle {} BasicType.T_OBJECT rax rsi
    rdi mCopy (by decide) (fun _ _ => by decide) (fun _ h => absurd h (by decide))
  refine ⟨?_, ?_, ?_⟩
  · rw [h1 (Or.inl rfl) rfl (by decide)]; decide
  · rw [h3 rsi (by decide) (by decide)]; rfl
  · rw [h3 rdi (by decide) (by decide)]; rfl

/-! ## The barriers as functions of values -/

theorem gcFlag_phaseSet (vm : VM) (flag : Nat) (s : Machine) :
    gcFlag vm flag s = phaseSet vm (s.regs r15_thread) s.mem flag := by
  simp [gcFlag, gc_state, phaseSet, ea, Address.mk2]

/-- The write barrier on a non-null reference as a function of values: `dst`
receives the reference of `ensureInToSpace`, and memory, pool, runtime calls
and writes are those of `ensureInToSpace`; the stack is as before, and so is
every other register that `survivesWriteBarrier` lists. -/
theorem write_barrier_impl_effect (vm : VM) (rt : Runtime) (dst : Register) (s : Machine)
    (hd : dst ≠ rscratch1) (hc : vm.c_rarg1 ≠ rscratch1) (h0 : s.regs dst ≠ 0) :
    (write_barrier_impl vm rt dst s).regs dst =
      (ensureInToSpace vm rt (s.regs r15_thread) s.mem s.pool (s.regs dst)).ret ∧
    (write_barrier_impl vm rt dst s).mem =
      (ensureInToSpace vm rt (s.regs r15_thread) s.mem s.pool (s.regs dst)).mem ∧
    (write_barrier_impl vm rt dst s).pool =
      (ensureInToSpace vm rt (s.regs r15_thread) s.mem s.pool (s.regs dst)).pool ∧
    upcalls (write_barrier_impl vm rt dst s).trace = upcalls s.trace ++
      (ensureInToSpace vm rt (s.regs r15_thread) s.mem s.pool (s.regs dst)).calls ∧
    stores (write_barrier_impl vm rt dst s).trace = stores s.trace ++
      (ensureInToSpace vm rt (s.regs r15_thread) s.mem s.pool (s.regs dst)).writes ∧
    (write_barrier_impl vm rt dst s).stack = s.stack ∧
    (∀ x, x ≠ dst → x ≠ rscratch1 → survivesWriteBarrier vm x = true →
      (write_barrier_impl vm rt dst s).regs x = s.regs x) := by
  have hz := testb_gc_state_zf vm vm.EVACUATION vm.TRAVERSAL s
  simp only [gcFlag_phaseSet] at hz
  simp only [write_barrier_impl]
  generalize hA : read_barrier_not_null vm dst
    (testb_mi (Address.mk2 r15_thread vm.gc_state_offset) (vm.EVACUATION ||| vm.TRAVERSAL) s) = A
  have hAz : A.zf = !(phaseSet vm (s.regs r15_thread) s.mem vm.EVACUATION ||
      phaseSet vm (s.regs r15_thread) s.mem vm.TRAVERSAL) := by
    rw [← hA, ← hz]
    cases hr : vm.ShenandoahReadBarrier <;>
      simp [read_barrier_not_null, hr, read_barrier_not_null_impl, movptr_rm, readMem, setReg,
        testb_mi]
  have hAm : A.mem = s.mem := by
    rw [← hA]
    cases hr : vm.ShenandoahReadBarrier <;>
      simp [read_barrier_not_null, hr, read_barrier_not_null_impl, movptr_rm, readMem, setReg,
        testb_mi]
  have hAp : A.pool = s.pool := by
    rw [← hA]
    cases hr : vm.ShenandoahReadBarrier <;>
      simp [read_barrier_not_null, hr, read_barrier_not_null_impl, movptr_rm, readMem, setReg,
        testb_mi]
  have hAs : A.stack = s.stack := by
    rw [← hA]
    cases hr : vm.ShenandoahReadBarrier <;>
      simp [read_barrier_not_null, hr, read_barrier_not_null_impl, movptr_rm, readMem, setReg,
        testb_mi]
  have hAu : upcalls A.trace = upcalls s.trace ∧ stores A.trace = stores s.trace := by
    rw [← hA]
    cases hr : vm.ShenandoahReadBarrier <;>
      simp [read_barrier_not_null, hr, read_barrier_not_null_impl, movptr_rm, readMem, setReg,
        testb_mi, upcalls_append, upcalls, stores_append, stores]
  have hAd : A.regs dst = resolveRead vm s.mem (s.regs dst) := by
    rw [← hA]
    cases hr : vm.ShenandoahReadBarrier <;>
      simp [read_barrier_not_null, hr, read_barrier_not_null_impl, movptr_rm, readMem, setReg,
        testb_mi, resolveRead, resolve, h0, ea, Address.mk2]
  have hAr : ∀ x, x ≠ dst → A.regs x = s.regs x := by
    intro x hx
    rw [← hA]
    cases hr : vm.ShenandoahReadBarrier <;>
      simp [read_barrier_not_null, hr, read_barrier_not_null_impl, movptr_rm, readMem, setReg,
        testb_mi, hx]
  clear hA
  cases hF : (phaseSet vm (s.regs r15_thread) s.mem vm.EVACUATION ||
      phaseSet vm (s.regs r15_thread) s.mem vm.TRAVERSAL)
  · rw [hF] at hAz
    simp only [Bool.not_false] at hAz
    simp only [hAz, if_true, ensureInToSpace, hF, or_true, hAd, hAm, hAp, hAs, hAu,
      List.append_nil, true_and]
    intro x hx _ _
    exact hAr x hx
  · rw [hF] at hAz
    simp only [Bool.not_true] at hAz
    simp only [hAz, Bool.false_eq_true, if_false]
    generalize hB : write_barrier_cset_test vm dst A = B
    have hBeq := write_barrier_cset_test_eq vm dst A
    rw [hB] at hBeq
    have hBz : B.zf = !(inCset vm s.mem (resolveRead vm s.mem (s.regs dst))) := by
      rw [hBeq]; simp [hAm, hAd]
    have hBd : B.regs dst = resolveRead vm s.mem (s.regs dst) := by rw [hBeq]; exact hAd
    have hBm : B.mem = s.mem := by rw [hBeq]; exact hAm
    have hBp : B.pool = s.pool := by rw [hBeq]; exact hAp
    have hBs : B.stack = s.stack := by rw [hBeq]; exact hAs
    have hBr : ∀ x, x ≠ dst → B.regs x = s.regs x := by
      intro x hx; rw [hBeq]; exact hAr x hx
    have hBu : upcalls B.trace = upcalls s.trace ∧ stores B.trace = stores s.trace := by
      rw [hBeq]; simp [upcalls_append, upcalls, stores_append, stores, hAu]
    clear hBeq hB
    cases hC : inCset vm s.mem (resolveRead vm s.mem (s.regs dst))
    · have hE : ensureInToSpace vm rt (s.regs r15_thread) s.mem s.pool (s.regs dst) =
          ⟨resolveRead vm s.mem (s.regs dst), s.mem, s.pool, [], []⟩ := by
        simp [ensureInToSpace, hF, h0, hC]
      rw [hC] at hBz
      simp only [Bool.not_false] at hBz
      simp only [hE, hBz, if_true, hBd, hBm, hBp, hBs, hBu, List.append_nil, true_and]
      intro x hx _ _
      exact hBr x hx
    · have hE : ensureInToSpace vm rt (s.regs r15_thread) s.mem s.pool (s.regs dst) =
          ⟨(rt Entry.write_barrier_IRT [resolveRead vm s.mem (s.regs dst)] s.mem s.pool).ret,
            (rt Entry.write_barrier_IRT [resolveRead vm s.mem (s.regs dst)] s.mem s.pool).mem,
            (rt Entry.write_barrier_IRT [resolveRead vm s.mem (s.regs dst)] s.mem s.pool).pool,
            [(Entry.write_barrier_IRT, [resolveRead vm s.mem (s.regs dst)])], []⟩ := by
        simp [ensureInToSpace, hF, h0, hC]
      rw [hC] at hBz
      simp only [Bool.not_true] at hBz
      simp only [hE, hBz, Bool.false_eq_true, if_false]
      obtain ⟨w1, w2, w3, w4⟩ := write_barrier_slow_spec vm rt dst B hd hc
      obtain ⟨f1, f2⟩ := write_barrier_slow_frame vm rt dst B
      rw [hBd, hBm, hBp] at w1 w2 w3
      rw [hBd] at w4
      refine ⟨w1, w2, w3, ?_, ?_, by rw [f1, hBs], ?_⟩
      · rw [w4]; simp [upcalls_append, upcalls, hBu]
      · rw [w4]; simp [stores_append, stores, hBu]
      · intro x hx h10 hsv
        rw [f2 x hx h10 hsv, hBr x hx]

/-- A save/restore pair around a code sequence changes neither what the
sequence does to memory and pool nor what it adds to the trace, when these
depend on registers, memory and pool alone. -/
theorem savedAround_effect (c : Prop) [Decidable c] (r : Register) (f : Machine → Machine)
    (gm : (Register → Nat) → (Nat → Nat) → List (List Nat) → Nat → Nat)
    (gp : (Register → Nat) → (Nat → Nat) → List (List Nat) → List (List Nat))
    (gt : (Register → Nat) → (Nat → Nat) → List (List Nat) → List Event)
    (hf : ∀ t, (f t).mem = gm t.regs t.mem t.pool ∧ (f t).pool = gp t.regs t.mem t.pool ∧
      (f t).trace = t.trace ++ gt t.regs t.mem t.pool) (t : Machine) :
    (savedAround c r f t).mem = gm t.regs t.mem t.pool ∧
    (savedAround c r f t).pool = gp t.regs t.mem t.pool ∧
    (savedAround c r f t).trace = t.trace ++ gt t.regs t.mem t.pool := by
  unfold savedAround
  by_cases h : c
  · simp only [h, if_true, pop, setReg]
    exact hf (push r t)
  · simp only [h, if_false]
    exact hf t

/-- The call sequence at label `runtime` of `satb_write_barrier_pre`: one call
`g1_wb_pre(value, thread)`, on the memory and the pool as they are. -/
theorem satb_enqueue_slow_effect (vm : VM) (rt : Runtime) (obj pre_val : Register)
    (tosca_live expand_call : Bool) (X : Machine)
    (hp1 : pre_val ≠ vm.c_rarg1) (h01 : vm.c_rarg0 ≠ vm.c_rarg1)
    (h0t : vm.c_rarg0 ≠ r15_thread) :
    (satb_enqueue_slow vm rt obj pre_val r15_thread tosca_live expand_call X).mem =
      (rt Entry.g1_wb_pre [X.regs pre_val, X.regs r15_thread] X.mem X.pool).mem ∧
    (satb_enqueue_slow vm rt obj pre_val r15_thread tosca_live expand_call X).pool =
      (rt Entry.g1_wb_pre [X.regs pre_val, X.regs r15_thread] X.mem X.pool).pool ∧
    (satb_enqueue_slow vm rt obj pre_val r15_thread tosca_live expand_call X).trace =
      X.trace ++ [Event.call Entry.g1_wb_pre [X.regs pre_val, X.regs r15_thread]] := by
  let C : Machine → Machine := fun s =>
    if expand_call then
      call_VM_leaf_base vm rt Entry.g1_wb_pre 2
        (if vm.c_rarg0 ≠ pre_val then movptr_rr vm.c_rarg0 pre_val
          (if vm.c_rarg1 ≠ r15_thread then movptr_rr vm.c_rarg1 r15_thread s else s)
        else (if vm.c_rarg1 ≠ r15_thread then movptr_rr vm.c_rarg1 r15_thread s else s))
    else call_VM_leaf2 vm rt Entry.g1_wb_pre pre_val r15_thread s
  have heq : satb_enqueue_slow vm rt obj pre_val r15_thread tosca_live expand_call X =
      savedAround (tosca_live = true) rax (savedAround (obj ≠ noreg ∧ obj ≠ rax) obj
        (savedAround (pre_val ≠ rax) pre_val C)) X := rfl
  have hC : ∀ t, (C t).mem =
        (rt Entry.g1_wb_pre [t.regs pre_val, t.regs r15_thread] t.mem t.pool).mem ∧
      (C t).pool = (rt Entry.g1_wb_pre [t.regs pre_val, t.regs r15_thread] t.mem t.pool).pool ∧
      (C t).trace =
        t.trace ++ [Event.call Entry.g1_wb_pre [t.regs pre_val, t.regs r15_thread]] := by
    intro t
    have hargs : ∀ Y : Machine,
        let Z := (if vm.c_rarg0 ≠ pre_val then movptr_rr vm.c_rarg0 pre_val
                (if vm.c_rarg1 ≠ r15_thread then movptr_rr vm.c_rarg1 r15_thread Y else Y)
              else (if vm.c_rarg1 ≠ r15_thread then movptr_rr vm.c_rarg1 r15_thread Y else Y))
        Z.regs vm.c_rarg0 = Y.regs pre_val ∧ Z.regs vm.c_rarg1 = Y.regs r15_thread ∧
        Z.mem = Y.mem ∧ Z.pool = Y.pool ∧ Z.trace = Y.trace := by
      intro Y
      by_cases ha : vm.c_rarg0 = pre_val <;> by_cases hb : vm.c_rarg1 = r15_thread <;>
        simp [ha, hb, movptr_rr, setReg, hp1, Ne.symm hp1, h01, Ne.symm h01, h0t, Ne.symm h0t]
    obtain ⟨a1, a2, a3, a4, a5⟩ := hargs t
    simp only [ne_eq] at a1 a2 a3 a4 a5
    cases expand_call <;>
      simp only [C, call_VM_leaf2, call_VM_leaf_base, List.take, List.map, ne_eq, a1, a2, a3, a4,
        a5, if_true, Bool.false_eq_true, if_false, and_self]
  have h1 := savedAround_effect (pre_val ≠ rax) pre_val C
    (fun r m p => (rt Entry.g1_wb_pre [r pre_val, r r15_thread] m p).mem)
    (fun r m p => (rt Entry.g1_wb_pre [r pre_val, r r15_thread] m p).pool)
    (fun r _ _ => [Event.call Entry.g1_wb_pre [r pre_val, r r15_thread]]) hC
  have h2 := savedAround_effect (obj ≠ noreg ∧ obj ≠ rax) obj _
    (fun r m p => (rt Entry.g1_wb_pre [r pre_val, r r15_thread] m p).mem)
    (fun r m p => (rt Entry.g1_wb_pre [r pre_val, r r15_thread] m p).pool)
    (fun r _ _ => [Event.call Entry.g1_wb_pre [r pre_val, r r15_thread]]) h1
  have h3 := savedAround_effect (tosca_live = true) rax _
    (fun r m p => (rt Entry.g1_wb_pre [r pre_val, r r15_thread] m p).mem)
    (fun r m p => (rt Entry.g1_wb_pre [r pre_val, r r15_thread] m p).pool)
    (fun r _ _ => [Event.call Entry.g1_wb_pre [r pre_val, r r15_thread]]) h2
  rw [heq]
  exact h3 X

/-- The call sequence at label `runtime` of `satb_write_barrier_pre` hands
back every callee-saved register that is not an argument register. -/
theorem satb_enqueue_slow_keeps (vm : VM) (rt : Runtime) (obj pre_val thread : Register)
    (tosca_live expand_call : Bool) (X : Machine) (x : Register)
    (hcs : calleeSaved x = true) (hn : x ≠ noreg) (hx0 : x ≠ vm.c_rarg0)
    (hx1 : x ≠ vm.c_rarg1) :
    (satb_enqueue_slow vm rt obj pre_val thread tosca_live expand_call X).regs x = X.regs x := by
  let C : Machine → Machine := fun s =>
    if expand_call then
      call_VM_leaf_base vm rt Entry.g1_wb_pre 2
        (if vm.c_rarg0 ≠ pre_val then movptr_rr vm.c_rarg0 pre_val
          (if vm.c_rarg1 ≠ thread then movptr_rr vm.c_rarg1 thread s else s)
        else (if vm.c_rarg1 ≠ thread then movptr_rr vm.c_rarg1 thread s else s))
    else call_VM_leaf2 vm rt Entry.g1_wb_pre pre_val thread s
  have heq : satb_enqueue_slow vm rt obj pre_val thread tosca_live expand_call X =
      savedAround (tosca_live = true) rax (savedAround (obj ≠ noreg ∧ obj ≠ rax) obj
        (savedAround (pre_val ≠ rax) pre_val C)) X := rfl
  have hra : x ≠ rax := by
    intro h; rw [h] at hcs; exact absurd hcs (by decide)
  have hs0 : ∀ t, (C t).stack = t.stack := by
    intro t
    simp only [C, call_VM_leaf2, call_VM_leaf_base]
    split_ifs <;> rfl
  have hC : ∀ t, (C t).regs x = t.regs x := by
    intro t
    simp only [C, call_VM_leaf2, call_VM_leaf_base]
    split_ifs <;> simp [movptr_rr, setReg, hra, hcs, hx0, hx1]
  have hs1 := savedAround_stack (pre_val ≠ rax) pre_val C hs0
  have hs2 := savedAround_stack (obj ≠ noreg ∧ obj ≠ rax) obj _ hs1
  have h1 := savedAround_regs (pre_val ≠ rax) pre_val C hs0 x (fun h => h ▸ hra) (Or.inr hC)
  have h2 := savedAround_regs (obj ≠ noreg ∧ obj ≠ rax) obj _ hs1 x (fun h => ⟨h ▸ hn, h ▸ hra⟩)
    (Or.inr h1)
  rw [heq]
  exact savedAround_regs (tosca_live = true) rax _ hs2 x (fun h => absurd h hra) (Or.inr h2) X

/-- The SATB pre-write barrier as a function of values: in every phase and
buffer state its memory, its pool, its runtime calls and its writes are those
of `satbLog` on the value to enqueue. -/
theorem satb_write_barrier_pre_effect (vm : VM) (rt : Runtime) (obj pre_val tmp : Register)
    (tosca_live expand_call : Bool) (s : Machine)
    (htp : tmp ≠ pre_val) (htt : tmp ≠ r15_thread) (hpt : pre_val ≠ r15_thread)
    (hp1 : pre_val ≠ vm.c_rarg1) (h01 : vm.c_rarg0 ≠ vm.c_rarg1)
    (h0t : vm.c_rarg0 ≠ r15_thread)
    (hab : (s.regs r15_thread + vm.satb_mark_queue_buffer_offset) % W ≠
      (s.regs r15_thread + vm.satb_mark_queue_index_offset) % W) :
    (satb_write_barrier_pre vm rt obj pre_val r15_thread tmp tosca_live expand_call s).mem =
      (satbLog vm rt (s.regs r15_thread) s.mem s.pool (satbValue vm obj pre_val s)).mem ∧
    (satb_write_barrier_pre vm rt obj pre_val r15_thread tmp tosca_live expand_call s).pool =
      (satbLog vm rt (s.regs r15_thread) s.mem s.pool (satbValue vm obj pre_val s)).pool ∧
    upcalls (satb_write_barrier_pre vm rt obj pre_val r15_thread tmp tosca_live expand_call
      s).trace = upcalls s.trace ++
      (satbLog vm rt (s.regs r15_thread) s.mem s.pool (satbValue vm obj pre_val s)).calls ∧
    stores (satb_write_barrier_pre vm rt obj pre_val r15_thread tmp tosca_live expand_call
      s).trace = stores s.trace ++
      (satbLog vm rt (s.regs r15_thread) s.mem s.pool (satbValue vm obj pre_val s)).writes := by
  have hz := testb_gc_state_zf vm vm.MARKING vm.TRAVERSAL s
  simp only [gcFlag_phaseSet] at hz
  simp only [satb_write_barrier_pre]
  generalize hG : testb_mi (Address.mk2 r15_thread vm.gc_state_offset)
    (vm.MARKING ||| vm.TRAVERSAL) s = G at hz
  have hGm : G.mem = s.mem := by rw [← hG]; rfl
  have hGp : G.pool = s.pool := by rw [← hG]; rfl
  have hGr : G.regs = s.regs := by rw [← hG]; rfl
  have hGu : upcalls G.trace = upcalls s.trace ∧ stores G.trace = stores s.trace := by
    rw [← hG]; simp [testb_mi, readMem, upcalls_append, upcalls, stores_append, stores]
  clear hG
  cases hF : (phaseSet vm (s.regs r15_thread) s.mem vm.MARKING ||
      phaseSet vm (s.regs r15_thread) s.mem vm.TRAVERSAL)
  · rw [hF] at hz
    simp only [Bool.not_false] at hz
    simp [hz, satbLog, hF, hGm, hGp, hGu]
  · rw [hF] at hz
    simp only [Bool.not_true] at hz
    simp only [hz, Bool.false_eq_true, if_false, satbLog, hF, if_true]
    generalize hL : (if obj ≠ noreg then load_heap_oop vm pre_val (Address.mk2 obj 0) G
      else G) = L
    have hLm : L.mem = s.mem := by
      rw [← hL]
      cases hc : vm.UseCompressedOops <;> split_ifs <;>
        simp [load_heap_oop, hc, decode_heap_oop, movl_rm, movptr_rm, readMem, setReg, hGm]
    have hLp : L.pool = s.pool := by
      rw [← hL]
      cases hc : vm.UseCompressedOops <;> split_ifs <;>
        simp [load_heap_oop, hc, decode_heap_oop, movl_rm, movptr_rm, readMem, setReg, hGp]
    have hLu : upcalls L.trace = upcalls s.trace ∧ stores L.trace = stores s.trace := by
      rw [← hL]
      cases hc : vm.UseCompressedOops <;> split_ifs <;>
        simp [load_heap_oop, hc, decode_heap_oop, movl_rm, movptr_rm, readMem, setReg, hGu,
          upcalls_append, upcalls, stores_append, stores]
    have hLv : L.regs pre_val = satbValue vm obj pre_val s := by
      rw [← hL]
      by_cases ho : obj = noreg
      · simp [ho, satbValue, hGr]
      · cases hc : vm.UseCompressedOops <;>
          simp [ho, satbValue, casOop, load_heap_oop, hc, decode_heap_oop, movl_rm, movptr_rm,
            readMem, setReg, hGr, hGm, ea]
    have hLt : L.regs r15_thread = s.regs r15_thread := by
      rw [← hL]
      have : (r15_thread : Register) ≠ pre_val := Ne.symm hpt
      cases hc : vm.UseCompressedOops <;> split_ifs <;>
        simp [load_heap_oop, hc, decode_heap_oop, movl_rm, movptr_rm, readMem, setReg, hGr, this]
    clear hL
    by_cases hv : satbValue vm obj pre_val s = 0
    · have hz2 : (cmpptr_ri pre_val 0 L).zf = true := by simp [cmpptr_ri, hLv, hv]
      simp only [hz2, if_true, enqueue, hv]
      exact ⟨hLm, hLp, by simpa [cmpptr_ri] using hLu.1, by simpa [cmpptr_ri] using hLu.2⟩
    · have hz2 : (cmpptr_ri pre_val 0 L).zf = false := by simp [cmpptr_ri, hLv, hv]
      simp only [hz2, Bool.false_eq_true, if_false]
      generalize hX : cmpptr_ri tmp 0 (movptr_rm tmp
        (Address.mk2 r15_thread vm.satb_mark_queue_index_offset) (cmpptr_ri pre_val 0 L)) = X
      have hXz : X.zf = decide (s.mem ((s.regs r15_thread +
          vm.satb_mark_queue_index_offset) % W) = 0) := by
        rw [← hX]; simp [cmpptr_ri, movptr_rm, readMem, setReg, ea, Address.mk2, hLt, hLm]
      have hXi : X.regs tmp = s.mem ((s.regs r15_thread +
          vm.satb_mark_queue_index_offset) % W) := by
        rw [← hX]; simp [cmpptr_ri, movptr_rm, readMem, setReg, ea, Address.mk2, hLt, hLm]
      have hXm : X.mem = s.mem := by rw [← hX]; simp [cmpptr_ri, movptr_rm, readMem, setReg, hLm]
      have hXp : X.pool = s.pool := by
        rw [← hX]; simp [cmpptr_ri, movptr_rm, readMem, setReg, hLp]
      have hXv : X.regs pre_val = satbValue vm obj pre_val s := by
        rw [← hX]; simp [cmpptr_ri, movptr_rm, readMem, setReg, Ne.symm htp, hLv]
      have hXt : X.regs r15_thread = s.regs r15_thread := by
        rw [← hX]; simp [cmpptr_ri, movptr_rm, readMem, setReg, Ne.symm htt, hLt]
      have hXu : upcalls X.trace = upcalls s.trace ∧ stores X.trace = stores s.trace := by
        rw [← hX]
        simp [cmpptr_ri, movptr_rm, readMem, setReg, hLu, upcalls_append, upcalls, stores_append,
          stores]
      clear hX
      by_cases hi : s.mem ((s.regs r15_thread + vm.satb_mark_queue_index_offset) % W) = 0
      · rw [hi] at hXz
        simp only [decide_True] at hXz
        obtain ⟨w1, w2, w3⟩ := satb_enqueue_slow_effect vm rt obj pre_val tosca_live expand_call X
          hp1 h01 h0t
        rw [hXv, hXt, hXm, hXp] at w1 w2
        rw [hXv, hXt] at w3
        simp only [hXz, if_true, enqueue, hv, if_false, hi, ne_eq, not_true_eq_false]
        refine ⟨w1, w2, ?_, ?_⟩
        · rw [w3]; simp [upcalls_append, upcalls, hXu]
        · rw [w3]; simp [stores_append, stores, hXu]
      · have hXz' : X.zf = false := by rw [hXz]; simp [hi]
        have hr : (r15_thread : Register) ≠ tmp := Ne.symm htt
        simp only [hXz', Bool.false_eq_true, if_false, enqueue, hv, hi, ne_eq, not_false_eq_true,
          if_true]
        refine ⟨?_, ?_, ?_, ?_⟩
        · funext a
          simp [satb_enqueue_fast, subptr_ri, movptr_mr, addptr_rm, readMem, writeMem, setReg,
            ea, Address.mk2, hr, hab, Ne.symm htp, hXi, hXm, hXv, hXt]
        · simp [satb_enqueue_fast, subptr_ri, movptr_mr, addptr_rm, readMem, writeMem, setReg,
            hXp]
        · simp [satb_enqueue_fast, subptr_ri, movptr_mr, addptr_rm, readMem, writeMem, setReg,
            upcalls_append, upcalls, hXu]
        · simp [satb_enqueue_fast, subptr_ri, movptr_mr, addptr_rm, readMem, writeMem, setReg,
            stores_append, stores, ea, Address.mk2, hr, hab, Ne.symm htp, hXi, hXm, hXv, hXt,
            hXu]

/-- The SATB pre-write barrier hands back every callee-saved register that is
neither its scratch register, nor an argument register, nor the register that
receives a loaded value. -/
theorem satb_write_barrier_pre_keeps (vm : VM) (rt : Runtime) (obj pre_val thread tmp : Register)
    (tosca_live expand_call : Bool) (s : Machine) (x : Register)
    (hcs : calleeSaved x = true) (hn : x ≠ noreg) (hx0 : x ≠ vm.c_rarg0)
    (hx1 : x ≠ vm.c_rarg1) (hxt : x ≠ tmp) (hxp : obj ≠ noreg → x ≠ pre_val) :
    (satb_write_barrier_pre vm rt obj pre_val thread tmp tosca_live expand_call s).regs x =
      s.regs x := by
  simp only [satb_write_barrier_pre]
  generalize hL : (if obj ≠ noreg then load_heap_oop vm pre_val (Address.mk2 obj 0)
      (testb_mi (Address.mk2 thread vm.gc_state_offset) (vm.MARKING ||| vm.TRAVERSAL) s)
    else testb_mi (Address.mk2 thread vm.gc_state_offset) (vm.MARKING ||| vm.TRAVERSAL) s) = L
  have hLr : L.regs x = s.regs x := by
    rw [← hL]
    by_cases ho : obj = noreg
    · simp [ho, testb_mi, readMem]
    · have := hxp ho
      cases hc : vm.UseCompressedOops <;>
        simp [ho, load_heap_oop, hc, decode_heap_oop, movl_rm, movptr_rm, readMem, setReg,
          testb_mi, this]
  clear hL
  generalize hX : cmpptr_ri tmp 0 (movptr_rm tmp
    (Address.mk2 thread vm.satb_mark_queue_index_offset) (cmpptr_ri pre_val 0 L)) = X
  have hXr : X.regs x = L.regs x := by
    rw [← hX]; simp [cmpptr_ri, movptr_rm, readMem, setReg, hxt]
  clear hX
  have w := satb_enqueue_slow_keeps vm rt obj pre_val thread tosca_live expand_call X x hcs hn
    hx0 hx1
  split_ifs
  · simp [testb_mi, readMem]
  · simp [cmpptr_ri, hLr]
  · rw [w, hXr, hLr]
  · simp [satb_enqueue_fast, subptr_ri, movptr_mr, addptr_rm, readMem, writeMem, setReg, hxt,
      hXr, hLr]

theorem resolveRead_null (vm : VM) (mem : Nat → Nat) : resolveRead vm mem 0 = 0 := by
  simp [resolveRead, resolve]

theorem ensureInToSpace_null (vm : VM) (rt : Runtime) (T : Nat) (mem : Nat → Nat)
    (pool : List (List Nat)) :
    ensureInToSpace vm rt T mem pool 0 = ⟨0, mem, pool, [], []⟩ := by
  simp [ensureInToSpace, resolveRead_null]

theorem read_barrier_impl_keeps (vm : VM) (dst : Register) (s : Machine) :
    (read_barrier_impl vm dst s).mem = s.mem ∧ (read_barrier_impl vm dst s).pool = s.pool ∧
    (read_barrier_impl vm dst s).stack = s.stack ∧
    upcalls (read_barrier_impl vm dst s).trace = upcalls s.trace ∧
    stores (read_barrier_impl vm dst s).trace = stores s.trace := by
  by_cases h0 : s.regs dst = 0
  · rw [read_barrier_impl_null vm dst s h0]; simp
  · simp [read_barrier_impl, read_barrier_not_null_impl, testptr, h0, movptr_rm, readMem,
      setReg, stores_append, stores, upcalls_append, upcalls]

/-- The store-value barrier as a function of values: the register receives the
barriered value of `storeValue`, and memory, pool, runtime calls and writes are
those of `storeValue`; the stack is as before, and so is every other register
that `pusha` saves and that survives the write barrier. -/
theorem storeval_barrier_effect (vm : VM) (rt : Runtime) (dst tmp : Register) (s : Machine)
    (hn : dst ≠ noreg) (hd : dst ≠ rscratch1) (hc : vm.c_rarg1 ≠ rscratch1)
    (htp : tmp ≠ dst) (htt : tmp ≠ r15_thread) (hpt : dst ≠ r15_thread)
    (hp1 : dst ≠ vm.c_rarg1) (h01 : vm.c_rarg0 ≠ vm.c_rarg1) (h0t : vm.c_rarg0 ≠ r15_thread)
    (hds : dst ∈ savedRegs)
    (hab : (s.regs r15_thread + vm.satb_mark_queue_buffer_offset) % W ≠
      (s.regs r15_thread + vm.satb_mark_queue_index_offset) % W) :
    (storeval_barrier vm rt dst tmp s).regs dst =
      (storeValue vm rt (s.regs r15_thread) s.mem s.pool (s.regs dst)).ret ∧
    (storeval_barrier vm rt dst tmp s).mem =
      (storeValue vm rt (s.regs r15_thread) s.mem s.pool (s.regs dst)).mem ∧
    (storeval_barrier vm rt dst tmp s).pool =
      (storeValue vm rt (s.regs r15_thread) s.mem s.pool (s.regs dst)).pool ∧
    upcalls (storeval_barrier vm rt dst tmp s).trace = upcalls s.trace ++
      (storeValue vm rt (s.regs r15_thread) s.mem s.pool (s.regs dst)).calls ∧
    stores (storeval_barrier vm rt dst tmp s).trace = stores s.trace ++
      (storeValue vm rt (s.regs r15_thread) s.mem s.pool (s.regs dst)).writes ∧
    (storeval_barrier vm rt dst tmp s).stack = s.stack ∧
    (∀ x, x ≠ dst → x ≠ rscratch1 → x ∈ savedRegs → survivesWriteBarrier vm x = true →
      (storeval_barrier vm rt dst tmp s).regs x = s.regs x) := by
  -- the enqueue part
  have henq : ∀ Q : Machine,
      Q = popa (pop_xmm0 (satb_write_barrier_pre vm rt noreg dst r15_thread tmp true false
        (push_xmm0 (pusha (if (testptr dst dst s).zf = true then testptr dst dst s
          else write_barrier_impl vm rt dst (testptr dst dst s)))))) →
      Q.regs dst = (ensureInToSpace vm rt (s.regs r15_thread) s.mem s.pool (s.regs dst)).ret ∧
      Q.mem = (satbLog vm rt (s.regs r15_thread)
        (ensureInToSpace vm rt (s.regs r15_thread) s.mem s.pool (s.regs dst)).mem
        (ensureInToSpace vm rt (s.regs r15_thread) s.mem s.pool (s.regs dst)).pool
        (ensureInToSpace vm rt (s.regs r15_thread) s.mem s.pool (s.regs dst)).ret).mem ∧
      Q.pool = (satbLog vm rt (s.regs r15_thread)
        (ensureInToSpace vm rt (s.regs r15_thread) s.mem s.pool (s.regs dst)).mem
        (ensureInToSpace vm rt (s.regs r15_thread) s.mem s.pool (s.regs dst)).pool
        (ensureInToSpace vm rt (s.regs r15_thread) s.mem s.pool (s.regs dst)).ret).pool ∧
      upcalls Q.trace = upcalls s.trace ++
        ((ensureInToSpace vm rt (s.regs r15_thread) s.mem s.pool (s.regs dst)).calls ++
        (satbLog vm rt (s.regs r15_thread)
          (ensureInToSpace vm rt (s.regs r15_thread) s.mem s.pool (s.regs dst)).mem
          (ensureInToSpace vm rt (s.regs r15_thread) s.mem s.pool (s.regs dst)).pool
          (ensureInToSpace vm rt (s.regs r15_thread) s.mem s.pool (s.regs dst)).ret).calls) ∧
      stores Q.trace = stores s.trace ++
        ((ensureInToSpace vm rt (s.regs r15_thread) s.mem s.pool (s.regs dst)).writes ++
        (satbLog vm rt (s.regs r15_thread)
          (ensureInToSpace vm rt (s.regs r15_thread) s.mem s.pool (s.regs dst)).mem
          (ensureInToSpace vm rt (s.regs r15_thread) s.mem s.pool (s.regs dst)).pool
          (ensureInToSpace vm rt (s.regs r15_thread) s.mem s.pool (s.regs dst)).ret).writes) ∧
      Q.stack = s.stack ∧
      (∀ x, x ≠ dst → x ≠ rscratch1 → x ∈ savedRegs → survivesWriteBarrier vm x = true →
        Q.regs x = s.regs x) := by
    intro Q hQ
    generalize hW : (if (testptr dst dst s).zf = true then testptr dst dst s
      else write_barrier_impl vm rt dst (testptr dst dst s)) = W1 at hQ
    generalize hE : ensureInToSpace vm rt (s.regs r15_thread) s.mem s.pool (s.regs dst) = E
    have hW1 : W1.regs dst = E.ret ∧ W1.mem = E.mem ∧ W1.pool = E.pool ∧
        upcalls W1.trace = upcalls s.trace ++ E.calls ∧
        stores W1.trace = stores s.trace ++ E.writes ∧ W1.stack = s.stack ∧
        (∀ x, x ≠ dst → x ≠ rscratch1 → survivesWriteBarrier vm x = true →
          W1.regs x = s.regs x) := by
      rw [← hW, ← hE]
      by_cases h0 : s.regs dst = 0
      · have hz : (testptr dst dst s).zf = true := by simp [testptr, h0]
        simp only [hz, if_true, h0, ensureInToSpace_null, List.append_nil]
        refine ⟨h0, rfl, rfl, rfl, rfl, rfl, ?_⟩
        intro x _ _ _; rfl
      · have hz : (testptr dst dst s).zf = false := by simp [testptr, h0]
        simp only [hz, Bool.false_eq_true, if_false]
        exact write_barrier_impl_effect vm rt dst (testptr dst dst s) hd hc h0
    clear hW hE
    obtain ⟨a1, a2, a3, a4, a5, a6, a7⟩ := hW1
    have h15 : W1.regs r15_thread = s.regs r15_thread :=
      a7 r15_thread (Ne.symm hpt) (by decide)
        (by
          have hcs : calleeSaved r15_thread = true := rfl
          simp [survivesWriteBarrier, hcs, Ne.symm h0t])
    have hS := satb_write_barrier_pre_effect vm rt noreg dst tmp true false
      (push_xmm0 (pusha W1)) htp htt hpt hp1 h01 h0t
      (by
        rw [show (push_xmm0 (pusha W1)).regs = W1.regs from rfl, h15]
        exact hab)
    have hSs := (satb_write_barrier_pre_frame vm rt noreg dst r15_thread tmp true false
      (push_xmm0 (pusha W1))).1
    generalize satb_write_barrier_pre vm rt noreg dst r15_thread tmp true false
      (push_xmm0 (pusha W1)) = S at hS hSs hQ
    have hv : satbValue vm noreg dst (push_xmm0 (pusha W1)) = E.ret := by
      simp [satbValue, push_xmm0, pusha, a1]
    rw [hv, show (push_xmm0 (pusha W1)).regs = W1.regs from rfl, h15,
      show (push_xmm0 (pusha W1)).mem = W1.mem from rfl,
      show (push_xmm0 (pusha W1)).pool = W1.pool from rfl,
      show (push_xmm0 (pusha W1)).trace = W1.trace from rfl, a2, a3, a4, a5] at hS
    obtain ⟨b1, b2, b3, b4⟩ := hS
    have hst : (pop_xmm0 S).stack = savedRegs.map W1.regs ++ W1.stack := by
      simp [pop_xmm0, hSs, push_xmm0, pusha]
    subst hQ
    refine ⟨?_, b1, b2, ?_, ?_, ?_, ?_⟩
    · rw [popa_pusha_saved W1 _ hst dst hds, a1]
    · simpa [popa, pop_xmm0, List.append_assoc] using b3
    · simpa [popa, pop_xmm0, List.append_assoc] using b4
    · simp only [popa, hst, savedRegs, List.map, List.length, List.drop, List.cons_append,
        List.nil_append]
      exact a6
    · intro x hx h10 hsv hsw
      rw [popa_pusha_saved W1 _ hst x hsv, a7 x hx h10 hsw]
  cases hE : vm.ShenandoahStoreValEnqueueBarrier <;> cases hR : vm.ShenandoahStoreValReadBarrier
  · simp [storeval_barrier, storeValue, hE, hR]
  · obtain ⟨hm, hp, hs, hu1, hu2⟩ := read_barrier_impl_keeps vm dst s
    simp only [storeval_barrier, storeval_barrier_impl, storeValue, hE, hR, hn, if_false,
      if_true, Bool.or_false, Bool.false_eq_true, read_barrier_impl_regs, hm, hp, hs, hu1, hu2,
      List.append_nil, true_and]
    intro x hx _ _ _
    simp [hx]
  · obtain ⟨q1, q2, q3, q4, q5, q6, q7⟩ := henq _ rfl
    simp only [storeval_barrier, storeval_barrier_impl, storeValue, hE, hR, hn, if_false,
      if_true, Bool.or_true, Bool.false_eq_true]
    exact ⟨q1, q2, q3, q4, q5, q6, q7⟩
  · obtain ⟨q1, q2, q3, q4, q5, q6, q7⟩ := henq _ rfl
    simp only [storeval_barrier, storeval_barrier_impl, storeValue, hE, hR, hn, if_false,
      if_true, Bool.or_true, Bool.false_eq_true, read_barrier_impl_regs]
    generalize popa (pop_xmm0 (satb_write_barrier_pre vm rt noreg dst r15_thread tmp true false
        (push_xmm0 (pusha (if (testptr dst dst s).zf = true then testptr dst dst s
          else write_barrier_impl vm rt dst (testptr dst dst s)))))) = Q at q1 q2 q3 q4 q5 q6 q7
    obtain ⟨hm, hp, hs, hu1, hu2⟩ := read_barrier_impl_keeps vm dst Q
    rw [hm, hp, hs, hu1, hu2]
    refine ⟨by simp [q1, q2], q2, q3, q4, q5, q6, ?_⟩
    intro x hx h10 hsv hsw
    simp [hx, q7 x hx h10 hsv hsw]

/-- The raw store of a reference held in a register, as a function of values:
the field receives the reference, or the low 32 bits of its encoding in a heap
field under compressed references. -/
theorem raw_store_effect (vm : VM) (decorators : DecoratorSet) (type : BasicType)
    (b val : Register) (s : Machine)
    (htype : type = BasicType.T_OBJECT ∨ type = BasicType.T_ARRAY)
    (hn : val ≠ noreg) (hb : val ≠ b) :
    (BarrierSetAssembler.store_at vm decorators type (Address.mk2 b 0) val s).mem =
      (fun a => if a = ea (Address.mk2 b 0) s
        then (if decorators.IN_HEAP = true ∧ vm.UseCompressedOops = true
          then vm.encode (s.regs val) % 2 ^ 32 else s.regs val)
        else s.mem a) ∧
    (BarrierSetAssembler.store_at vm decorators type (Address.mk2 b 0) val s).pool = s.pool ∧
    upcalls (BarrierSetAssembler.store_at vm decorators type (Address.mk2 b 0) val s).trace =
      upcalls s.trace ∧
    stores (BarrierSetAssembler.store_at vm decorators type (Address.mk2 b 0) val s).trace =
      stores s.trace ++ [(ea (Address.mk2 b 0) s,
        if decorators.IN_HEAP = true ∧ vm.UseCompressedOops = true
          then vm.encode (s.regs val) % 2 ^ 32 else s.regs val)] ∧
    (∀ x, x ≠ val →
      (BarrierSetAssembler.store_at vm decorators type (Address.mk2 b 0) val s).regs x =
        s.regs x) ∧
    (¬ (decorators.IN_HEAP = true ∧ vm.UseCompressedOops = true) →
      (BarrierSetAssembler.store_at vm decorators type (Address.mk2 b 0) val s).regs val =
        s.regs val) := by
  have hb' : b ≠ val := Ne.symm hb
  rcases htype with h | h <;> subst h <;> cases hh : decorators.IN_HEAP <;>
    cases hc : vm.UseCompressedOops <;>
    simp [BarrierSetAssembler.store_at, hh, hn, hc, movptr_mr, movl_mr, encode_heap_oop,
      writeMem, setReg, ea, Address.mk2, hb', stores_append, stores, upcalls_append, upcalls] <;>
    intro x hx <;> simp [hx]

theorem shenandoah_write_barrier_post_pool (vm : VM) (store_addr new_val tmp tmp2 : Register)
    (s : Machine) :
    (shenandoah_write_barrier_post vm store_addr new_val tmp tmp2 s).pool = s.pool := by
  simp only [shenandoah_write_barrier_post]
  split_ifs <;> rfl

/-- The matrix barrier as a function of values: memory and writes are those of
`record` for the address in `store_addr` and the value in `new_val`. -/
theorem shenandoah_write_barrier_post_effect (vm : VM) (store_addr new_val tmp tmp2 : Register)
    (s : Machine)
    (hregs : tmp ≠ tmp2 ∧ tmp ≠ rscratch1 ∧ tmp2 ≠ rscratch1 ∧ tmp ≠ noreg ∧
      store_addr ≠ tmp ∧ store_addr ≠ rscratch1 ∧ new_val ≠ rscratch1) :
    (shenandoah_write_barrier_post vm store_addr new_val tmp tmp2 s).mem =
      (record vm s.mem (s.regs store_addr % W) (s.regs new_val)).mem ∧
    (shenandoah_write_barrier_post vm store_addr new_val tmp tmp2 s).pool = s.pool ∧
    upcalls (shenandoah_write_barrier_post vm store_addr new_val tmp tmp2 s).trace =
      upcalls s.trace ∧
    stores (shenandoah_write_barrier_post vm store_addr new_val tmp tmp2 s).trace =
      stores s.trace ++ (record vm s.mem (s.regs store_addr % W) (s.regs new_val)).writes := by
  obtain ⟨h1, h2⟩ := shenandoah_write_barrier_post_eq vm store_addr new_val tmp tmp2 s hregs
  obtain ⟨_, _, _, h3⟩ := shenandoah_write_barrier_post_writes vm store_addr new_val tmp tmp2 s
  refine ⟨?_, shenandoah_write_barrier_post_pool vm store_addr new_val tmp tmp2 s, h3, ?_⟩
  · rw [h1]; simp only [record, matrixCell_mod]; split <;> rfl
  · rw [h2]; simp only [record, matrixCell_mod]; split <;> rfl

/-- C13: a reference-typed `store_at` with a value register has the effect of
`storeReference`, the five steps of the specification performed in their order
on values: memory, pool, runtime calls and memory writes of the emitted code
are those of (1) `ensureInToSpace` on the base of a heap field, (2) pre-write
logging of the reference read at the field address taken from the barriered
base, in the memory step 1 left, (3) the store-value barrier on the new value,
(4) the raw store of the barriered value at that field address and (5) the
matrix record for that field address and the barriered value.  The value that
step 2 logs is thus the content of the field before the raw store of step 4.
The registers are as `StoreRegisters` lists them, the base of a heap store is
not null, and the thread's SATB index and buffer cells are distinct. -/
theorem store_at_steps (vm : VM) (rt : Runtime) (decorators : DecoratorSet) (type : BasicType)
    (dst : Address) (val tmp1 tmp2 : Register) (s : Machine)
    (htype : type = BasicType.T_OBJECT ∨ type = BasicType.T_ARRAY)
    (hr : StoreRegisters vm dst val tmp1 tmp2)
    (hbase : decorators.IN_HEAP = true → s.regs dst.base ≠ 0)
    (hab : (s.regs r15_thread + vm.satb_mark_queue_buffer_offset) % W ≠
      (s.regs r15_thread + vm.satb_mark_queue_index_offset) % W) :
    (store_at vm rt decorators type dst val tmp1 tmp2 s).mem =
      (storeReference vm rt decorators.IN_HEAP decorators.IN_CONCURRENT_ROOT
        (s.regs r15_thread) s.mem s.pool (s.regs dst.base)
        ((if dst.index = noreg then 0 else s.regs dst.index * dst.scale) + dst.disp)
        (s.regs val)).mem ∧
    (store_at vm rt decorators type dst val tmp1 tmp2 s).pool =
      (storeReference vm rt decorators.IN_HEAP decorators.IN_CONCURRENT_ROOT
        (s.regs r15_thread) s.mem s.pool (s.regs dst.base)
        ((if dst.index = noreg then 0 else s.regs dst.index * dst.scale) + dst.disp)
        (s.regs val)).pool ∧
    upcalls (store_at vm rt decorators type dst val tmp1 tmp2 s).trace = upcalls s.trace ++
      (storeReference vm rt decorators.IN_HEAP decorators.IN_CONCURRENT_ROOT
        (s.regs r15_thread) s.mem s.pool (s.regs dst.base)
        ((if dst.index = noreg then 0 else s.regs dst.index * dst.scale) + dst.disp)
        (s.regs val)).calls ∧
    stores (store_at vm rt decorators type dst val tmp1 tmp2 s).trace = stores s.trace ++
      (storeReference vm rt decorators.IN_HEAP decorators.IN_CONCURRENT_ROOT
        (s.regs r15_thread) s.mem s.pool (s.regs dst.base)
        ((if dst.index = noreg then 0 else s.regs dst.index * dst.scale) + dst.disp)
        (s.regs val)).writes := by
  have hval := hr.val_given
  -- the stages of the emitted code
  obtain ⟨s1, hs1⟩ : ∃ s1, (if decorators.IN_HEAP = true then write_barrier vm rt dst.base s
    else s) = s1 := ⟨_, rfl⟩
  obtain ⟨sF, hsF⟩ : ∃ sF, store_at_flatten dst tmp1 s1 = sF := ⟨_, rfl⟩
  obtain ⟨s2, hs2⟩ : ∃ s2, (if decorators.IN_HEAP = true ∨ decorators.IN_CONCURRENT_ROOT = true
    then shenandoah_write_barrier_pre vm rt tmp1 tmp2 r15_thread r8 true false sF
    else sF) = s2 := ⟨_, rfl⟩
  obtain ⟨s3, hs3⟩ : ∃ s3, storeval_barrier vm rt val r8 s2 = s3 := ⟨_, rfl⟩
  obtain ⟨M, hM⟩ : ∃ M, (if decorators.IN_HEAP = true ∧ vm.UseShenandoahMatrix = true ∧
    vm.UseCompressedOops = true then movptr_rr tmp2 val s3 else s3) = M := ⟨_, rfl⟩
  obtain ⟨s4, hs4⟩ : ∃ s4,
    BarrierSetAssembler.store_at vm decorators type (Address.mk2 tmp1 0) val M = s4 := ⟨_, rfl⟩
  have hrun : store_at vm rt decorators type dst val tmp1 tmp2 s =
      if decorators.IN_HEAP = true ∧ vm.UseShenandoahMatrix = true then
        shenandoah_write_barrier_post vm tmp1
          (if decorators.IN_HEAP = true ∧ vm.UseShenandoahMatrix = true ∧
            vm.UseCompressedOops = true then tmp2 else val) r8 tmp2 s4
      else s4 := by
    subst hs1 hsF hs2 hs3 hM hs4
    cases hh : decorators.IN_HEAP <;> cases hm : vm.UseShenandoahMatrix <;>
      cases hc : vm.UseCompressedOops <;>
      simp [store_at, htype, hval, hh, hm, hc]
  rw [hrun]
  simp only [storeReference]
  -- step 1
  generalize hE1 : (if decorators.IN_HEAP = true ∧ vm.ShenandoahWriteBarrier = true then
      ensureInToSpace vm rt (s.regs r15_thread) s.mem s.pool (s.regs dst.base)
    else (⟨s.regs dst.base, s.mem, s.pool, [], []⟩ : Effect)) = E1
  have h1 : s1.regs dst.base = E1.ret ∧ s1.mem = E1.mem ∧ s1.pool = E1.pool ∧
      upcalls s1.trace = upcalls s.trace ++ E1.calls ∧
      stores s1.trace = stores s.trace ++ E1.writes ∧ s1.stack = s.stack ∧
      (∀ x, x ≠ dst.base → x ≠ rscratch1 → survivesWriteBarrier vm x = true →
        s1.regs x = s.regs x) := by
    rw [← hs1, ← hE1]
    cases hh : decorators.IN_HEAP
    · simp
    · cases hw : vm.ShenandoahWriteBarrier
      · simp [write_barrier, hw]
      · simp only [write_barrier, hw, if_true, and_self]
        exact write_barrier_impl_effect vm rt dst.base s hr.base_scratch hr.arg1_scratch
          (hbase hh)
  clear hE1 hs1 hrun
  obtain ⟨a1, a2, a3, a4, a5, a6, a7⟩ := h1
  have hcsT : survivesWriteBarrier vm r15_thread = true := by
    have hcs : calleeSaved r15_thread = true := rfl
    simp [survivesWriteBarrier, hcs, Ne.symm hr.arg0_thread]
  have hsv : survivesWriteBarrier vm val = true := by
    rcases hr.val_kept with h | ⟨h, h'⟩
    · simp [survivesWriteBarrier, h]
    · simp [survivesWriteBarrier, h, h']
  have hT1 : s1.regs r15_thread = s.regs r15_thread :=
    a7 _ (Ne.symm hr.base_thread) (by decide) hcsT
  have hV1 : s1.regs val = s.regs val := a7 val (Ne.symm hr.base_val) hr.val_scratch hsv
  have hI1 : (if dst.index = noreg then 0 else s1.regs dst.index * dst.scale) =
      (if dst.index = noreg then 0 else s.regs dst.index * dst.scale) := by
    rcases hr.index_kept with h | ⟨h, h', h''⟩
    · simp [h]
    · rw [a7 _ h h' h'']
  have hF1 : ea dst s1 = (E1.ret +
      ((if dst.index = noreg then 0 else s.regs dst.index * dst.scale) + dst.disp)) % W := by
    simp only [ea, a1, hI1, Nat.add_assoc]
  obtain ⟨f1, f2, f3, f4, f5, f6⟩ := store_at_flatten_spec dst tmp1 s1
  rw [hsF] at f1 f2 f3 f4 f5 f6
  clear hsF
  generalize hFd : (E1.ret +
      ((if dst.index = noreg then 0 else s.regs dst.index * dst.scale) + dst.disp)) % W = Fd
    at hF1 ⊢
  rw [hF1] at f1
  clear hFd hF1 hI1 a1 a7
  have hTF : sF.regs r15_thread = s.regs r15_thread := by
    rw [f6 _ (Ne.symm hr.tmp1_thread), hT1]
  have hVF : sF.regs val = s.regs val := by rw [f6 _ hr.val_tmp1, hV1]
  rw [← f2] at a2
  rw [← f3] at a3
  rw [← f4] at a4 a5
  clear f2 f3 f4 f6 hT1 hV1 a6 f5
  -- step 2
  generalize hE2 : (if (decorators.IN_HEAP = true ∨ decorators.IN_CONCURRENT_ROOT = true) ∧
      vm.ShenandoahSATBBarrier = true then
      satbLog vm rt (s.regs r15_thread) E1.mem E1.pool (casOop vm (E1.mem Fd))
    else (⟨0, E1.mem, E1.pool, [], []⟩ : Effect)) = E2
  have h2 : s2.mem = E2.mem ∧ s2.pool = E2.pool ∧
      upcalls s2.trace = upcalls sF.trace ++ E2.calls ∧
      stores s2.trace = stores sF.trace ++ E2.writes ∧
      s2.regs tmp1 = sF.regs tmp1 ∧ s2.regs val = sF.regs val ∧
      s2.regs r15_thread = sF.regs r15_thread := by
    rw [← hs2, ← hE2]
    by_cases hp : (decorators.IN_HEAP = true ∨ decorators.IN_CONCURRENT_ROOT = true) ∧
        vm.ShenandoahSATBBarrier = true
    · have hv : satbValue vm tmp1 tmp2 sF = casOop vm (E1.mem Fd) := by
        simp only [satbValue, hr.tmp1_given, if_false, f1, a2]
      obtain ⟨b1, b2, b3, b4⟩ := satb_write_barrier_pre_effect vm rt tmp1 tmp2 r8 true false sF
        (Ne.symm hr.tmp2_r8) (by decide) hr.tmp2_thread hr.tmp2_arg1 hr.arg0_arg1
        hr.arg0_thread (by rw [hTF]; exact hab)
      rw [hv, hTF, a2, a3] at b1 b2 b3 b4
      obtain ⟨_, c2⟩ := satb_write_barrier_pre_frame vm rt tmp1 tmp2 r15_thread r8 true false sF
      have c3 := satb_write_barrier_pre_keeps vm rt tmp1 tmp2 r15_thread r8 true false sF
      simp only [hp, hp.1, and_self, if_true, shenandoah_write_barrier_pre]
      refine ⟨b1, b2, b3, b4, ?_, ?_, ?_⟩
      · exact c2 tmp1 rfl hr.tmp1_given hr.tmp1_r8 (fun _ => hr.tmp1_tmp2) (Or.inr (Or.inr rfl))
      · rcases hr.val_kept with h | ⟨h, h'⟩
        · exact c2 val rfl hr.val_given hr.val_r8 (fun _ => hr.val_tmp2) (Or.inl h)
        · exact c3 val h hr.val_given h' hr.val_arg1 hr.val_r8 (fun _ => hr.val_tmp2)
      · exact c3 r15_thread rfl (by decide) (Ne.symm hr.arg0_thread) (Ne.symm hr.arg1_thread)
          (by decide) (fun _ => Ne.symm hr.tmp2_thread)
    · simp only [hp, if_false, List.append_nil]
      by_cases hq : decorators.IN_HEAP = true ∨ decorators.IN_CONCURRENT_ROOT = true
      · have hsb : vm.ShenandoahSATBBarrier = false := by
          cases h : vm.ShenandoahSATBBarrier
          · rfl
          · exact absurd ⟨hq, h⟩ hp
        simp [hq, shenandoah_write_barrier_pre, hsb, a2, a3]
      · simp [hq, a2, a3]
  clear hE2 hs2
  obtain ⟨b1, b2, b3, b4, b5, b6, b7⟩ := h2
  rw [hVF] at b6
  rw [hTF] at b7
  rw [a4] at b3
  rw [a5] at b4
  have hF2 : ea (Address.mk2 tmp1 0) s2 = Fd := by
    rw [← f1]; simp [ea, Address.mk2, b5]
  clear a2 a3 a4 a5 f1 hTF hVF b5
  have hR2 : s2.regs tmp1 % W = Fd := by
    rw [← hF2]; simp [ea, Address.mk2]
  clear hF2
  -- step 3
  generalize hE3 : storeValue vm rt (s.regs r15_thread) E2.mem E2.pool (s.regs val) = E3
  have h3 := storeval_barrier_effect vm rt val r8 s2 hr.val_given hr.val_scratch hr.arg1_scratch
    (Ne.symm hr.val_r8) (by decide) hr.val_thread hr.val_arg1 hr.arg0_arg1 hr.arg0_thread
    hr.val_saved (by rw [b7]; exact hab)
  rw [hs3, b7, b1, b2, b6, hE3, b3, b4] at h3
  obtain ⟨c1, c2, c3, c4, c5, _, c7⟩ := h3
  have c8 : s3.regs tmp1 = s2.regs tmp1 :=
    c7 tmp1 (Ne.symm hr.val_tmp1) hr.tmp1_scratch hr.tmp1_saved hr.tmp1_kept
  rw [← c8] at hR2
  clear hE3 hs3 b1 b2 b3 b4 b6 b7 c7 c8
  -- the copy of the value for step 5
  have hM1 : M.mem = s3.mem ∧ M.pool = s3.pool ∧ M.trace = s3.trace ∧
      M.regs tmp1 = s3.regs tmp1 ∧ M.regs val = s3.regs val ∧
      (decorators.IN_HEAP = true ∧ vm.UseShenandoahMatrix = true ∧
        vm.UseCompressedOops = true → M.regs tmp2 = s3.regs val) := by
    rw [← hM]
    split
    · simp [movptr_rr, setReg, hr.tmp1_tmp2, hr.val_tmp2]
    · next h => exact ⟨rfl, rfl, rfl, rfl, rfl, fun h' => absurd h' h⟩
  obtain ⟨m1, m2, m3, m4, m5, m6⟩ := hM1
  rw [c1] at m5 m6
  rw [c2] at m1
  rw [c3] at m2
  rw [← m3] at c4 c5
  rw [← m4] at hR2
  clear hM c1 c2 c3 m3 m4
  -- step 4
  obtain ⟨d1, d2, d3, d4, d5, d6⟩ := raw_store_effect vm decorators type tmp1 val M htype
    hr.val_given hr.val_tmp1
  have hea : ea (Address.mk2 tmp1 0) M = Fd := by
    rw [← hR2]; simp [ea, Address.mk2]
  rw [hs4, hea, m5, m1] at d1
  rw [hs4, m2] at d2
  rw [hs4, c4] at d3
  rw [hs4, hea, m5, c5] at d4
  rw [hs4] at d5 d6
  have hR4 : s4.regs tmp1 % W = Fd := by rw [d5 tmp1 (Ne.symm hr.val_tmp1)]; exact hR2
  have hN4 : decorators.IN_HEAP = true ∧ vm.UseShenandoahMatrix = true →
      s4.regs (if decorators.IN_HEAP = true ∧ vm.UseShenandoahMatrix = true ∧
        vm.UseCompressedOops = true then tmp2 else val) = E3.ret := by
    intro hp
    by_cases hc : vm.UseCompressedOops = true
    · have hk : decorators.IN_HEAP = true ∧ vm.UseShenandoahMatrix = true ∧
          vm.UseCompressedOops = true := ⟨hp.1, hp.2, hc⟩
      rw [if_pos hk, d5 tmp2 (Ne.symm hr.val_tmp2)]
      exact m6 hk
    · have hk : ¬ (decorators.IN_HEAP = true ∧ vm.UseShenandoahMatrix = true ∧
          vm.UseCompressedOops = true) := fun h => hc h.2.2
      rw [if_neg hk, d6 (fun h => hc h.2)]
      exact m5
  clear hs4 hea m1 m2 m5 m6 c4 c5 d5 d6 hR2
  -- step 5
  by_cases hp : decorators.IN_HEAP = true ∧ vm.UseShenandoahMatrix = true
  · obtain ⟨e1, e2, e3, e4⟩ := shenandoah_write_barrier_post_effect vm tmp1
      (if decorators.IN_HEAP = true ∧ vm.UseShenandoahMatrix = true ∧
        vm.UseCompressedOops = true then tmp2 else val) r8 tmp2 s4
      ⟨Ne.symm hr.tmp2_r8, by decide, hr.tmp2_scratch, by decide, hr.tmp1_r8, hr.tmp1_scratch,
        by split <;> [exact hr.tmp2_scratch; exact hr.val_scratch]⟩
    rw [hR4, hN4 hp, d1] at e1 e4
    rw [d2] at e2
    rw [d3] at e3
    rw [d4] at e4
    simp only [if_pos hp, if_pos hp.1]
    exact ⟨e1, e2, by simpa only [List.append_assoc] using e3,
      by simpa only [List.append_assoc] using e4⟩
  · simp only [if_neg hp]
    by_cases hh : decorators.IN_HEAP = true
    · have hm : vm.UseShenandoahMatrix = false := by
        cases h : vm.UseShenandoahMatrix
        · rfl
        · exact absurd ⟨hh, h⟩ hp
      simp only [if_pos hh, record, hm, Bool.false_eq_true, false_and, if_false,
        List.append_nil]
      exact ⟨d1, d2, by simpa only [List.append_assoc] using d3,
        by simpa only [List.append_assoc] using d4⟩
    · simp only [if_neg hh, List.append_nil]
      exact ⟨d1, d2, by simpa only [List.append_assoc] using d3,
        by simpa only [List.append_assoc] using d4⟩
/-- Witness for C13: on `mEvac`, in the enqueue mode, the store of 48 into the
field at 312 is the step sequence: one relocation call on 48, the raw store of
the copy 64 at 312 and the matrix cell of (312, 64); on `mStore`, while marking,
the writes are the log of the old value 32, the log of the new value 48, the
raw store of 48 at 312 and the matrix cell of (312, 48), in this order. -/
theorem store_at_steps_witness :
    StoreRegisters vmEnq ⟨rcx, noreg, 1, 8⟩ rax rdx rbx ∧
    mEvac.regs rcx ≠ 0 ∧
    (store_at vmEnq rtCopy { IN_HEAP := true } BasicType.T_OBJECT ⟨rcx, noreg, 1, 8⟩ rax rdx rbx
      mEvac).mem = (storeReference vmEnq rtCopy true false 200 mEvac.mem [] 304 8 48).mem ∧
    stores (store_at vmEnq rtCopy { IN_HEAP := true } BasicType.T_OBJECT ⟨rcx, noreg, 1, 8⟩
      rax rdx rbx mEvac).trace =
        (storeReference vmEnq rtCopy true false 200 mEvac.mem [] 304 8 48).writes ∧
    (storeReference vmEnq rtCopy true false 200 mEvac.mem [] 304 8 48).calls =
      [(Entry.write_barrier_IRT, [48])] ∧
    (storeReference vmEnq rtCopy true false 200 mEvac.mem [] 304 8 48).writes =
      [(312, 64), (2051, 1)] ∧
    stores (store_at vmAll rtIdle { IN_HEAP := true } BasicType.T_OBJECT ⟨rcx, noreg, 1, 8⟩
      rax rdx rbx mStore).trace =
        (storeReference vmAll rtIdle true false 200 mStore.mem [] 304 8 48).writes ∧
    (storeReference vmAll rtIdle true false 200 mStore.mem [] 304 8 48).writes =
      [(216, 8), (408, 32), (216, 0), (400, 48), (312, 48), (2043, 1)] :=
  have hregs : StoreRegisters vmEnq ⟨rcx, noreg, 1, 8⟩ rax rdx rbx := by
    constructor <;> decide
  have hregs' : StoreRegisters vmAll ⟨rcx, noreg, 1, 8⟩ rax rdx rbx := by
    constructor <;> decide
  have h := store_at_steps vmEnq rtCopy { IN_HEAP := true } BasicType.T_OBJECT
    ⟨rcx, noreg, 1, 8⟩ rax rdx rbx mEvac (Or.inl rfl) hregs (fun _ => by decide) (by decide)
  have h' := store_at_steps vmAll rtIdle { IN_HEAP := true } BasicType.T_OBJECT
    ⟨rcx, noreg, 1, 8⟩ rax rdx rbx mStore (Or.inl rfl) hregs' (fun _ => by decide) (by decide)
  ⟨hregs, by decide, h.1, h.2.2.2, by decide, by decide, h'.2.2.2, by decide⟩

end Shenandoah
